import Mathlib

/-!
# Team signature-chain player (`go/teams/chain.go`)

A shallow embedding of the team sigchain player and the properties of its
link processor.

Conventions of the embedding.

* Go pointers that may be `nil` are `Option`s; `error` results are `Except Err`.
* Go maps are finite maps `GoMap` (an association list without repeated keys);
  reading an absent key gives the zero value, as in Go.
* `keybase1.Seqno` (`int64`) and `keybase1.PerTeamKeyGeneration` (`int`) are
  `Int`: a chain that starts at seqno 1 would need `2^63` links to wrap.
  `wrapInt64` is the `int64` value of a sum; the continuity theorem excludes the
  prior state in which `LastSeqno + 1` would wrap.
* `DeepCopy` is the identity on values.
* Functions of `libkb`, `keybase1` and the JSON / msgpack codecs whose bodies are
  not part of `chain.go` are fields of `Env`.
-/

namespace Teams

/-! ## Finite maps -/

/-- A Go `map[K]V`: an association list whose keys are pairwise different. -/
structure GoMap (K V : Type) where
  entries : List (K × V)
  nodup : (entries.map Prod.fst).Nodup
deriving DecidableEq

namespace GoMap

variable {K V : Type} [DecidableEq K]

/-- The map made by `make(map[K]V)`. -/
def empty : GoMap K V := ⟨[], List.nodup_nil⟩

/-- Lookup in an association list. -/
def lookupEntries : List (K × V) → K → Option V
  | [], _ => none
  | (k', v) :: rest, k => if k' = k then some v else lookupEntries rest k

/-- Assignment in an association list: overwrite the key where it stands, or add it at the end. -/
def setEntries : List (K × V) → K → V → List (K × V)
  | [], k, v => [(k, v)]
  | (k', v') :: rest, k, v => if k' = k then (k, v) :: rest else (k', v') :: setEntries rest k v

/-- Go map read with the comma-ok form: the value stored under `k`, if any. -/
def get? (m : GoMap K V) (k : K) : Option V := lookupEntries m.entries k

/-- Go map assignment of `v` to the key `k`. -/
def set (m : GoMap K V) (k : K) (v : V) : GoMap K V :=
  ⟨setEntries m.entries k v, by
    have keys : ∀ (l : List (K × V)) (x : K),
        x ∈ (setEntries l k v).map Prod.fst ↔ x = k ∨ x ∈ l.map Prod.fst := by
      intro l x
      induction l with
      | nil => simp [setEntries]
      | cons hd tl ih =>
        obtain ⟨k', v'⟩ := hd
        by_cases h : k' = k
        · subst h
          simp [setEntries]
        · simp only [setEntries, h, if_false, List.map_cons, List.mem_cons, ih]
          tauto
    have main : ∀ l : List (K × V), (l.map Prod.fst).Nodup →
        ((setEntries l k v).map Prod.fst).Nodup := by
      intro l
      induction l with
      | nil => simp [setEntries]
      | cons hd tl ih =>
        obtain ⟨k', v'⟩ := hd
        intro h
        simp only [List.map_cons, List.nodup_cons] at h
        by_cases hk : k' = k
        · subst hk
          simpa [setEntries] using h
        · simp only [setEntries, hk, if_false, List.map_cons, List.nodup_cons]
          refine ⟨?_, ih h.2⟩
          intro hmem
          rcases (keys tl k').1 hmem with h1 | h1
          · exact hk h1
          · exact h.1 h1
    exact main m.entries m.nodup⟩

/-- Go `len(m)`. -/
def len (m : GoMap K V) : Nat := m.entries.length

/-- The keys of the map, in the order the entries are stored. -/
def keys (m : GoMap K V) : List K := m.entries.map Prod.fst

end GoMap

/-! ## Data model (`keybase1` types used by `chain.go`) -/

abbrev Seqno := Int
abbrev UID := String
abbrev TeamID := String
/-- The exported form `keybase1.LinkID` of a link hash. -/
abbrev LinkID := String
/-- The byte slice `libkb.LinkID`. -/
abbrev LibkbLinkID := List Nat
abbrev KID := String
abbrev PerTeamKeyGeneration := Int

structure UserVersion where
  Uid : UID
  EldestSeqno : Seqno
deriving DecidableEq, Repr

inductive TeamRole where
  | NONE
  | READER
  | WRITER
  | ADMIN
  | OWNER
deriving DecidableEq, Repr

structure UserLogPoint where
  Role : TeamRole
  Seqno : Seqno
deriving DecidableEq, Repr

structure TeamName where
  Parts : List String
deriving DecidableEq, Repr

structure SubteamLogPoint where
  Name : TeamName
  Seqno : Seqno
deriving DecidableEq, Repr

structure PerTeamKey where
  Gen : PerTeamKeyGeneration
  Seqno : Seqno
  SigKID : KID
  EncKID : KID
deriving DecidableEq, Repr

/-- The record `keybase1.TeamSigChainState` wrapped by `TeamSigChainState`. -/
structure TeamSigChainState where
  Reader : UserVersion
  Id : TeamID
  Name : TeamName
  LastSeqno : Seqno
  LastLinkID : LinkID
  ParentID : Option TeamID
  UserLog : GoMap UserVersion (List UserLogPoint)
  SubteamLog : GoMap TeamID (List SubteamLogPoint)
  PerTeamKeys : GoMap PerTeamKeyGeneration PerTeamKey
  StubbedTypes : GoMap Int Bool
deriving DecidableEq

/-! ## Errors -/

/-- Go `error` values.  `msg` is an error made by `errors.New` or `fmt.Errorf` (named by the
fixed part of its message), `wrap` an error that embeds another one behind a prefix,
`atBeginning` and `atSeqno` the two wrappers of `addChainLinksCommon`, and `panic` a run-time
panic (an index out of range). -/
inductive Err where
  | msg : String → Err
  | wrap : String → Err → Err
  | atBeginning : Err → Err
  | atSeqno : Seqno → Err → Err
  | panic : String → Err
deriving DecidableEq, Repr

deriving instance DecidableEq for Except

/-! ## Links (`SCChainLink` and its decoded parts) -/

/-- Modelled from the spec: the struct `SCChainLink` (declared outside `chain.go`), with the
fields `chain.go` reads: `Seqno`, `Sig`, `Payload`, `UID`, `Version`. -/
structure SCChainLink where
  Seqno : Seqno
  Sig : String
  Payload : String
  UID : UID
  Version : Int
deriving DecidableEq, Repr

/-- Modelled from the spec: `members{owners,admins,writers,readers,none}`, each list optional;
an `SCTeamMember` is a `keybase1.UserVersion`. -/
structure SCTeamMembers where
  Owners : Option (List UserVersion)
  Admins : Option (List UserVersion)
  Writers : Option (List UserVersion)
  Readers : Option (List UserVersion)
  None : Option (List UserVersion)
deriving DecidableEq, Repr

/-- Modelled from the spec: `parent{id,seqno}`. -/
structure SCTeamParent where
  ID : String
  Seqno : Seqno
deriving DecidableEq, Repr

/-- Modelled from the spec: `subteam{id,name}`. -/
structure SCSubteam where
  ID : String
  Name : String
deriving DecidableEq, Repr

/-- Modelled from the spec: `per_team_key{generation, sig_kid, enc_kid, reverse_sig}`. -/
structure SCPerTeamKey where
  Generation : PerTeamKeyGeneration
  EncKID : KID
  SigKID : KID
  ReverseSig : String
deriving DecidableEq, Repr

/-- Modelled from the spec: the `admin{...}` section; `chain.go` only tests its presence. -/
structure SCTeamAdmin where
  TeamID : String
  Seqno : Seqno
deriving DecidableEq, Repr

/-- Modelled from the spec: `TeamSection` with its optional sub-fields. -/
structure SCTeamSection where
  ID : String
  Name : Option String
  Members : Option SCTeamMembers
  Parent : Option SCTeamParent
  Subteam : Option SCSubteam
  PerTeamKey : Option SCPerTeamKey
  Admin : Option SCTeamAdmin
deriving DecidableEq, Repr

/-- Modelled from the spec: `body: { version, type, team: TeamSection }`. -/
structure SCPayloadBody where
  Team : Option SCTeamSection
  Type_ : String
  Version : Int
deriving DecidableEq, Repr

/-- Modelled from the spec: the inner link, `tag`, `seqno`, `prev`, `ctime`, `expire_in`,
`seq_type`, `body`. -/
structure SCChainLinkPayload where
  Body : SCPayloadBody
  Ctime : Int
  ExpireIn : Int
  Prev : Option String
  SeqType : Int
  Seqno : Seqno
  Tag : String
deriving DecidableEq, Repr

/-- Modelled from the spec: the outer link `libkb.OuterLinkV2WithMetadata`, with fields
`version`, `seqno`, `prev`, `curr`, `link_type`. -/
structure OuterLinkV2 where
  Version : Int
  Seqno : Seqno
  Prev : LibkbLinkID
  Curr : LibkbLinkID
  LinkType : Int
deriving DecidableEq, Repr

/-! ## Functions of other packages -/

/-- The functions `chain.go` calls whose bodies live in `libkb`, `keybase1`, `jsonw` or in
the link codec.  Parsers return `none` on an error, checks return `true` when they pass. -/
structure Env where
  /-- `libkb.DecodeOuterLinkV2(link.Sig)`. -/
  decodeOuterLinkV2 : String → Option OuterLinkV2
  /-- `outerLink.LinkID().Export()`: the exported hash of the outer link. -/
  outerLinkID : OuterLinkV2 → LinkID
  /-- `outerLink.AssertSomeFields(version, seqno)`. -/
  assertSomeFields : OuterLinkV2 → Int → Seqno → Bool
  /-- `libkb.ImportLinkID`. -/
  importLinkID : LinkID → Option LibkbLinkID
  /-- `link.UnmarshalPayload()` as a function of `link.Payload`. -/
  unmarshalPayload : String → Option SCChainLinkPayload
  /-- `link.PayloadHash()` as a function of `link.Payload`. -/
  payloadHash : String → LibkbLinkID
  /-- `libkb.LinkIDFromHex`. -/
  linkIDFromHex : String → Option LibkbLinkID
  /-- `libkb.SigchainV2TypeFromV1TypeTeams`. -/
  sigchainV2TypeFromV1TypeTeams : String → Option Int
  /-- `outerLink.AssertFields(version, seqno, prev, curr, linkType)`. -/
  assertFields : OuterLinkV2 → Int → Seqno → LibkbLinkID → LibkbLinkID → Int → Bool
  /-- `keybase1.TeamIDFromString`. -/
  teamIDFromString : String → Option TeamID
  /-- `TeamID.IsSubTeam`: the tag byte of the ID marks a subteam. -/
  teamIDIsSubTeam : TeamID → Bool
  /-- `keybase1.TeamNameFromString`. -/
  teamNameFromString : String → Option TeamName
  /-- `TeamName.ToTeamID`: the hash of the name. -/
  teamNameToTeamID : TeamName → TeamID
  /-- The charset check on a name part made by `TeamName.Append`. -/
  validNamePart : String → Bool
  /-- `libkb.ImportNaclSigningKeyPairFromHex`: the imported key, here its KID. -/
  importNaclSigningKeyPairFromHex : KID → Option KID
  /-- `libkb.ImportNaclDHKeyPairFromHex` succeeds. -/
  importNaclDHKeyPairFromHex : KID → Bool
  /-- `jsonw.Unmarshal(link.Payload)` succeeds. -/
  jsonwUnmarshal : String → Bool
  /-- `libkb.VerifyReverseSig(g, key, path, payload, reverseSig)` succeeds, for the path
  `body.team.per_team_key.reverse_sig`. -/
  verifyReverseSig : KID → String → String → Bool

/-! ## Names and IDs -/

/-- Lower-casing of a name part, character by character. -/
def lowerPart (s : String) : String := ⟨s.data.map Char.toLower⟩

namespace TeamName

/-- Modelled from the spec: `TeamName::is_root()` is "single part". -/
def IsRootTeam (t : TeamName) : Bool := t.Parts.length == 1

/-- Modelled from the spec: `TeamName::last_part()` returns the tail; `none` stands for the
index panic on a name without parts. -/
def LastPart (t : TeamName) : Option String := t.Parts.getLast?

/-- Modelled from the spec: `TeamName::eq(other)` is case-insensitive on parts. -/
def Eq (t t2 : TeamName) : Bool := decide (t.Parts.map lowerPart = t2.Parts.map lowerPart)

/-- Modelled from the spec: `TeamName::append(part)` validates the part charset and returns a
new name. -/
def Append (env : Env) (t : TeamName) (part : String) : Except Err TeamName :=
  if env.validNamePart part then .ok ⟨t.Parts ++ [part]⟩ else .error (.msg "malformed name")

end TeamName

/-- Modelled from the spec: `TeamID` equality (`Eq`, `Equal`) compares the two values. -/
def TeamID.Equal (a b : TeamID) : Bool := decide (a = b)

/-- Create a new user/version pair. -/
def NewUserVersion (uid : UID) (eldestSeqno : Seqno) : UserVersion :=
  { Uid := uid, EldestSeqno := eldestSeqno }

def TeamSigChainPlayerSupportedLinkVersion : Int := 2

/-! ## Accessors of the chain state -/

namespace TeamSigChainState

def DeepCopy (t : TeamSigChainState) : TeamSigChainState := t

def GetID (t : TeamSigChainState) : TeamID := t.Id

def GetName (t : TeamSigChainState) : TeamName := t.Name

def IsSubteam (t : TeamSigChainState) : Bool := t.ParentID.isSome

def GetLatestSeqno (t : TeamSigChainState) : Seqno := t.LastSeqno

def GetLatestLinkID (t : TeamSigChainState) : LinkID := t.LastLinkID

def GetLatestGeneration (t : TeamSigChainState) : PerTeamKeyGeneration := (t.PerTeamKeys.len : Int)

/-- The Go read `t.inner.UserLog[user]`: the nil slice for an absent user. -/
def userLogOf (t : TeamSigChainState) (user : UserVersion) : List UserLogPoint :=
  (t.UserLog.get? user).getD []

/-- The Go read `t.inner.SubteamLog[id]`: the nil slice for an absent subteam. -/
def subteamLogOf (t : TeamSigChainState) (id : TeamID) : List SubteamLogPoint :=
  (t.SubteamLog.get? id).getD []

def getUserRole (t : TeamSigChainState) (user : UserVersion) : TeamRole :=
  match (t.userLogOf user).getLast? with
  | none => TeamRole.NONE
  | some point => point.Role

def GetUserRole (t : TeamSigChainState) (user : UserVersion) : Except Err TeamRole :=
  .ok (t.getUserRole user)

def GetUserLogPoint (t : TeamSigChainState) (user : UserVersion) : Option UserLogPoint :=
  (t.userLogOf user).getLast?

def GetAdminUserLogPoint (t : TeamSigChainState) (user : UserVersion) : Option UserLogPoint :=
  match t.GetUserLogPoint user with
  | none => none
  | some ret =>
    if ret.Role ≠ TeamRole.ADMIN ∧ ret.Role ≠ TeamRole.OWNER then none else some ret

def GetUsersWithRole (t : TeamSigChainState) (role : TeamRole) : Except Err (List UserVersion) :=
  if role = TeamRole.NONE then .error (.msg "cannot get users with NONE role")
  else .ok (t.UserLog.keys.filter (fun uv => decide (t.getUserRole uv = role)))

def GetLatestPerTeamKey (t : TeamSigChainState) : Except Err PerTeamKey :=
  match t.PerTeamKeys.get? (t.PerTeamKeys.len : Int) with
  | none => .error (.msg "per-team-key not found")
  | some res => .ok res

def GetPerTeamKeyAtGeneration (t : TeamSigChainState) (gen : PerTeamKeyGeneration) :
    Except Err PerTeamKey :=
  match t.PerTeamKeys.get? gen with
  | none => .error (.msg "per-team-key not found for generation")
  | some res => .ok res

def HasAnyStubbedLinks (t : TeamSigChainState) : Bool :=
  t.StubbedTypes.entries.any (fun e => e.2)

def getLastSubteamPoint (t : TeamSigChainState) (id : TeamID) : Option SubteamLogPoint :=
  (t.subteamLogOf id).getLast?

def GetSubteamName (t : TeamSigChainState) (id : TeamID) : Except Err TeamName :=
  match t.getLastSubteamPoint id with
  | some lastPoint => .ok lastPoint.Name
  | none => .error (.msg "subteam not found")

/-- Inform the UserLog of a user's role. -/
def inform (t : TeamSigChainState) (u : UserVersion) (role : TeamRole) (seqno : Seqno) :
    TeamSigChainState :=
  if t.getUserRole u = role then t
  else { t with UserLog := t.UserLog.set u (t.userLogOf u ++ [{ Role := role, Seqno := seqno }]) }

/-- The inner loop of `checkSubteamCollision`: the name of the last point (in log order) whose
seqno is below `seqno`, the zero `TeamName` when there is none. -/
def otherNameAt (points : List SubteamLogPoint) (seqno : Seqno) : TeamName :=
  points.foldl (fun otherName point => if point.Seqno < seqno then point.Name else otherName)
    { Parts := [] }

/-- Check that there is no other subteam with this name at this seqno. -/
def checkSubteamCollision (t : TeamSigChainState) (id : TeamID) (name : TeamName)
    (seqno : Seqno) : Option Err :=
  if t.SubteamLog.entries.any
      (fun e => !(TeamID.Equal e.1 id) && (otherNameAt e.2 seqno).Eq name) then
    some (.msg "multiple subteams named")
  else none

/-- Inform the SubteamLog of a subteam name change. -/
def informSubteam (t : TeamSigChainState) (id : TeamID) (name : TeamName) (seqno : Seqno) :
    Except Err TeamSigChainState :=
  match t.getLastSubteamPoint id with
  | some lastPoint =>
    if lastPoint.Seqno = seqno then .error (.msg "re-entry into subteam log for seqno")
    else if seqno < lastPoint.Seqno then .error (.msg "cannot add to subteam log out of order")
    else
      match t.checkSubteamCollision id name seqno with
      | some err => .error err
      | none =>
        .ok { t with SubteamLog :=
                t.SubteamLog.set id (t.subteamLogOf id ++ [{ Name := name, Seqno := seqno }]) }
  | none =>
    match t.checkSubteamCollision id name seqno with
    | some err => .error err
    | none =>
      .ok { t with SubteamLog :=
              t.SubteamLog.set id (t.subteamLogOf id ++ [{ Name := name, Seqno := seqno }]) }

end TeamSigChainState

/-! ## The player -/

/-- Handle to a local model of a team sigchain (the mutex and the global context are left out). -/
structure TeamSigChainPlayer where
  reader : UserVersion
  storedState : Option TeamSigChainState
deriving DecidableEq

/-- Load a team chain from the perspective of uid. -/
def NewTeamSigChainPlayer (reader : UserVersion) : TeamSigChainPlayer :=
  { reader := reader, storedState := none }

def NewTeamSigChainPlayerWithState (reader : UserVersion) (state : TeamSigChainState) :
    TeamSigChainPlayer :=
  { NewTeamSigChainPlayer reader with storedState := some state }

namespace TeamSigChainPlayer

def GetState (t : TeamSigChainPlayer) : Except Err TeamSigChainState :=
  match t.storedState with
  | some st => .ok st.DeepCopy
  | none => .error (.msg "no links loaded")

/-- The loop of `sanityCheckMembers` over the collected assignments, with the `seen` set and the
result map as loop state. -/
def sanityCheckLoop : List (UserVersion × TeamRole) → GoMap UserVersion Bool →
    GoMap TeamRole (List UserVersion) → Except Err (GoMap TeamRole (List UserVersion))
  | [], _, res => .ok res
  | (uv, role) :: rest, seen, res =>
    if (seen.get? uv).getD false then .error (.msg "duplicate UID in members")
    else sanityCheckLoop rest (seen.set uv true) (res.set role ((res.get? role).getD [] ++ [uv]))

/-- The slice `all` built by `sanityCheckMembers`: every listed user with the role of its list,
owners first, then admins, writers, readers and none. -/
def allAssignments (members : SCTeamMembers) : List (UserVersion × TeamRole) :=
  (members.Owners.getD []).map (fun m => (m, TeamRole.OWNER))
    ++ (members.Admins.getD []).map (fun m => (m, TeamRole.ADMIN))
    ++ (members.Writers.getD []).map (fun m => (m, TeamRole.WRITER))
    ++ (members.Readers.getD []).map (fun m => (m, TeamRole.READER))
    ++ (members.None.getD []).map (fun m => (m, TeamRole.NONE))

/-- The map `res` of `sanityCheckMembers` before its last loop: a key with a nil slice for each
list present in the input. -/
def presentRoles (members : SCTeamMembers) : GoMap TeamRole (List UserVersion) :=
  let res : GoMap TeamRole (List UserVersion) := GoMap.empty
  let res := if members.Owners.isSome then res.set TeamRole.OWNER [] else res
  let res := if members.Admins.isSome then res.set TeamRole.ADMIN [] else res
  let res := if members.Writers.isSome then res.set TeamRole.WRITER [] else res
  let res := if members.Readers.isSome then res.set TeamRole.READER [] else res
  if members.None.isSome then res.set TeamRole.NONE [] else res

/-- Check that there are no duplicate members; rotate to a map from roles to users. -/
def sanityCheckMembers (_t : TeamSigChainPlayer) (members : SCTeamMembers)
    (requireOwners : Bool) (allowRemovals : Bool) :
    Except Err (GoMap TeamRole (List UserVersion)) :=
  if requireOwners && members.Owners.isNone then .error (.msg "team has no owner list")
  else if requireOwners && decide ((members.Owners.getD []).length < 1) then
    .error (.msg "team has no owners")
  else if !allowRemovals && (members.None.isSome && decide ((members.None.getD []).length ≠ 0)) then
    .error (.msg "team has removals in link")
  else sanityCheckLoop (allAssignments members) GoMap.empty (presentRoles members)

def checkPerTeamKey (env : Env) (_t : TeamSigChainPlayer) (link : SCChainLink)
    (perTeamKey : SCPerTeamKey) (expectedGeneration : PerTeamKeyGeneration) :
    Except Err PerTeamKey :=
  if perTeamKey.Generation ≠ expectedGeneration then
    .error (.msg "per-team-key generation must start at 1")
  else
    match env.importNaclSigningKeyPairFromHex perTeamKey.SigKID with
    | none => .error (.msg "invalid per-team-key signing KID")
    | some sigKey =>
      if !env.importNaclDHKeyPairFromHex perTeamKey.EncKID then
        .error (.msg "invalid per-team-key encryption KID")
      else if !env.jsonwUnmarshal link.Payload then
        .error (.msg "per-team-key reverse sig: failed to parse payload")
      else if !env.verifyReverseSig sigKey link.Payload perTeamKey.ReverseSig then
        .error (.msg "per-team-key reverse sig")
      else
        .ok { Gen := perTeamKey.Generation, Seqno := link.Seqno,
              SigKID := perTeamKey.SigKID, EncKID := perTeamKey.EncKID }

/-- Update the user log with the membership in `roleUpdates`.  Go visits the roles of the map in
an unspecified order; here they are visited in the order the entries are stored. -/
def updateMembership (_t : TeamSigChainPlayer) (stateToUpdate : TeamSigChainState)
    (roleUpdates : GoMap TeamRole (List UserVersion)) (seqno : Seqno) : TeamSigChainState :=
  roleUpdates.entries.foldl
    (fun st e => e.2.foldl (fun st uv => st.inform uv e.1 seqno) st) stateToUpdate

end TeamSigChainPlayer

/-! ## The link processor -/

structure checkOuterLinkResult where
  outerLink : OuterLinkV2
  signingUser : UserVersion
  /-- Optional inner link info; `none` for a stubbed link. -/
  innerLink : Option SCChainLinkPayload

structure checkInnerLinkResult where
  oRes : checkOuterLinkResult
  newState : TeamSigChainState

/-- The function `libkb.PickFirstError`: the first error of the list, if any. -/
def PickFirstError : List (Option Err) → Option Err
  | [] => none
  | some e :: _ => some e
  | none :: rest => PickFirstError rest

namespace TeamSigChainPlayer

/-- The outer checks of a link.  The sum `LastSeqno + 1` is the sum of integers; `chain.go`
computes it in `int64`, and the two agree unless `LastSeqno` is the largest `int64`. -/
def checkOuterLink (env : Env) (_t : TeamSigChainPlayer) (prevState : Option TeamSigChainState)
    (link : SCChainLink) (_alreadyVerified : Bool) : Except Err checkOuterLinkResult :=
  let seqnoOk : Bool :=
    match prevState with
    | none => decide (link.Seqno = 1)
    | some ps => decide (link.Seqno = ps.LastSeqno + 1)
  if !seqnoOk then .error (.msg "expected seqno")
  else if link.Version ≠ TeamSigChainPlayerSupportedLinkVersion then
    .error (.msg "expected version")
  else if link.Sig.length = 0 then .error (.msg "link has empty sig")
  else
    match env.decodeOuterLinkV2 link.Sig with
    | none => .error (.msg "decode outer link")
    | some outerLink =>
      let signingUser := NewUserVersion link.UID 1
      if !env.assertSomeFields outerLink link.Version link.Seqno then
        .error (.msg "outer link does not match the server info")
      else
        let prevErr : Option Err :=
          match prevState with
          | none =>
            if outerLink.Prev.length ≠ 0 then some (.msg "expected outer nil prev") else none
          | some ps =>
            match env.importLinkID ps.LastLinkID with
            | none => some (.msg "invalid prev last link id")
            | some prevStateLastLinkID =>
              if outerLink.Prev ≠ prevStateLastLinkID then some (.msg "wrong outer prev")
              else none
        match prevErr with
        | some err => .error err
        | none =>
          if link.Payload = "" then
            .ok { outerLink := outerLink, signingUser := signingUser, innerLink := none }
          else
            match env.unmarshalPayload link.Payload with
            | none => .error (.msg "error unmarshaling link payload")
            | some payload =>
              .ok { outerLink := outerLink, signingUser := signingUser,
                    innerLink := some payload }

/-- Check that the inner link matches the outer link. -/
def checkInnerOuterMatch (env : Env) (_t : TeamSigChainPlayer) (outerLink : OuterLinkV2)
    (innerLink : SCChainLinkPayload) (innerLinkHash : LibkbLinkID) : Option Err :=
  let innerPrev : Option LibkbLinkID :=
    match innerLink.Prev with
    | none => some []
    | some hex => env.linkIDFromHex hex
  match innerPrev with
  | none => some (.msg "bad inner prev")
  | some innerPrev =>
    match env.sigchainV2TypeFromV1TypeTeams innerLink.Body.Type_ with
    | none => some (.msg "unknown v1 link type")
    | some innerLinkType =>
      if env.assertFields outerLink innerLink.Body.Version innerLink.Seqno innerPrev
          innerLinkHash innerLinkType then none
      else some (.msg "inner link does not match outer link")

/-- The closure `hasPrevState` of `addInnerLink`. -/
def hasPrevState (prevState : Option TeamSigChainState) (has : Bool) : Option Err :=
  if has then
    (if prevState.isNone then some (.msg "link type unexpected at beginning") else none)
  else
    (if prevState.isSome then some (.msg "link type unexpected at seqno") else none)

/-- The closure `hasGeneric` of `addInnerLink`. -/
def hasGeneric (hasExpected : Bool) (hasReal : Bool) (attr : String) : Option Err :=
  if hasExpected ≠ hasReal then
    (if hasReal then some (.wrap "team section contains unexpected" (.msg attr))
     else some (.wrap "missing" (.msg attr)))
  else none

def hasName (team : SCTeamSection) (has : Bool) : Option Err :=
  hasGeneric has team.Name.isSome "name"

def hasMembers (team : SCTeamSection) (has : Bool) : Option Err :=
  hasGeneric has team.Members.isSome "members"

def hasParent (team : SCTeamSection) (has : Bool) : Option Err :=
  hasGeneric has team.Parent.isSome "parent"

def hasSubteam (team : SCTeamSection) (has : Bool) : Option Err :=
  hasGeneric has team.Subteam.isSome "subteam"

def hasPerTeamKey (team : SCTeamSection) (has : Bool) : Option Err :=
  hasGeneric has team.PerTeamKey.isSome "per-team-key"

def hasAdmin (team : SCTeamSection) (has : Bool) : Option Err :=
  hasGeneric has team.Admin.isSome "admin"

/-- The state literal built by the `team.root` and `team.subteam_head` cases. -/
def initialState (env : Env) (t : TeamSigChainPlayer) (teamID : TeamID) (teamName : TeamName)
    (oRes : checkOuterLinkResult) (parentID : Option TeamID) (perTeamKey : PerTeamKey) :
    TeamSigChainState :=
  { Reader := t.reader
    Id := teamID
    Name := teamName
    LastSeqno := 1
    LastLinkID := env.outerLinkID oRes.outerLink
    ParentID := parentID
    UserLog := GoMap.empty
    SubteamLog := GoMap.empty
    PerTeamKeys := (GoMap.empty : GoMap PerTeamKeyGeneration PerTeamKey).set 1 perTeamKey
    StubbedTypes := GoMap.empty }

/-- The case `"team.root"` of the switch of `addInnerLink`. -/
def addInnerLinkRoot (env : Env) (t : TeamSigChainPlayer) (prevState : Option TeamSigChainState)
    (link : SCChainLink) (oRes : checkOuterLinkResult) (team : SCTeamSection) (teamID : TeamID) :
    Except Err checkInnerLinkResult :=
  match PickFirstError [hasPrevState prevState false, hasName team true, hasMembers team true,
      hasParent team false, hasSubteam team false, hasPerTeamKey team true,
      hasAdmin team false] with
  | some err => .error err
  | none =>
    match team.Name, team.Members, team.PerTeamKey with
    | some name, some members, some ptk =>
      match env.teamNameFromString name with
      | none => .error (.msg "bad team name")
      | some teamName =>
        if !teamName.IsRootTeam then .error (.msg "root team has subteam name")
        else if !(TeamID.Equal teamID (env.teamNameToTeamID teamName)) then
          .error (.msg "team id does not match team name")
        else if env.teamIDIsSubTeam teamID then .error (.msg "malformed root team id")
        else
          match t.sanityCheckMembers members true false with
          | .error err => .error err
          | .ok roleUpdates =>
            match checkPerTeamKey env t link ptk 1 with
            | .error err => .error err
            | .ok perTeamKey =>
              let newState := initialState env t teamID teamName oRes none perTeamKey
              let newState := t.updateMembership newState roleUpdates oRes.outerLink.Seqno
              if newState.getUserRole oRes.signingUser ≠ TeamRole.OWNER then
                .error (.msg "signer is not an owner")
              else .ok { oRes := oRes, newState := newState }
    | _, _, _ => .error (.panic "nil pointer dereference")

/-- The case `"team.change_membership"` of the switch of `addInnerLink`.  The sum
`lastKey.Gen + 1` is the sum of integers, as in the case `"team.rotate_key"`. -/
def addInnerLinkChangeMembership (env : Env) (t : TeamSigChainPlayer)
    (prevState : Option TeamSigChainState) (link : SCChainLink) (oRes : checkOuterLinkResult)
    (team : SCTeamSection) : Except Err checkInnerLinkResult :=
  match PickFirstError [hasPrevState prevState true, hasName team false, hasMembers team true,
      hasParent team false, hasSubteam team false] with
  | some err => .error err
  | none =>
    match prevState, team.Members with
    | some prevState, some members =>
      match prevState.GetUserRole oRes.signingUser with
      | .error err => .error err
      | .ok signerRole =>
        if signerRole ≠ TeamRole.ADMIN ∧ signerRole ≠ TeamRole.OWNER then
          .error (.msg "link signer does not have permission to change membership")
        else
          match t.sanityCheckMembers members false true with
          | .error err => .error err
          | .ok roleUpdates =>
            let newState := prevState.DeepCopy
            let newState := t.updateMembership newState roleUpdates oRes.outerLink.Seqno
            match team.PerTeamKey with
            | none => .ok { oRes := oRes, newState := newState }
            | some ptk =>
              match prevState.GetLatestPerTeamKey with
              | .error err => .error (.wrap "getting previous per-team-key" err)
              | .ok lastKey =>
                match checkPerTeamKey env t link ptk (lastKey.Gen + 1) with
                | .error err => .error err
                | .ok newKey =>
                  .ok { oRes := oRes,
                        newState := { newState with
                          PerTeamKeys := newState.PerTeamKeys.set newKey.Gen newKey } }
    | _, _ => .error (.panic "nil pointer dereference")

/-- The case `"team.rotate_key"` of the switch of `addInnerLink`.  The sum `lastKey.Gen + 1` is
the sum of integers; Go computes it in `int`, and the two agree unless `lastKey.Gen` is the
largest `int`. -/
def addInnerLinkRotateKey (env : Env) (t : TeamSigChainPlayer)
    (prevState : Option TeamSigChainState) (link : SCChainLink) (oRes : checkOuterLinkResult)
    (team : SCTeamSection) : Except Err checkInnerLinkResult :=
  match PickFirstError [hasPrevState prevState true, hasName team false, hasMembers team false,
      hasParent team false, hasSubteam team false, hasPerTeamKey team true] with
  | some err => .error err
  | none =>
    match prevState, team.PerTeamKey with
    | some prevState, some ptk =>
      match prevState.GetUserRole oRes.signingUser with
      | .error err => .error err
      | .ok signerRole =>
        if signerRole ≠ TeamRole.WRITER ∧ signerRole ≠ TeamRole.ADMIN
            ∧ signerRole ≠ TeamRole.OWNER then
          .error (.msg "link signer does not have permission to rotate key")
        else
          match prevState.GetLatestPerTeamKey with
          | .error err => .error (.wrap "getting previous per-team-key" err)
          | .ok lastKey =>
            match checkPerTeamKey env t link ptk (lastKey.Gen + 1) with
            | .error err => .error err
            | .ok newKey =>
              let newState := prevState.DeepCopy
              .ok { oRes := oRes,
                    newState := { newState with
                      PerTeamKeys := newState.PerTeamKeys.set newKey.Gen newKey } }
    | _, _ => .error (.panic "nil pointer dereference")

/-- The case `"team.leave"` of the switch of `addInnerLink`. -/
def addInnerLinkLeave (_env : Env) (_t : TeamSigChainPlayer)
    (prevState : Option TeamSigChainState) (_link : SCChainLink) (oRes : checkOuterLinkResult)
    (team : SCTeamSection) : Except Err checkInnerLinkResult :=
  match PickFirstError [hasPrevState prevState true, hasName team false, hasMembers team false,
      hasParent team false, hasSubteam team false, hasPerTeamKey team false,
      hasAdmin team false] with
  | some err => .error err
  | none =>
    match prevState with
    | some prevState =>
      match prevState.GetUserRole oRes.signingUser with
      | .error err => .error err
      | .ok signerRole =>
        if signerRole ≠ TeamRole.READER ∧ signerRole ≠ TeamRole.WRITER
            ∧ signerRole ≠ TeamRole.ADMIN ∧ signerRole ≠ TeamRole.OWNER then
          .error (.msg "link signer does not have permission to leave")
        else
          let newState := prevState.DeepCopy
          .ok { oRes := oRes,
                newState := newState.inform oRes.signingUser TeamRole.NONE oRes.outerLink.Seqno }
    | none => .error (.panic "nil pointer dereference")

/-- The case `"team.new_subteam"` of the switch of `addInnerLink`. -/
def addInnerLinkNewSubteam (env : Env) (_t : TeamSigChainPlayer)
    (prevState : Option TeamSigChainState) (_link : SCChainLink) (oRes : checkOuterLinkResult)
    (team : SCTeamSection) : Except Err checkInnerLinkResult :=
  match PickFirstError [hasPrevState prevState true, hasName team false, hasMembers team false,
      hasParent team false, hasSubteam team true, hasPerTeamKey team false] with
  | some err => .error err
  | none =>
    match prevState, team.Subteam with
    | some prevState, some subteam =>
      match env.teamIDFromString subteam.ID with
      | none => .error (.msg "invalid subteam id")
      | some subteamID =>
        if !env.teamIDIsSubTeam subteamID then .error (.msg "malformed subteam id")
        else
          match env.teamNameFromString subteam.Name with
          | none => .error (.msg "invalid subteam team name")
          | some subteamName =>
            match subteamName.LastPart with
            | none => .error (.panic "index out of range")
            | some lastPart =>
              match prevState.GetName.Append env lastPart with
              | .error err => .error (.wrap "malformed subteam name" err)
              | .ok expectedSubteamName =>
                if !expectedSubteamName.Eq subteamName then
                  .error (.msg "subteam name does not extend parent name")
                else
                  let newState := prevState.DeepCopy
                  match newState.informSubteam subteamID subteamName oRes.outerLink.Seqno with
                  | .error err => .error (.wrap "adding new subteam" err)
                  | .ok newState => .ok { oRes := oRes, newState := newState }
    | _, _ => .error (.panic "nil pointer dereference")

/-- The case `"team.subteam_head"` of the switch of `addInnerLink`. -/
def addInnerLinkSubteamHead (env : Env) (t : TeamSigChainPlayer)
    (prevState : Option TeamSigChainState) (link : SCChainLink) (oRes : checkOuterLinkResult)
    (team : SCTeamSection) (teamID : TeamID) : Except Err checkInnerLinkResult :=
  match PickFirstError [hasPrevState prevState false, hasName team true, hasMembers team true,
      hasParent team true, hasSubteam team false, hasPerTeamKey team true] with
  | some err => .error err
  | none =>
    match team.Name, team.Members, team.Parent, team.PerTeamKey with
    | some name, some members, some parent, some ptk =>
      if !env.teamIDIsSubTeam teamID then .error (.msg "malformed subteam id")
      else
        match env.teamIDFromString parent.ID with
        | none => .error (.msg "invalid parent id")
        | some parentID =>
          match env.teamNameFromString name with
          | none => .error (.msg "bad team name")
          | some teamName =>
            if teamName.IsRootTeam then .error (.msg "subteam has root team name")
            else
              match t.sanityCheckMembers members false false with
              | .error err => .error err
              | .ok roleUpdates =>
                match checkPerTeamKey env t link ptk 1 with
                | .error err => .error err
                | .ok perTeamKey =>
                  let newState := initialState env t teamID teamName oRes (some parentID) perTeamKey
                  .ok { oRes := oRes,
                        newState := t.updateMembership newState roleUpdates oRes.outerLink.Seqno }
    | _, _, _, _ => .error (.panic "nil pointer dereference")

/-- The condition `prevState != nil && !prevState.inner.Id.Equal(teamID)` of `addInnerLink`. -/
def wrongTeamID (prevState : Option TeamSigChainState) (teamID : TeamID) : Bool :=
  match prevState with
  | some ps => !(TeamID.Equal ps.Id teamID)
  | none => false

/-- The switch of `addInnerLink` on `payload.Body.Type`. -/
def addInnerLinkSwitch (env : Env) (t : TeamSigChainPlayer)
    (prevState : Option TeamSigChainState) (link : SCChainLink) (oRes : checkOuterLinkResult)
    (team : SCTeamSection) (teamID : TeamID) (type : String) :
    Except Err checkInnerLinkResult :=
  if type = "team.root" then addInnerLinkRoot env t prevState link oRes team teamID
  else if type = "team.change_membership" then
    addInnerLinkChangeMembership env t prevState link oRes team
  else if type = "team.rotate_key" then addInnerLinkRotateKey env t prevState link oRes team
  else if type = "team.leave" then addInnerLinkLeave env t prevState link oRes team
  else if type = "team.new_subteam" then addInnerLinkNewSubteam env t prevState link oRes team
  else if type = "team.subteam_head" then
    addInnerLinkSubteamHead env t prevState link oRes team teamID
  else if type = "team.subteam_rename" then .error (.msg "subteam renaming not yet supported")
  else if type = "" then .error (.msg "empty body type")
  else .error (.msg "unsupported link type")

/-- Check and add the inner link.  Does not modify `prevState` but returns a new state. -/
def addInnerLink (env : Env) (t : TeamSigChainPlayer) (prevState : Option TeamSigChainState)
    (link : SCChainLink) (oRes : checkOuterLinkResult) (_alreadyVerified : Bool) :
    Except Err checkInnerLinkResult :=
  match oRes.innerLink with
  | none => .error (.panic "nil pointer dereference")
  | some payload =>
    match checkInnerOuterMatch env t oRes.outerLink payload (env.payloadHash link.Payload) with
    | some err => .error err
    | none =>
      if payload.Tag ≠ "signature" then .error (.msg "unrecognized tag")
      else
        match payload.Body.Team with
        | none => .error (.msg "missing team section")
        | some team =>
          if team.ID.length = 0 then .error (.msg "missing team id")
          else
            match env.teamIDFromString team.ID with
            | none => .error (.msg "bad team id")
            | some teamID =>
              if wrongTeamID prevState teamID then .error (.msg "wrong team id")
              else addInnerLinkSwitch env t prevState link oRes team teamID payload.Body.Type_

/-- Verify and add a chain link.  Does not modify self or any arguments. -/
def addChainLinkCommon (env : Env) (t : TeamSigChainPlayer) (prevState : Option TeamSigChainState)
    (link : SCChainLink) (alreadyVerified : Bool) : Except Err TeamSigChainState :=
  match checkOuterLink env t prevState link alreadyVerified with
  | .error err => .error (.wrap "team sigchain outer link" err)
  | .ok oRes =>
    match oRes.innerLink with
    | none =>
      match prevState with
      | none => .error (.msg "first link cannot be stubbed")
      | some prevState =>
        let newState := prevState.DeepCopy
        let newState := { newState with
          LastSeqno := oRes.outerLink.Seqno
          LastLinkID := env.outerLinkID oRes.outerLink }
        .ok { newState with
          StubbedTypes := newState.StubbedTypes.set oRes.outerLink.LinkType true }
    | some _ =>
      match addInnerLink env t prevState link oRes alreadyVerified with
      | .error err => .error (.wrap "team sigchain inner link" err)
      | .ok iRes =>
        .ok { iRes.newState with
          LastSeqno := oRes.outerLink.Seqno
          LastLinkID := env.outerLinkID oRes.outerLink }

/-- The loop of `addChainLinksCommon` over the links, with the local variable `state`. -/
def addChainLinksLoop (env : Env) (t : TeamSigChainPlayer) (alreadyVerified : Bool) :
    Option TeamSigChainState → List SCChainLink → Except Err (Option TeamSigChainState)
  | state, [] => .ok state
  | state, link :: rest =>
    match addChainLinkCommon env t state link alreadyVerified with
    | .error err =>
      match state with
      | none => .error (.atBeginning err)
      | some st => .error (.atSeqno st.GetLatestSeqno err)
    | .ok newState => addChainLinksLoop env t alreadyVerified (some newState) rest

/-- Add links.  Returns the player after the call and the error, if any. -/
def addChainLinksCommon (env : Env) (t : TeamSigChainPlayer) (links : List SCChainLink)
    (alreadyVerified : Bool) : TeamSigChainPlayer × Option Err :=
  if links.length = 0 then (t, some (.msg "no chainlinks to add"))
  else
    match addChainLinksLoop env t alreadyVerified t.storedState links with
    | .error err => (t, some err)
    | .ok state => ({ t with storedState := state }, none)

def AddChainLinks (env : Env) (t : TeamSigChainPlayer) (links : List SCChainLink) :
    TeamSigChainPlayer × Option Err :=
  addChainLinksCommon env t links false

/-- Add chain links from local storage. -/
def AddChainLinksVerified (env : Env) (t : TeamSigChainPlayer) (links : List SCChainLink) :
    TeamSigChainPlayer × Option Err :=
  addChainLinksCommon env t links true

end TeamSigChainPlayer

/-! ## Runs of the player -/

/-- A sequence of calls of `AddChainLinks` (flag `false`) and `AddChainLinksVerified` (flag
`true`) that all return no error; the result is the player after the last call. -/
def runCalls (env : Env) : TeamSigChainPlayer → List (Bool × List SCChainLink) →
    Option TeamSigChainPlayer
  | t, [] => some t
  | t, (alreadyVerified, links) :: rest =>
    match TeamSigChainPlayer.addChainLinksCommon env t links alreadyVerified with
    | (t', none) => runCalls env t' rest
    | (_, some _) => none

/-- The states a chain can be in: the result of an accepted first link, and the result of an
accepted link on such a state. -/
inductive Reachable (env : Env) : TeamSigChainState → Prop where
  | first (t : TeamSigChainPlayer) (link : SCChainLink) (alreadyVerified : Bool)
      (s : TeamSigChainState)
      (h : TeamSigChainPlayer.addChainLinkCommon env t none link alreadyVerified = .ok s) :
      Reachable env s
  | next (t : TeamSigChainPlayer) (link : SCChainLink) (alreadyVerified : Bool)
      (s s' : TeamSigChainState) (hs : Reachable env s)
      (h : TeamSigChainPlayer.addChainLinkCommon env t (some s) link alreadyVerified = .ok s') :
      Reachable env s'

/-- The seqno `checkOuterLink` asks of the next link: 1 at the beginning, else one more than the
latest seqno. -/
def expectedSeqno : Option TeamSigChainState → Seqno
  | none => 1
  | some ps => ps.LastSeqno + 1

/-- The seqno of the local variable `state` of `addChainLinksCommon`, 0 while it is nil. -/
def seqnoOrZero : Option TeamSigChainState → Seqno
  | none => 0
  | some st => st.GetLatestSeqno

/-- The contract of `AssertSomeFields` used below: when it passes, the decoded outer link
carries the seqno it was given. -/
def AssertSomeFieldsChecksSeqno (env : Env) : Prop :=
  ∀ (o : OuterLinkV2) (version : Int) (seqno : Seqno),
    env.assertSomeFields o version seqno = true → o.Seqno = seqno

/-! ## Invariants of the chain state -/

/-- The generations of a key map are exactly `1 .. len`, there is at least one, and the key
stored under a generation carries that generation. -/
def KeysDense (m : GoMap PerTeamKeyGeneration PerTeamKey) : Prop :=
  1 ≤ m.len ∧
  (∀ g : PerTeamKeyGeneration, (m.get? g).isSome ↔ (1 ≤ g ∧ g ≤ (m.len : Int))) ∧
  (∀ (g : PerTeamKeyGeneration) (k : PerTeamKey), m.get? g = some k → k.Gen = g)

/-- The calls `inform(uv, role, seqno)` made by `updateMembership`, in the order it makes them:
for each entry of the map, the users of its list. -/
def flatUpdates (roleUpdates : GoMap TeamRole (List UserVersion)) :
    List (UserVersion × TeamRole) :=
  roleUpdates.entries.flatMap (fun e => e.2.map (fun uv => (uv, e.1)))

/-- A sequence of calls of `inform` at one seqno. -/
def informAll (s : TeamSigChainState) (l : List (UserVersion × TeamRole)) (seqno : Seqno) :
    TeamSigChainState :=
  l.foldl (fun st a => st.inform a.1 a.2 seqno) s

/-- The seqnos of every user's log are strictly increasing and at most `LastSeqno`. -/
def UserLogOrdered (s : TeamSigChainState) : Prop :=
  ∀ u : UserVersion,
    ((s.userLogOf u).map (fun point => point.Seqno)).Pairwise (fun a b => a < b) ∧
    ∀ point ∈ s.userLogOf u, point.Seqno ≤ s.LastSeqno

/-- The log of a user before a link: the nil slice at the beginning. -/
def prevUserLog (prevState : Option TeamSigChainState) (u : UserVersion) : List UserLogPoint :=
  match prevState with
  | none => []
  | some ps => ps.userLogOf u

/-- The name a subteam has at seqno `q`: the name of the last point of its log whose seqno is
at most `q`, if there is one. -/
def nameAt (points : List SubteamLogPoint) (q : Seqno) : Option TeamName :=
  ((points.filter (fun point => decide (point.Seqno ≤ q))).getLast?).map (fun point => point.Name)

/-- The seqnos of every subteam's log are strictly increasing and at most `LastSeqno`. -/
def SubteamLogOrdered (s : TeamSigChainState) : Prop :=
  ∀ id : TeamID,
    ((s.subteamLogOf id).map (fun point => point.Seqno)).Pairwise (fun a b => a < b) ∧
    ∀ point ∈ s.subteamLogOf id, point.Seqno ≤ s.LastSeqno

/-- No two subteams have the same name at the same seqno. -/
def SiblingNamesUnique (s : TeamSigChainState) : Prop :=
  ∀ X Y : TeamID, X ≠ Y → ∀ q : Seqno, q ≤ s.LastSeqno → ∀ a b : TeamName,
    nameAt (s.subteamLogOf X) q = some a → nameAt (s.subteamLogOf Y) q = some b →
    a.Eq b = false

/-- The list of a members section for a role: `owners`, `admins`, `writers`, `readers`, `none`. -/
def SCTeamMembers.listOf (members : SCTeamMembers) : TeamRole → Option (List UserVersion)
  | TeamRole.OWNER => members.Owners
  | TeamRole.ADMIN => members.Admins
  | TeamRole.WRITER => members.Writers
  | TeamRole.READER => members.Readers
  | TeamRole.NONE => members.None

/-! ## The structural predicates of the link types -/

namespace TeamSigChainPlayer

/-- The chain of `has*` checks (the `PickFirstError` call) that opens the case of the switch of
`addInnerLink` for a link type; no error for a type without a case of its own. -/
def structuralCheck (prevState : Option TeamSigChainState) (team : SCTeamSection)
    (type : String) : Option Err :=
  if type = "team.root" then
    PickFirstError [hasPrevState prevState false, hasName team true, hasMembers team true,
      hasParent team false, hasSubteam team false, hasPerTeamKey team true, hasAdmin team false]
  else if type = "team.change_membership" then
    PickFirstError [hasPrevState prevState true, hasName team false, hasMembers team true,
      hasParent team false, hasSubteam team false]
  else if type = "team.rotate_key" then
    PickFirstError [hasPrevState prevState true, hasName team false, hasMembers team false,
      hasParent team false, hasSubteam team false, hasPerTeamKey team true]
  else if type = "team.leave" then
    PickFirstError [hasPrevState prevState true, hasName team false, hasMembers team false,
      hasParent team false, hasSubteam team false, hasPerTeamKey team false, hasAdmin team false]
  else if type = "team.new_subteam" then
    PickFirstError [hasPrevState prevState true, hasName team false, hasMembers team false,
      hasParent team false, hasSubteam team true, hasPerTeamKey team false]
  else if type = "team.subteam_head" then
    PickFirstError [hasPrevState prevState false, hasName team true, hasMembers team true,
      hasParent team true, hasSubteam team false, hasPerTeamKey team true]
  else none

end TeamSigChainPlayer

/-- Modelled from the spec: a cell of the predicate matrix, `R` (required present), `F`
(required absent) or `either`. -/
inductive Presence where
  | R
  | F
  | either
deriving DecidableEq, Repr

/-- Modelled from the spec: whether a sub-field that is present (`true`) or absent (`false`)
satisfies a cell of the matrix. -/
def Presence.allows : Presence → Bool → Bool
  | Presence.R, has => has
  | Presence.F, has => !has
  | Presence.either, _ => true

/-- Modelled from the spec: a row of the predicate matrix; `prevState` says whether the prior
state must be present. -/
structure PredicateRow where
  prevState : Bool
  name : Presence
  members : Presence
  parent : Presence
  subteam : Presence
  perTeamKey : Presence
  admin : Presence
deriving DecidableEq, Repr

/-- Modelled from the spec: the predicate matrix of section 4.5, for the six handled types. -/
def predicateMatrix (type : String) : Option PredicateRow :=
  if type = "team.root" then
    some { prevState := false, name := .R, members := .R, parent := .F, subteam := .F,
           perTeamKey := .R, admin := .F }
  else if type = "team.change_membership" then
    some { prevState := true, name := .F, members := .R, parent := .F, subteam := .F,
           perTeamKey := .either, admin := .either }
  else if type = "team.rotate_key" then
    some { prevState := true, name := .F, members := .F, parent := .F, subteam := .F,
           perTeamKey := .R, admin := .either }
  else if type = "team.leave" then
    some { prevState := true, name := .F, members := .F, parent := .F, subteam := .F,
           perTeamKey := .F, admin := .F }
  else if type = "team.new_subteam" then
    some { prevState := true, name := .F, members := .F, parent := .F, subteam := .R,
           perTeamKey := .F, admin := .either }
  else if type = "team.subteam_head" then
    some { prevState := false, name := .R, members := .R, parent := .R, subteam := .F,
           perTeamKey := .R, admin := .either }
  else none

/-- Modelled from the spec: a prior state and a team section satisfy a row of the matrix. -/
def PredicateRow.holds (row : PredicateRow) (prevState : Option TeamSigChainState)
    (team : SCTeamSection) : Bool :=
  (prevState.isSome == row.prevState) && row.name.allows team.Name.isSome
    && row.members.allows team.Members.isSome && row.parent.allows team.Parent.isSome
    && row.subteam.allows team.Subteam.isSome && row.perTeamKey.allows team.PerTeamKey.isSome
    && row.admin.allows team.Admin.isSome

/-- The link types that have a handler in the switch of `addInnerLink`. -/
def handledLinkTypes : List String :=
  ["team.root", "team.change_membership", "team.rotate_key", "team.leave", "team.new_subteam",
    "team.subteam_head"]

/-! ## Expected key generation, identity of the team, outer signatures -/

/-- The generation asked of a new per-team key: 1 on a first link, the latest generation plus
one afterwards. -/
def expectedGeneration : Option TeamSigChainState → PerTeamKeyGeneration
  | none => 1
  | some ps => ps.GetLatestGeneration + 1

/-- The key stored under the latest generation carries that generation (true of dense keys). -/
def LatestKeyConsistent (prevState : Option TeamSigChainState) : Prop :=
  ∀ (ps : TeamSigChainState) (k : PerTeamKey), prevState = some ps →
    ps.PerTeamKeys.get? ps.GetLatestGeneration = some k → k.Gen = ps.GetLatestGeneration

/-- A root team has a one-part name, the ID made from that name and no subteam tag; a subteam
has a subteam-tagged ID and a name of another length. -/
def IdentityInvariant (env : Env) (s : TeamSigChainState) : Prop :=
  (s.ParentID = none →
    s.Name.IsRootTeam = true ∧ s.Name.Parts.length = 1 ∧
    s.Id = env.teamNameToTeamID s.Name ∧ env.teamIDIsSubTeam s.Id = false) ∧
  (s.ParentID ≠ none → env.teamIDIsSubTeam s.Id = true ∧ s.Name.IsRootTeam = false)

/-- Modelled from the spec: the capability `OuterLinkVerifier.verify(signer_uv, outer_bytes)`,
`true` when the outer link bytes verify under the signing key of the signer. -/
abbrev OuterLinkVerifier := UserVersion → String → Bool

/-! ## Arithmetic of `int64` -/

/-- The Go function `strings.Split` with a one-character separator, on the characters of a
string: the pieces between the separators, one more than there are separators. -/
def splitOnChar (sep : Char) : List Char → List (List Char)
  | [] => [[]]
  | c :: cs =>
    if c = sep then [] :: splitOnChar sep cs
    else
      match splitOnChar sep cs with
      | [] => [[c]]
      | piece :: pieces => (c :: piece) :: pieces

/-- The value of a run of decimal digits, `none` if a character is not a digit. -/
def parseDigits : List Char → Nat → Option Nat
  | [], acc => some acc
  | c :: cs, acc =>
    if c.isDigit then parseDigits cs (acc * 10 + (c.toNat - '0'.toNat)) else none

/-- The Go function `strconv.ParseInt(s, 10, 64)`: an optional sign, at least one decimal digit,
and a value in the range of `int64`. -/
def ParseInt64 (s : String) : Option Int :=
  let signed : Bool × List Char :=
    match s.data with
    | '+' :: ds => (false, ds)
    | '-' :: ds => (true, ds)
    | ds => (false, ds)
  if signed.2 = [] then none
  else
    match parseDigits signed.2 0 with
    | none => none
    | some v =>
      let n : Int := if signed.1 then -(v : Int) else (v : Int)
      if -(2 : Int) ^ 63 ≤ n ∧ n < (2 : Int) ^ 63 then some n else none

/-- Parse a user version `uid%eldestSeqno`; `uidFromHex` stands for `libkb.UIDFromHex`. -/
def ParseUserVersion (uidFromHex : String → Option UID) (s : String) : Except Err UserVersion :=
  let parts : List String := (splitOnChar '%' s.data).map String.mk
  let parts : List String := if parts.length = 1 then parts ++ ["1"] else parts
  if parts.length ≠ 2 then .error (.msg "invalid user version")
  else
    match parts with
    | [part0, part1] =>
      match uidFromHex part0 with
      | none => .error (.msg "invalid uid")
      | some uid =>
        match ParseInt64 part1 with
        | none => .error (.msg "invalid eldest seqno")
        | some eldestSeqno => .ok { Uid := uid, EldestSeqno := eldestSeqno }
    | _ => .error (.panic "index out of range")

/-! ## The context argument -/

/-- Modelled from the spec: the context token passed to `AddChainLinks`;
`cancelledBefore i` says that cancellation has fired before link number `i` of the batch
(counted from 0) is handled. -/
structure Context where
  cancelledBefore : Nat → Bool

namespace TeamSigChainPlayer

/-- The function `AddChainLinks` with its `ctx` argument: `chain.go` hands `ctx` down to
`addChainLinksCommon`, `addChainLinkCommon` and `checkOuterLink`, and none of them reads it. -/
def AddChainLinksCtx (env : Env) (_ctx : Context) (t : TeamSigChainPlayer)
    (links : List SCChainLink) : TeamSigChainPlayer × Option Err :=
  addChainLinksCommon env t links false

end TeamSigChainPlayer

/-! ## Equality of Go maps, collisions of subteam names -/

/-- Two Go maps are the same map when they hold the same value, or none, under every key. -/
def GoMap.Same {K V : Type} [DecidableEq K] (m m' : GoMap K V) : Prop :=
  ∀ k : K, m.get? k = m'.get? k

/-- The name `checkSubteamCollision` compares with the new name, for some other subteam of the
log: the name of the last point below the seqno, or the zero name. -/
def collidesWithOther (s : TeamSigChainState) (id : TeamID) (name : TeamName) (seqno : Seqno) :
    Prop :=
  ∃ (other : TeamID) (points : List SubteamLogPoint),
    s.SubteamLog.get? other = some points ∧ other ≠ id ∧
    (TeamSigChainState.otherNameAt points seqno).Eq name = true

/-- The collision condition in the words of the specification: some other subteam has a last
point below the seqno, and the name of that point equals the new name. -/
def collidesWithLastBelow (s : TeamSigChainState) (id : TeamID) (name : TeamName)
    (seqno : Seqno) : Bool :=
  s.SubteamLog.entries.any (fun e =>
    decide (e.1 ≠ id) &&
      ((e.2.filter (fun point => decide (point.Seqno < seqno))).getLast?.any
        (fun point => point.Name.Eq name)))

/-- The last recorded point of the subteam has a seqno at or above the given one. -/
def lastPointNotBelow (s : TeamSigChainState) (id : TeamID) (seqno : Seqno) : Bool :=
  (s.getLastSubteamPoint id).any (fun lastPoint => decide (seqno ≤ lastPoint.Seqno))

/-- The concatenation of the owners, admins, writers, readers and none lists of a members
section, an absent list counting as empty. -/
def SCTeamMembers.allListed (members : SCTeamMembers) : List UserVersion :=
  members.Owners.getD [] ++ members.Admins.getD [] ++ members.Writers.getD []
    ++ members.Readers.getD [] ++ members.None.getD []

/-- The loop of `updateMembership` when the entries of the map are visited in the order
`visited`. -/
def updateMembershipVisiting (stateToUpdate : TeamSigChainState)
    (visited : List (TeamRole × List UserVersion)) (seqno : Seqno) : TeamSigChainState :=
  visited.foldl (fun st e => e.2.foldl (fun st uv => st.inform uv e.1 seqno) st) stateToUpdate

/-- Two states are the same state: the user logs are the same Go map and every other field is
equal. -/
def TeamSigChainState.SameAs (s s' : TeamSigChainState) : Prop :=
  GoMap.Same s.UserLog s'.UserLog ∧ { s with UserLog := s'.UserLog } = s'

/-- The checks on a link with a payload that come before the switch on the link type: the
checks of `checkOuterLink`, `checkInnerOuterMatch`, the tag, and a team section whose ID is not
empty, parses, and is the ID of the prior state. -/
def PassesCommonChecks (env : Env) (t : TeamSigChainPlayer)
    (prevState : Option TeamSigChainState) (link : SCChainLink) (av : Bool)
    (oRes : checkOuterLinkResult) (payload : SCChainLinkPayload) (team : SCTeamSection)
    (teamID : TeamID) : Prop :=
  TeamSigChainPlayer.checkOuterLink env t prevState link av = .ok oRes ∧
  oRes.innerLink = some payload ∧
  TeamSigChainPlayer.checkInnerOuterMatch env t oRes.outerLink payload
    (env.payloadHash link.Payload) = none ∧
  payload.Tag = "signature" ∧
  payload.Body.Team = some team ∧
  team.ID.length ≠ 0 ∧
  env.teamIDFromString team.ID = some teamID ∧
  TeamSigChainPlayer.wrongTeamID prevState teamID = false

/-- A members section with the list of one role made absent. -/
def SCTeamMembers.withoutList (members : SCTeamMembers) : TeamRole → SCTeamMembers
  | TeamRole.OWNER => { members with Owners := none }
  | TeamRole.ADMIN => { members with Admins := none }
  | TeamRole.WRITER => { members with Writers := none }
  | TeamRole.READER => { members with Readers := none }
  | TeamRole.NONE => { members with None := none }

/-! ## A concrete instance

A small instance of `Env` and a few links, on which the functions above can be evaluated.  The
outer link of a link is read from its `Sig` by a table, the payload from `Payload` by a table;
hashes are replaced by short tags. -/

namespace Demo

open TeamSigChainPlayer

def A : UserVersion := { Uid := "a", EldestSeqno := 1 }
def B : UserVersion := { Uid := "b", EldestSeqno := 1 }
def C : UserVersion := { Uid := "c", EldestSeqno := 1 }

/-- Split the characters of a dotted name into its parts. -/
def splitParts : List Char → List Char → List String
  | [], cur => [String.mk cur.reverse]
  | c :: rest, cur =>
    if c = '.' then String.mk cur.reverse :: splitParts rest [] else splitParts rest (c :: cur)

def outer (seqno : Seqno) (prev : LibkbLinkID) (linkType : Int) : OuterLinkV2 :=
  { Version := 2, Seqno := seqno, Prev := prev, Curr := [], LinkType := linkType }

def key (gen : PerTeamKeyGeneration) : SCPerTeamKey :=
  { Generation := gen, EncKID := "enc", SigKID := "sig", ReverseSig := "sig" }

def noMembers : SCTeamMembers :=
  { Owners := none, Admins := none, Writers := none, Readers := none, None := none }

def section0 : SCTeamSection :=
  { ID := "r-acme", Name := none, Members := none, Parent := none, Subteam := none,
    PerTeamKey := none, Admin := none }

def payload (seqno : Seqno) (type : String) (team : SCTeamSection) : SCChainLinkPayload :=
  { Body := { Team := some team, Type_ := type, Version := 2 }, Ctime := 0, ExpireIn := 0,
    Prev := none, SeqType := 3, Seqno := seqno, Tag := "signature" }

/-- The outer links of the instance, by signature. -/
def outers : List (String × OuterLinkV2) :=
  [ ("o1", outer 1 [] 33), ("o2", outer 2 [1] 35), ("o2k", outer 2 [1] 36),
    ("o2s", outer 2 [1] 34), ("o3s", outer 3 [2] 34), ("o2x", outer 2 [9] 35),
    ("o2l", outer 2 [1] 37), ("o2r", outer 2 [1] 39), ("o3m", outer 3 [2] 35) ]

def rootPayload : SCChainLinkPayload :=
  payload 1 "team.root"
    { section0 with Name := some "acme", PerTeamKey := some (key 1),
                    Members := some { noMembers with Owners := some [A] } }

def membersPayload : SCChainLinkPayload :=
  payload 2 "team.change_membership"
    { section0 with Members := some { noMembers with
        Admins := some [B], Writers := some [], Readers := some [C] } }

def rotatePayload : SCChainLinkPayload :=
  payload 2 "team.rotate_key" { section0 with PerTeamKey := some (key 2) }

def leavePayload : SCChainLinkPayload := payload 2 "team.leave" section0

def subXPayload : SCChainLinkPayload :=
  payload 2 "team.new_subteam"
    { section0 with Subteam := some { ID := "s-x", Name := "acme.eng" } }

def rotate3Payload : SCChainLinkPayload :=
  payload 2 "team.rotate_key" { section0 with PerTeamKey := some (key 3) }

def renamePayload : SCChainLinkPayload :=
  payload 2 "team.subteam_rename"
    { section0 with Subteam := some { ID := "s-x", Name := "acme.dev" } }

/-- A key rotation of another team, `r-other`, at seqno 2. -/
def foreignPayload : SCChainLinkPayload :=
  payload 2 "team.rotate_key" { section0 with ID := "r-other", PerTeamKey := some (key 2) }

/-- A membership change at seqno 3 that makes `c` an owner and the owner `a` a reader. -/
def adminMembersPayload : SCChainLinkPayload :=
  payload 3 "team.change_membership"
    { section0 with Members := some { noMembers with Owners := some [C], Readers := some [A] } }

/-- A `team.new_subteam` link at seqno 3 that names the subteam `s-x` again, as `acme.dev`. -/
def subXdevPayload : SCChainLinkPayload :=
  payload 3 "team.new_subteam"
    { section0 with Subteam := some { ID := "s-x", Name := "acme.dev" } }

/-- The payloads of the instance, by payload text. -/
def payloads : List (String × SCChainLinkPayload) :=
  [ ("root", rootPayload),
    ("rootB", payload 1 "team.root"
      { section0 with Name := some "acme", PerTeamKey := some (key 1),
                      Members := some { noMembers with Owners := some [B] } }),
    ("members", membersPayload),
    ("rotate", rotatePayload),
    ("rotate3", rotate3Payload),
    ("subX", subXPayload),
    ("subY", payload 3 "team.new_subteam"
      { section0 with Subteam := some { ID := "s-y", Name := "acme.eng" } }),
    ("subZ", payload 3 "team.new_subteam"
      { section0 with Subteam := some { ID := "s-y", Name := "acme.ops" } }),
    ("leave", leavePayload),
    ("rename", renamePayload),
    ("foreign", foreignPayload),
    ("adminMembers", adminMembersPayload),
    ("subXdev", subXdevPayload) ]

def env : Env :=
  { decodeOuterLinkV2 := fun sig => GoMap.lookupEntries outers sig
    outerLinkID := fun o =>
      if o.Seqno = 1 then "h1" else if o.Seqno = 2 then "h2" else "h3"
    assertSomeFields := fun o version seqno => decide (o.Version = version ∧ o.Seqno = seqno)
    importLinkID := fun id =>
      if id = "h1" then some [1] else if id = "h2" then some [2]
      else if id = "h3" then some [3] else none
    unmarshalPayload := fun p => GoMap.lookupEntries payloads p
    payloadHash := fun _ => []
    linkIDFromHex := fun _ => some []
    sigchainV2TypeFromV1TypeTeams := fun type =>
      if type = "team.root" then some 33 else if type = "team.new_subteam" then some 34
      else if type = "team.change_membership" then some 35
      else if type = "team.rotate_key" then some 36 else if type = "team.leave" then some 37
      else if type = "team.subteam_head" then some 38 else none
    assertFields := fun o version seqno _ _ linkType =>
      decide (o.Version = version ∧ o.Seqno = seqno ∧ o.LinkType = linkType)
    teamIDFromString := fun s => if s = "" then none else some s
    teamIDIsSubTeam := fun id => decide (id.data.head? = some 's')
    teamNameFromString := fun s => if s = "" then none else some ⟨splitParts s.data []⟩
    teamNameToTeamID := fun n => String.join ("r-" :: n.Parts)
    validNamePart := fun part => decide (part ≠ "")
    importNaclSigningKeyPairFromHex := fun kid => if kid = "" then none else some kid
    importNaclDHKeyPairFromHex := fun kid => decide (kid ≠ "")
    jsonwUnmarshal := fun _ => true
    verifyReverseSig := fun sigKey _ reverseSig => decide (reverseSig = sigKey) }

def link (seqno : Seqno) (sig payload : String) (uid : UID) : SCChainLink :=
  { Seqno := seqno, Sig := sig, Payload := payload, UID := uid, Version := 2 }

def fresh : TeamSigChainPlayer := NewTeamSigChainPlayer A

def rootLink : SCChainLink := link 1 "o1" "root" "a"

/-- The state after the root link of `acme`, signed by `a`. -/
def rootState : TeamSigChainState :=
  { Reader := A
    Id := "r-acme"
    Name := { Parts := ["acme"] }
    LastSeqno := 1
    LastLinkID := "h1"
    ParentID := none
    UserLog := (GoMap.empty : GoMap UserVersion (List UserLogPoint)).set A
      [{ Role := TeamRole.OWNER, Seqno := 1 }]
    SubteamLog := GoMap.empty
    PerTeamKeys := (GoMap.empty : GoMap PerTeamKeyGeneration PerTeamKey).set 1
      { Gen := 1, Seqno := 1, SigKID := "sig", EncKID := "enc" }
    StubbedTypes := GoMap.empty }

/-- The state after the root link and a key rotation. -/
def rotatedState : TeamSigChainState :=
  { rootState with
    LastSeqno := 2
    LastLinkID := "h2"
    PerTeamKeys := rootState.PerTeamKeys.set 2
      { Gen := 2, Seqno := 2, SigKID := "sig", EncKID := "enc" } }

/-- The state after `twoCalls`: subteam `s-x` is `acme.eng` since seqno 2 and subteam `s-y` is
`acme.ops` since seqno 3. -/
def subteamsState : TeamSigChainState :=
  { rootState with
    LastSeqno := 3
    LastLinkID := "h3"
    SubteamLog :=
      ((GoMap.empty : GoMap TeamID (List SubteamLogPoint)).set "s-x"
        [{ Name := { Parts := ["acme", "eng"] }, Seqno := 2 }]).set "s-y"
        [{ Name := { Parts := ["acme", "ops"] }, Seqno := 3 }] }

/-- The state after the root link and the membership change of `members`. -/
def membersState : TeamSigChainState :=
  { rootState with
    LastSeqno := 2
    LastLinkID := "h2"
    UserLog := (rootState.UserLog.set B [{ Role := TeamRole.ADMIN, Seqno := 2 }]).set C
      [{ Role := TeamRole.READER, Seqno := 2 }] }

/-- The state after the root link and the departure of `a`. -/
def leftState : TeamSigChainState :=
  { rootState with
    LastSeqno := 2
    LastLinkID := "h2"
    UserLog := (GoMap.empty : GoMap UserVersion (List UserLogPoint)).set A
      [{ Role := TeamRole.OWNER, Seqno := 1 }, { Role := TeamRole.NONE, Seqno := 2 }] }

/-- The state after the root link and the creation of subteam `s-x` named `acme.eng`. -/
def subXState : TeamSigChainState :=
  { rootState with
    LastSeqno := 2
    LastLinkID := "h2"
    SubteamLog := (GoMap.empty : GoMap TeamID (List SubteamLogPoint)).set "s-x"
      [{ Name := { Parts := ["acme", "eng"] }, Seqno := 2 }] }

/-- The state after the root link and a stubbed link whose outer type code is 35. -/
def stubbedState : TeamSigChainState :=
  { rootState with
    LastSeqno := 2
    LastLinkID := "h2"
    StubbedTypes := (GoMap.empty : GoMap Int Bool).set 35 true }

/-- A stubbed link: the outer link `o2` without a payload. -/
def stubbedLink : SCChainLink := link 2 "o2" "" "a"

/-- The player after the root link of `acme`. -/
def afterRoot : TeamSigChainPlayer := (AddChainLinks env fresh [rootLink]).1

/-- A batch on `afterRoot` whose first link creates subteam `s-x` named `acme.eng` and whose
second link gives the same name to `s-y`. -/
def collidingBatch : List SCChainLink := [link 2 "o2s" "subX" "a", link 3 "o3s" "subY" "a"]

/-- Two calls: the root link, then a batch that creates two subteams. -/
def twoCalls : List (Bool × List SCChainLink) :=
  [(false, [rootLink]), (false, [link 2 "o2s" "subX" "a", link 3 "o3s" "subZ" "a"])]

/-- The player after `twoCalls`. -/
def afterTwoCalls : TeamSigChainPlayer := (runCalls env fresh twoCalls).getD fresh

/-- A context that is cancelled after the first link of a batch has been handled. -/
def cancelledAfterFirst : Context := { cancelledBefore := fun i => decide (1 ≤ i) }

/-- A batch on `afterRoot` that creates subteam `s-x` named `acme.eng` and then subteam `s-y`
named `acme.ops`. -/
def subteamsBatch : List SCChainLink := [link 2 "o2s" "subX" "a", link 3 "o3s" "subZ" "a"]

/-- A stand-in for `libkb.UIDFromHex`: a non-empty string of lower-case hex digits is its own
UID. -/
def uidFromHex (s : String) : Option UID :=
  if s.data ≠ [] ∧ s.data.all (fun c => c.isDigit || ('a' ≤ c && c ≤ 'f')) = true then some s
  else none

/-- The role updates of the membership link `members`. -/
def membersUpdates : GoMap TeamRole (List UserVersion) :=
  (((GoMap.empty : GoMap TeamRole (List UserVersion)).set TeamRole.ADMIN [B]).set
    TeamRole.WRITER []).set TeamRole.READER [C]

/-- The members section of the membership link `members`: admins `[b]`, writers empty, readers
`[c]`. -/
def changedMembers : SCTeamMembers :=
  { noMembers with Admins := some [B], Writers := some [], Readers := some [C] }

/-- The result of the outer checks for the membership link `members` signed by `a`. -/
def membersOuterResult : checkOuterLinkResult :=
  { outerLink := outer 2 [1] 35, signingUser := A, innerLink := some membersPayload }

end Demo

end Teams

/-! # Properties -/

set_option maxRecDepth 100000

namespace Teams

open TeamSigChainPlayer

/-! ## Finite maps -/

namespace GoMap

variable {K V : Type} [DecidableEq K]

theorem lookup_setEntries_self (l : List (K × V)) (k : K) (v : V) :
    lookupEntries (setEntries l k v) k = some v := by
  induction l with
  | nil => simp [setEntries, lookupEntries]
  | cons hd tl ih =>
    obtain ⟨k', v'⟩ := hd
    by_cases h : k' = k
    · simp [setEntries, lookupEntries, h]
    · simp [setEntries, lookupEntries, h, ih]

theorem lookup_setEntries_ne (l : List (K × V)) (k k' : K) (v : V) (h : k' ≠ k) :
    lookupEntries (setEntries l k v) k' = lookupEntries l k' := by
  induction l with
  | nil =>
    have : ¬ k = k' := fun e => h e.symm
    simp [setEntries, lookupEntries, this]
  | cons hd tl ih =>
    obtain ⟨k0, v0⟩ := hd
    by_cases h0 : k0 = k
    · subst h0
      have : ¬ k0 = k' := fun e => h e.symm
      simp [setEntries, lookupEntries, this]
    · by_cases h1 : k0 = k'
      · subst h1
        simp [setEntries, lookupEntries, h0]
      · simp [setEntries, lookupEntries, h0, h1, ih]

theorem get?_set_self (m : GoMap K V) (k : K) (v : V) : (m.set k v).get? k = some v :=
  lookup_setEntries_self m.entries k v

theorem get?_set_ne (m : GoMap K V) (k k' : K) (v : V) (h : k' ≠ k) :
    (m.set k v).get? k' = m.get? k' :=
  lookup_setEntries_ne m.entries k k' v h

theorem get?_set (m : GoMap K V) (k k' : K) (v : V) :
    (m.set k v).get? k' = if k' = k then some v else m.get? k' := by
  by_cases h : k' = k
  · subst h
    simp [get?_set_self]
  · simp [h, get?_set_ne]

theorem get?_empty (k : K) : (empty : GoMap K V).get? k = none := rfl

theorem length_setEntries (l : List (K × V)) (k : K) (v : V) :
    (setEntries l k v).length = if (lookupEntries l k).isSome then l.length else l.length + 1 := by
  induction l with
  | nil => simp [setEntries, lookupEntries]
  | cons hd tl ih =>
    obtain ⟨k', v'⟩ := hd
    by_cases h : k' = k
    · simp [setEntries, lookupEntries, h]
    · simp only [setEntries, lookupEntries, h, if_false, List.length_cons, ih]
      split <;> rfl

theorem len_set (m : GoMap K V) (k : K) (v : V) :
    (m.set k v).len = if (m.get? k).isSome then m.len else m.len + 1 :=
  length_setEntries m.entries k v

theorem lookupEntries_isSome (l : List (K × V)) (k : K) :
    (lookupEntries l k).isSome ↔ k ∈ l.map Prod.fst := by
  induction l with
  | nil => simp [lookupEntries]
  | cons hd tl ih =>
    obtain ⟨k', v'⟩ := hd
    by_cases h : k' = k
    · simp [lookupEntries, h]
    · have h' : ¬ k = k' := fun e => h e.symm
      simp [lookupEntries, h, h', ih]

theorem mem_keys_iff (m : GoMap K V) (k : K) : k ∈ m.keys ↔ (m.get? k).isSome :=
  (lookupEntries_isSome m.entries k).symm

theorem lookupEntries_of_mem (l : List (K × V)) (hn : (l.map Prod.fst).Nodup) (k : K) (v : V)
    (h : (k, v) ∈ l) : lookupEntries l k = some v := by
  induction l with
  | nil => simp at h
  | cons hd tl ih =>
    obtain ⟨k', v'⟩ := hd
    simp only [List.map_cons, List.nodup_cons] at hn
    rcases List.mem_cons.1 h with h1 | h1
    · cases h1
      simp [lookupEntries]
    · have hk : k ∈ tl.map Prod.fst := List.mem_map.2 ⟨(k, v), h1, rfl⟩
      have hne : ¬ k' = k := fun e => hn.1 (e ▸ hk)
      simp [lookupEntries, hne, ih hn.2 h1]

theorem mem_of_lookupEntries (l : List (K × V)) (k : K) (v : V)
    (h : lookupEntries l k = some v) : (k, v) ∈ l := by
  induction l with
  | nil => simp [lookupEntries] at h
  | cons hd tl ih =>
    obtain ⟨k', v'⟩ := hd
    by_cases hk : k' = k
    · simp only [lookupEntries, hk, if_true, Option.some.injEq] at h
      subst hk; subst h
      exact List.mem_cons_self _ _
    · simp only [lookupEntries, hk, if_false] at h
      exact List.mem_cons_of_mem _ (ih h)

theorem mem_entries_iff (m : GoMap K V) (k : K) (v : V) :
    (k, v) ∈ m.entries ↔ m.get? k = some v :=
  ⟨lookupEntries_of_mem m.entries m.nodup k v, mem_of_lookupEntries m.entries k v⟩

end GoMap

end Teams

namespace Teams

open TeamSigChainPlayer

/-! ## The outer checks -/

theorem checkOuterLink_ok {env : Env} {t : TeamSigChainPlayer}
    {prevState : Option TeamSigChainState} {link : SCChainLink} {av : Bool}
    {oRes : checkOuterLinkResult} (h : checkOuterLink env t prevState link av = .ok oRes) :
    link.Seqno = expectedSeqno prevState ∧
    link.Version = 2 ∧
    env.decodeOuterLinkV2 link.Sig = some oRes.outerLink ∧
    env.assertSomeFields oRes.outerLink link.Version link.Seqno = true ∧
    oRes.signingUser = NewUserVersion link.UID 1 ∧
    oRes.innerLink = (if link.Payload = "" then none else env.unmarshalPayload link.Payload) ∧
    (link.Payload ≠ "" → oRes.innerLink ≠ none) := by
  unfold checkOuterLink at h
  simp only [TeamSigChainPlayerSupportedLinkVersion] at h
  split at h
  · cases h
  rename_i hseq
  split at h
  · cases h
  rename_i hver
  split at h
  · cases h
  split at h
  · cases h
  rename_i outerLink hdec
  split at h
  · cases h
  rename_i hasf
  split at h
  · cases h
  have hseq' : link.Seqno = expectedSeqno prevState := by
    cases prevState <;> simpa [expectedSeqno] using hseq
  have hver' : link.Version = 2 := by simpa using hver
  have hasf' : env.assertSomeFields outerLink link.Version link.Seqno = true := by
    simpa using hasf
  split at h
  · rename_i hp
    cases h
    exact ⟨hseq', hver', hdec, hasf', rfl, by simp [hp], fun hne => absurd hp hne⟩
  · rename_i hp
    split at h
    · cases h
    · rename_i payload hpl
      cases h
      exact ⟨hseq', hver', hdec, hasf', rfl, by simp [hp, hpl], fun _ => by simp⟩

end Teams

namespace Teams

open TeamSigChainPlayer

/-! ## Shape of an accepted link -/

/-- The handler of `addInnerLink` that accepted a link, with the checks made before the switch. -/
theorem addInnerLink_ok {env : Env} {t : TeamSigChainPlayer}
    {prevState : Option TeamSigChainState} {link : SCChainLink} {oRes : checkOuterLinkResult}
    {av : Bool} {iRes : checkInnerLinkResult}
    (h : addInnerLink env t prevState link oRes av = .ok iRes) :
    ∃ payload team teamID,
      oRes.innerLink = some payload ∧
      checkInnerOuterMatch env t oRes.outerLink payload (env.payloadHash link.Payload) = none ∧
      payload.Tag = "signature" ∧
      payload.Body.Team = some team ∧
      team.ID.length ≠ 0 ∧
      env.teamIDFromString team.ID = some teamID ∧
      (∀ ps, prevState = some ps → ps.Id = teamID) ∧
      ((payload.Body.Type_ = "team.root" ∧
          addInnerLinkRoot env t prevState link oRes team teamID = .ok iRes) ∨
       (payload.Body.Type_ = "team.change_membership" ∧
          addInnerLinkChangeMembership env t prevState link oRes team = .ok iRes) ∨
       (payload.Body.Type_ = "team.rotate_key" ∧
          addInnerLinkRotateKey env t prevState link oRes team = .ok iRes) ∨
       (payload.Body.Type_ = "team.leave" ∧
          addInnerLinkLeave env t prevState link oRes team = .ok iRes) ∨
       (payload.Body.Type_ = "team.new_subteam" ∧
          addInnerLinkNewSubteam env t prevState link oRes team = .ok iRes) ∨
       (payload.Body.Type_ = "team.subteam_head" ∧
          addInnerLinkSubteamHead env t prevState link oRes team teamID = .ok iRes)) := by
  unfold addInnerLink at h
  cases hpl : oRes.innerLink with
  | none => simp only [hpl] at h; cases h
  | some payload =>
    simp only [hpl] at h
    cases hmatch : checkInnerOuterMatch env t oRes.outerLink payload
        (env.payloadHash link.Payload) with
    | some e => simp only [hmatch] at h; cases h
    | none =>
      simp only [hmatch] at h
      by_cases htag : payload.Tag = "signature"
      swap
      · simp only [ne_eq, htag, not_false_eq_true, if_true] at h
        cases h
      simp only [htag, ne_eq, not_true_eq_false, if_false] at h
      cases hteam : payload.Body.Team with
      | none => simp only [hteam] at h; cases h
      | some team =>
        simp only [hteam] at h
        by_cases hid : team.ID.length = 0
        · simp only [hid, if_true] at h
          cases h
        simp only [hid, if_false] at h
        cases htid : env.teamIDFromString team.ID with
        | none => simp only [htid] at h; cases h
        | some teamID =>
          simp only [htid] at h
          by_cases hw : wrongTeamID prevState teamID = true
          · simp only [hw, if_true] at h
            cases h
          simp only [hw, Bool.false_eq_true, if_false] at h
          have hsame : ∀ ps, prevState = some ps → ps.Id = teamID := by
            intro ps hps
            subst hps
            simpa [wrongTeamID, TeamID.Equal] using hw
          refine ⟨payload, team, teamID, rfl, hmatch, htag, hteam, hid, htid, hsame, ?_⟩
          unfold addInnerLinkSwitch at h
          by_cases h1 : payload.Body.Type_ = "team.root"
          · simp only [h1, if_true] at h
            exact Or.inl ⟨h1, h⟩
          simp only [h1, if_false] at h
          by_cases h2 : payload.Body.Type_ = "team.change_membership"
          · simp only [h2, if_true] at h
            exact Or.inr (Or.inl ⟨h2, h⟩)
          simp only [h2, if_false] at h
          by_cases h3 : payload.Body.Type_ = "team.rotate_key"
          · simp only [h3, if_true] at h
            exact Or.inr (Or.inr (Or.inl ⟨h3, h⟩))
          simp only [h3, if_false] at h
          by_cases h4 : payload.Body.Type_ = "team.leave"
          · simp only [h4, if_true] at h
            exact Or.inr (Or.inr (Or.inr (Or.inl ⟨h4, h⟩)))
          simp only [h4, if_false] at h
          by_cases h5 : payload.Body.Type_ = "team.new_subteam"
          · simp only [h5, if_true] at h
            exact Or.inr (Or.inr (Or.inr (Or.inr (Or.inl ⟨h5, h⟩))))
          simp only [h5, if_false] at h
          by_cases h6 : payload.Body.Type_ = "team.subteam_head"
          · simp only [h6, if_true] at h
            exact Or.inr (Or.inr (Or.inr (Or.inr (Or.inr ⟨h6, h⟩))))
          simp only [h6, if_false] at h
          by_cases h7 : payload.Body.Type_ = "team.subteam_rename"
          · simp only [h7, if_true] at h
            cases h
          simp only [h7, if_false] at h
          by_cases h8 : payload.Body.Type_ = ""
          · simp only [h8, if_true] at h
            cases h
          simp only [h8, if_false] at h
          cases h

/-- An accepted link is either a stubbed link on a prior state, or a link accepted by
`addInnerLink`; in both cases the seqno and link ID of the outer link are stored. -/
theorem addChainLinkCommon_ok {env : Env} {t : TeamSigChainPlayer}
    {prevState : Option TeamSigChainState} {link : SCChainLink} {av : Bool}
    {s : TeamSigChainState} (h : addChainLinkCommon env t prevState link av = .ok s) :
    ∃ oRes, checkOuterLink env t prevState link av = .ok oRes ∧
      ((oRes.innerLink = none ∧ ∃ ps, prevState = some ps ∧
          s = { ps with
            LastSeqno := oRes.outerLink.Seqno
            LastLinkID := env.outerLinkID oRes.outerLink
            StubbedTypes := ps.StubbedTypes.set oRes.outerLink.LinkType true }) ∨
       (oRes.innerLink ≠ none ∧ ∃ iRes, addInnerLink env t prevState link oRes av = .ok iRes ∧
          s = { iRes.newState with
            LastSeqno := oRes.outerLink.Seqno
            LastLinkID := env.outerLinkID oRes.outerLink })) := by
  unfold addChainLinkCommon at h
  split at h
  · cases h
  rename_i oRes hout
  refine ⟨oRes, hout, ?_⟩
  split at h
  · rename_i hin
    split at h
    · cases h
    · rename_i ps
      cases h
      exact Or.inl ⟨hin, ps, rfl, rfl⟩
  · rename_i p hin
    split at h
    · cases h
    · rename_i iRes hi
      cases h
      exact Or.inr ⟨by simp [hin], iRes, hi, rfl⟩

end Teams

namespace Teams

open TeamSigChainPlayer

/-! ## Structural predicates -/

theorem PickFirstError_none (l : List (Option Err)) :
    PickFirstError l = none ↔ ∀ e ∈ l, e = none := by
  induction l with
  | nil => simp [PickFirstError]
  | cons hd tl ih =>
    cases hd with
    | none => simp [PickFirstError, ih]
    | some e => simp [PickFirstError]

theorem hasGeneric_none (hasExpected hasReal : Bool) (attr : String) :
    hasGeneric hasExpected hasReal attr = none ↔ hasReal = hasExpected := by
  unfold hasGeneric
  cases hasExpected <;> cases hasReal <;> simp

theorem hasPrevState_none (prevState : Option TeamSigChainState) (has : Bool) :
    hasPrevState prevState has = none ↔ prevState.isSome = has := by
  unfold hasPrevState
  cases has <;> cases prevState <;> simp

theorem isSome_false_iff {α : Type} (o : Option α) : o.isSome = false ↔ o = none := by
  cases o <;> simp

theorem isSome_true_iff {α : Type} (o : Option α) : o.isSome = true ↔ ∃ a, o = some a := by
  cases o <;> simp

/-! ## What each handler does when it accepts -/

theorem addInnerLinkRoot_ok {env : Env} {t : TeamSigChainPlayer}
    {prevState : Option TeamSigChainState} {link : SCChainLink} {oRes : checkOuterLinkResult}
    {team : SCTeamSection} {teamID : TeamID} {iRes : checkInnerLinkResult}
    (h : addInnerLinkRoot env t prevState link oRes team teamID = .ok iRes) :
    prevState = none ∧ team.Parent = none ∧ team.Subteam = none ∧ team.Admin = none ∧
    ∃ name members ptk teamName roleUpdates perTeamKey,
      team.Name = some name ∧ team.Members = some members ∧ team.PerTeamKey = some ptk ∧
      env.teamNameFromString name = some teamName ∧
      teamName.IsRootTeam = true ∧
      teamID = env.teamNameToTeamID teamName ∧
      env.teamIDIsSubTeam teamID = false ∧
      t.sanityCheckMembers members true false = .ok roleUpdates ∧
      checkPerTeamKey env t link ptk 1 = .ok perTeamKey ∧
      iRes.newState = t.updateMembership
        (initialState env t teamID teamName oRes none perTeamKey) roleUpdates
        oRes.outerLink.Seqno ∧
      iRes.newState.getUserRole oRes.signingUser = TeamRole.OWNER := by
  unfold addInnerLinkRoot at h
  generalize hpick : PickFirstError _ = pf at h
  cases pf with
  | some e => cases h
  | none =>
    simp only at h
    rw [PickFirstError_none] at hpick
    simp only [List.mem_cons, List.mem_singleton, forall_eq_or_imp, forall_eq, hasName,
      hasMembers, hasParent, hasSubteam, hasPerTeamKey, hasAdmin, hasGeneric_none,
      hasPrevState_none, List.not_mem_nil, false_implies, implies_true, and_true,
      isSome_false_iff, isSome_true_iff] at hpick
    obtain ⟨hprev, ⟨name, hname⟩, ⟨members, hmem⟩, hparent, hsub, ⟨ptk, hptk⟩, hadmin⟩ := hpick
    refine ⟨hprev, hparent, hsub, hadmin, ?_⟩
    simp only [hname, hmem, hptk] at h
    cases htn : env.teamNameFromString name with
    | none => simp only [htn] at h; cases h
    | some teamName =>
      simp only [htn] at h
      by_cases hroot : teamName.IsRootTeam = true
      swap
      · simp [hroot] at h
      simp only [hroot, Bool.not_true, Bool.false_eq_true, if_false] at h
      by_cases heq : TeamID.Equal teamID (env.teamNameToTeamID teamName) = true
      swap
      · simp [heq] at h
      simp only [heq, Bool.not_true, Bool.false_eq_true, if_false] at h
      by_cases hst : env.teamIDIsSubTeam teamID = true
      · simp [hst] at h
      simp only [hst, if_false] at h
      cases hsan : t.sanityCheckMembers members true false with
      | error e => simp only [hsan] at h; cases h
      | ok roleUpdates =>
        simp only [hsan] at h
        cases hk : checkPerTeamKey env t link ptk 1 with
        | error e => simp only [hk] at h; cases h
        | ok perTeamKey =>
          simp only [hk] at h
          by_cases hown : (t.updateMembership
              (initialState env t teamID teamName oRes none perTeamKey) roleUpdates
              oRes.outerLink.Seqno).getUserRole oRes.signingUser = TeamRole.OWNER
          swap
          · simp [hown] at h
          simp only [hown, ne_eq, not_true_eq_false, if_false, Bool.false_eq_true,
            Except.ok.injEq] at h
          subst h
          refine ⟨name, members, ptk, teamName, roleUpdates, perTeamKey, hname, hmem, hptk, htn,
            hroot, ?_, by simpa using hst, hsan, hk, rfl, hown⟩
          simpa [TeamID.Equal] using heq

theorem addInnerLinkChangeMembership_ok {env : Env} {t : TeamSigChainPlayer}
    {prevState : Option TeamSigChainState} {link : SCChainLink} {oRes : checkOuterLinkResult}
    {team : SCTeamSection} {iRes : checkInnerLinkResult}
    (h : addInnerLinkChangeMembership env t prevState link oRes team = .ok iRes) :
    team.Name = none ∧ team.Parent = none ∧ team.Subteam = none ∧
    ∃ ps members roleUpdates,
      prevState = some ps ∧ team.Members = some members ∧
      (ps.getUserRole oRes.signingUser = TeamRole.ADMIN ∨
        ps.getUserRole oRes.signingUser = TeamRole.OWNER) ∧
      t.sanityCheckMembers members false true = .ok roleUpdates ∧
      ((team.PerTeamKey = none ∧
          iRes.newState = t.updateMembership ps roleUpdates oRes.outerLink.Seqno) ∨
       (∃ ptk lastKey newKey, team.PerTeamKey = some ptk ∧
          ps.GetLatestPerTeamKey = .ok lastKey ∧
          checkPerTeamKey env t link ptk (lastKey.Gen + 1) = .ok newKey ∧
          iRes.newState =
            { t.updateMembership ps roleUpdates oRes.outerLink.Seqno with
              PerTeamKeys :=
                (t.updateMembership ps roleUpdates oRes.outerLink.Seqno).PerTeamKeys.set
                  newKey.Gen newKey })) := by
  unfold addInnerLinkChangeMembership at h
  generalize hpick : PickFirstError _ = pf at h
  cases pf with
  | some e => cases h
  | none =>
    simp only at h
    rw [PickFirstError_none] at hpick
    simp only [List.mem_cons, List.mem_singleton, forall_eq_or_imp, forall_eq, hasName,
      hasMembers, hasParent, hasSubteam, hasPerTeamKey, hasAdmin, hasGeneric_none,
      hasPrevState_none, List.not_mem_nil, false_implies, implies_true, and_true,
      isSome_false_iff, isSome_true_iff] at hpick
    obtain ⟨⟨ps, hprev⟩, hname, ⟨members, hmem⟩, hparent, hsub⟩ := hpick
    refine ⟨hname, hparent, hsub, ps, members, ?_⟩
    simp only [hprev, hmem, TeamSigChainState.GetUserRole, TeamSigChainState.DeepCopy] at h
    by_cases hrole : ps.getUserRole oRes.signingUser ≠ TeamRole.ADMIN ∧
        ps.getUserRole oRes.signingUser ≠ TeamRole.OWNER
    · rw [if_pos hrole] at h
      cases h
    rw [if_neg hrole] at h
    have hrole' : ps.getUserRole oRes.signingUser = TeamRole.ADMIN ∨
        ps.getUserRole oRes.signingUser = TeamRole.OWNER := by
      by_contra hc
      exact hrole ⟨fun e => hc (Or.inl e), fun e => hc (Or.inr e)⟩
    cases hsan : t.sanityCheckMembers members false true with
    | error e => simp only [hsan] at h; cases h
    | ok roleUpdates =>
      simp only [hsan] at h
      refine ⟨roleUpdates, hprev, hmem, hrole', rfl, ?_⟩
      cases hptk : team.PerTeamKey with
      | none =>
        simp only [hptk, Except.ok.injEq] at h
        subst h
        exact Or.inl ⟨rfl, rfl⟩
      | some ptk =>
        simp only [hptk] at h
        cases hlast : ps.GetLatestPerTeamKey with
        | error e => simp only [hlast] at h; cases h
        | ok lastKey =>
          simp only [hlast] at h
          cases hk : checkPerTeamKey env t link ptk (lastKey.Gen + 1) with
          | error e => simp only [hk] at h; cases h
          | ok newKey =>
            simp only [hk, Except.ok.injEq] at h
            subst h
            exact Or.inr ⟨ptk, lastKey, newKey, rfl, rfl, hk, rfl⟩

theorem addInnerLinkRotateKey_ok {env : Env} {t : TeamSigChainPlayer}
    {prevState : Option TeamSigChainState} {link : SCChainLink} {oRes : checkOuterLinkResult}
    {team : SCTeamSection} {iRes : checkInnerLinkResult}
    (h : addInnerLinkRotateKey env t prevState link oRes team = .ok iRes) :
    team.Name = none ∧ team.Members = none ∧ team.Parent = none ∧ team.Subteam = none ∧
    ∃ ps ptk lastKey newKey,
      prevState = some ps ∧ team.PerTeamKey = some ptk ∧
      (ps.getUserRole oRes.signingUser = TeamRole.WRITER ∨
        ps.getUserRole oRes.signingUser = TeamRole.ADMIN ∨
        ps.getUserRole oRes.signingUser = TeamRole.OWNER) ∧
      ps.GetLatestPerTeamKey = .ok lastKey ∧
      checkPerTeamKey env t link ptk (lastKey.Gen + 1) = .ok newKey ∧
      iRes.newState = { ps with PerTeamKeys := ps.PerTeamKeys.set newKey.Gen newKey } := by
  unfold addInnerLinkRotateKey at h
  generalize hpick : PickFirstError _ = pf at h
  cases pf with
  | some e => cases h
  | none =>
    simp only at h
    rw [PickFirstError_none] at hpick
    simp only [List.mem_cons, List.mem_singleton, forall_eq_or_imp, forall_eq, hasName,
      hasMembers, hasParent, hasSubteam, hasPerTeamKey, hasAdmin, hasGeneric_none,
      hasPrevState_none, List.not_mem_nil, false_implies, implies_true, and_true,
      isSome_false_iff, isSome_true_iff] at hpick
    obtain ⟨⟨ps, hprev⟩, hname, hmem, hparent, hsub, ⟨ptk, hptk⟩⟩ := hpick
    refine ⟨hname, hmem, hparent, hsub, ps, ptk, ?_⟩
    simp only [hprev, hptk, TeamSigChainState.GetUserRole, TeamSigChainState.DeepCopy] at h
    by_cases hrole : ps.getUserRole oRes.signingUser ≠ TeamRole.WRITER ∧
        ps.getUserRole oRes.signingUser ≠ TeamRole.ADMIN ∧
        ps.getUserRole oRes.signingUser ≠ TeamRole.OWNER
    · rw [if_pos hrole] at h
      cases h
    rw [if_neg hrole] at h
    have hrole' : ps.getUserRole oRes.signingUser = TeamRole.WRITER ∨
        ps.getUserRole oRes.signingUser = TeamRole.ADMIN ∨
        ps.getUserRole oRes.signingUser = TeamRole.OWNER := by
      by_contra hc
      exact hrole ⟨fun e => hc (Or.inl e), fun e => hc (Or.inr (Or.inl e)),
        fun e => hc (Or.inr (Or.inr e))⟩
    cases hlast : ps.GetLatestPerTeamKey with
    | error e => simp only [hlast] at h; cases h
    | ok lastKey =>
      simp only [hlast] at h
      cases hk : checkPerTeamKey env t link ptk (lastKey.Gen + 1) with
      | error e => simp only [hk] at h; cases h
      | ok newKey =>
        simp only [hk, Except.ok.injEq] at h
        subst h
        exact ⟨lastKey, newKey, hprev, hptk, hrole', rfl, hk, rfl⟩

theorem addInnerLinkLeave_ok {env : Env} {t : TeamSigChainPlayer}
    {prevState : Option TeamSigChainState} {link : SCChainLink} {oRes : checkOuterLinkResult}
    {team : SCTeamSection} {iRes : checkInnerLinkResult}
    (h : addInnerLinkLeave env t prevState link oRes team = .ok iRes) :
    team.Name = none ∧ team.Members = none ∧ team.Parent = none ∧ team.Subteam = none ∧
    team.PerTeamKey = none ∧ team.Admin = none ∧
    ∃ ps, prevState = some ps ∧
      ps.getUserRole oRes.signingUser ≠ TeamRole.NONE ∧
      iRes.newState = ps.inform oRes.signingUser TeamRole.NONE oRes.outerLink.Seqno := by
  unfold addInnerLinkLeave at h
  generalize hpick : PickFirstError _ = pf at h
  cases pf with
  | some e => cases h
  | none =>
    simp only at h
    rw [PickFirstError_none] at hpick
    simp only [List.mem_cons, List.mem_singleton, forall_eq_or_imp, forall_eq, hasName,
      hasMembers, hasParent, hasSubteam, hasPerTeamKey, hasAdmin, hasGeneric_none,
      hasPrevState_none, List.not_mem_nil, false_implies, implies_true, and_true,
      isSome_false_iff, isSome_true_iff] at hpick
    obtain ⟨⟨ps, hprev⟩, hname, hmem, hparent, hsub, hptk, hadmin⟩ := hpick
    refine ⟨hname, hmem, hparent, hsub, hptk, hadmin, ps, hprev, ?_⟩
    simp only [hprev, TeamSigChainState.GetUserRole, TeamSigChainState.DeepCopy] at h
    by_cases hrole : ps.getUserRole oRes.signingUser ≠ TeamRole.READER ∧
        ps.getUserRole oRes.signingUser ≠ TeamRole.WRITER ∧
        ps.getUserRole oRes.signingUser ≠ TeamRole.ADMIN ∧
        ps.getUserRole oRes.signingUser ≠ TeamRole.OWNER
    · rw [if_pos hrole] at h
      cases h
    rw [if_neg hrole] at h
    simp only [Except.ok.injEq] at h
    subst h
    refine ⟨?_, rfl⟩
    intro hnone
    apply hrole
    rw [hnone]
    exact ⟨by decide, by decide, by decide, by decide⟩

theorem addInnerLinkNewSubteam_ok {env : Env} {t : TeamSigChainPlayer}
    {prevState : Option TeamSigChainState} {link : SCChainLink} {oRes : checkOuterLinkResult}
    {team : SCTeamSection} {iRes : checkInnerLinkResult}
    (h : addInnerLinkNewSubteam env t prevState link oRes team = .ok iRes) :
    team.Name = none ∧ team.Members = none ∧ team.Parent = none ∧ team.PerTeamKey = none ∧
    ∃ ps subteam subteamID subteamName lastPart expectedSubteamName,
      prevState = some ps ∧ team.Subteam = some subteam ∧
      env.teamIDFromString subteam.ID = some subteamID ∧
      env.teamIDIsSubTeam subteamID = true ∧
      env.teamNameFromString subteam.Name = some subteamName ∧
      subteamName.LastPart = some lastPart ∧
      ps.GetName.Append env lastPart = .ok expectedSubteamName ∧
      expectedSubteamName.Eq subteamName = true ∧
      ps.informSubteam subteamID subteamName oRes.outerLink.Seqno = .ok iRes.newState := by
  unfold addInnerLinkNewSubteam at h
  generalize hpick : PickFirstError _ = pf at h
  cases pf with
  | some e => cases h
  | none =>
    simp only at h
    rw [PickFirstError_none] at hpick
    simp only [List.mem_cons, List.mem_singleton, forall_eq_or_imp, forall_eq, hasName,
      hasMembers, hasParent, hasSubteam, hasPerTeamKey, hasAdmin, hasGeneric_none,
      hasPrevState_none, List.not_mem_nil, false_implies, implies_true, and_true,
      isSome_false_iff, isSome_true_iff] at hpick
    obtain ⟨⟨ps, hprev⟩, hname, hmem, hparent, ⟨subteam, hsub⟩, hptk⟩ := hpick
    refine ⟨hname, hmem, hparent, hptk, ps, subteam, ?_⟩
    simp only [hprev, hsub, TeamSigChainState.DeepCopy] at h
    cases hsid : env.teamIDFromString subteam.ID with
    | none => simp only [hsid] at h; cases h
    | some subteamID =>
      simp only [hsid] at h
      by_cases hst : env.teamIDIsSubTeam subteamID = true
      swap
      · simp [hst] at h
      simp only [hst, Bool.not_true, Bool.false_eq_true, if_false] at h
      cases hsn : env.teamNameFromString subteam.Name with
      | none => simp only [hsn] at h; cases h
      | some subteamName =>
        simp only [hsn] at h
        cases hlp : subteamName.LastPart with
        | none => simp only [hlp] at h; cases h
        | some lastPart =>
          simp only [hlp] at h
          cases happ : ps.GetName.Append env lastPart with
          | error e => simp only [happ] at h; cases h
          | ok expectedSubteamName =>
            simp only [happ] at h
            by_cases heq : expectedSubteamName.Eq subteamName = true
            swap
            · simp [heq] at h
            simp only [heq, Bool.not_true, Bool.false_eq_true, if_false] at h
            cases hinf : ps.informSubteam subteamID subteamName oRes.outerLink.Seqno with
            | error e => simp only [hinf] at h; cases h
            | ok newState =>
              simp only [hinf, Except.ok.injEq] at h
              subst h
              exact ⟨subteamID, subteamName, lastPart, expectedSubteamName, hprev, hsub, rfl,
                hst, rfl, hlp, happ, heq, hinf⟩

theorem addInnerLinkSubteamHead_ok {env : Env} {t : TeamSigChainPlayer}
    {prevState : Option TeamSigChainState} {link : SCChainLink} {oRes : checkOuterLinkResult}
    {team : SCTeamSection} {teamID : TeamID} {iRes : checkInnerLinkResult}
    (h : addInnerLinkSubteamHead env t prevState link oRes team teamID = .ok iRes) :
    prevState = none ∧ team.Subteam = none ∧
    ∃ name members parent ptk parentID teamName roleUpdates perTeamKey,
      team.Name = some name ∧ team.Members = some members ∧ team.Parent = some parent ∧
      team.PerTeamKey = some ptk ∧
      env.teamIDIsSubTeam teamID = true ∧
      env.teamIDFromString parent.ID = some parentID ∧
      env.teamNameFromString name = some teamName ∧
      teamName.IsRootTeam = false ∧
      t.sanityCheckMembers members false false = .ok roleUpdates ∧
      checkPerTeamKey env t link ptk 1 = .ok perTeamKey ∧
      iRes.newState = t.updateMembership
        (initialState env t teamID teamName oRes (some parentID) perTeamKey) roleUpdates
        oRes.outerLink.Seqno := by
  unfold addInnerLinkSubteamHead at h
  generalize hpick : PickFirstError _ = pf at h
  cases pf with
  | some e => cases h
  | none =>
    simp only at h
    rw [PickFirstError_none] at hpick
    simp only [List.mem_cons, List.mem_singleton, forall_eq_or_imp, forall_eq, hasName,
      hasMembers, hasParent, hasSubteam, hasPerTeamKey, hasAdmin, hasGeneric_none,
      hasPrevState_none, List.not_mem_nil, false_implies, implies_true, and_true,
      isSome_false_iff, isSome_true_iff] at hpick
    obtain ⟨hprev, ⟨name, hname⟩, ⟨members, hmem⟩, ⟨parent, hparent⟩, hsub, ⟨ptk, hptk⟩⟩ :=
      hpick
    refine ⟨hprev, hsub, name, members, parent, ptk, ?_⟩
    simp only [hname, hmem, hparent, hptk] at h
    by_cases hst : env.teamIDIsSubTeam teamID = true
    swap
    · simp [hst] at h
    simp only [hst, Bool.not_true, Bool.false_eq_true, if_false] at h
    cases hpid : env.teamIDFromString parent.ID with
    | none => simp only [hpid] at h; cases h
    | some parentID =>
      simp only [hpid] at h
      cases htn : env.teamNameFromString name with
      | none => simp only [htn] at h; cases h
      | some teamName =>
        simp only [htn] at h
        by_cases hroot : teamName.IsRootTeam = true
        · simp [hroot] at h
        simp only [hroot, if_false] at h
        cases hsan : t.sanityCheckMembers members false false with
        | error e => simp only [hsan] at h; cases h
        | ok roleUpdates =>
          simp only [hsan] at h
          cases hk : checkPerTeamKey env t link ptk 1 with
          | error e => simp only [hk] at h; cases h
          | ok perTeamKey =>
            simp only [hk, Bool.false_eq_true, if_false, Except.ok.injEq] at h
            subst h
            exact ⟨parentID, teamName, roleUpdates, perTeamKey, hname, hmem, hparent, hptk, hst,
              rfl, rfl, by simpa using hroot, rfl, rfl, rfl⟩

theorem checkPerTeamKey_ok {env : Env} {t : TeamSigChainPlayer} {link : SCChainLink}
    {ptk : SCPerTeamKey} {expected : PerTeamKeyGeneration} {res : PerTeamKey}
    (h : checkPerTeamKey env t link ptk expected = .ok res) :
    ptk.Generation = expected ∧
    (∃ sigKey, env.importNaclSigningKeyPairFromHex ptk.SigKID = some sigKey ∧
      env.verifyReverseSig sigKey link.Payload ptk.ReverseSig = true) ∧
    env.importNaclDHKeyPairFromHex ptk.EncKID = true ∧
    res = { Gen := expected, Seqno := link.Seqno, SigKID := ptk.SigKID, EncKID := ptk.EncKID } := by
  unfold checkPerTeamKey at h
  by_cases hg : ptk.Generation = expected
  swap
  · rw [if_pos hg] at h
    cases h
  rw [if_neg (not_not.2 hg)] at h
  cases hsig : env.importNaclSigningKeyPairFromHex ptk.SigKID with
  | none => simp only [hsig] at h; cases h
  | some sigKey =>
    simp only [hsig] at h
    by_cases henc : env.importNaclDHKeyPairFromHex ptk.EncKID = true
    swap
    · simp [henc] at h
    simp only [henc, Bool.not_true, Bool.false_eq_true, if_false] at h
    by_cases hj : env.jsonwUnmarshal link.Payload = true
    swap
    · simp [hj] at h
    simp only [hj, Bool.not_true, Bool.false_eq_true, if_false] at h
    by_cases hv : env.verifyReverseSig sigKey link.Payload ptk.ReverseSig = true
    swap
    · simp [hv] at h
    simp only [hv, Bool.not_true, Bool.false_eq_true, if_false, Except.ok.injEq] at h
    subst h
    exact ⟨hg, ⟨sigKey, rfl, hv⟩, henc, by rw [hg]⟩

/-! ## Batches -/

theorem addChainLinksCommon_error {env : Env} {t : TeamSigChainPlayer}
    {links : List SCChainLink} {av : Bool}
    (h : (addChainLinksCommon env t links av).2 ≠ none) :
    (addChainLinksCommon env t links av).1 = t := by
  unfold addChainLinksCommon at h ⊢
  by_cases hl : links.length = 0
  · simp only [hl, if_true]
  · simp only [hl, if_false] at h ⊢
    cases hloop : addChainLinksLoop env t av t.storedState links with
    | error e => simp only [hloop]
    | ok st =>
      simp only [hloop] at h
      exact absurd rfl h

theorem addChainLinksCommon_ok {env : Env} {t t' : TeamSigChainPlayer}
    {links : List SCChainLink} {av : Bool}
    (h : addChainLinksCommon env t links av = (t', none)) :
    links ≠ [] ∧ ∃ st, addChainLinksLoop env t av t.storedState links = .ok st ∧
      t' = { t with storedState := st } := by
  unfold addChainLinksCommon at h
  by_cases hl : links.length = 0
  · simp only [hl, if_true] at h
    cases h
  · simp only [hl, if_false] at h
    refine ⟨fun e => hl (by simp [e]), ?_⟩
    cases hloop : addChainLinksLoop env t av t.storedState links with
    | error e =>
      simp only [hloop] at h
      cases h
    | ok st =>
      simp only [hloop] at h
      cases h
      exact ⟨st, rfl, rfl⟩

theorem addChainLinkCommon_seqno {env : Env} (hasf : AssertSomeFieldsChecksSeqno env)
    {t : TeamSigChainPlayer} {prevState : Option TeamSigChainState} {link : SCChainLink}
    {av : Bool} {s : TeamSigChainState}
    (h : addChainLinkCommon env t prevState link av = .ok s) :
    s.LastSeqno = expectedSeqno prevState := by
  obtain ⟨oRes, hout, hcase⟩ := addChainLinkCommon_ok h
  obtain ⟨hseq, _, _, hchk, _⟩ := checkOuterLink_ok hout
  have ho : oRes.outerLink.Seqno = link.Seqno := hasf _ _ _ hchk
  rcases hcase with ⟨_, ps, _, hs⟩ | ⟨_, iRes, _, hs⟩
  · rw [hs]
    exact ho.trans hseq
  · rw [hs]
    exact ho.trans hseq

theorem expectedSeqno_eq (st : Option TeamSigChainState) :
    expectedSeqno st = seqnoOrZero st + 1 := by
  cases st <;> simp [expectedSeqno, seqnoOrZero, TeamSigChainState.GetLatestSeqno]

theorem addChainLinksLoop_seqno {env : Env} (hasf : AssertSomeFieldsChecksSeqno env)
    {t : TeamSigChainPlayer} {av : Bool} (links : List SCChainLink) :
    ∀ (state st' : Option TeamSigChainState),
      addChainLinksLoop env t av state links = .ok st' →
      seqnoOrZero st' = seqnoOrZero state + (links.length : Int) := by
  induction links with
  | nil =>
    intro state st' h
    simp only [addChainLinksLoop] at h
    cases h
    simp
  | cons link rest ih =>
    intro state st' h
    simp only [addChainLinksLoop] at h
    cases hstep : addChainLinkCommon env t state link av with
    | error e =>
      simp only [hstep] at h
      cases state <;> cases h
    | ok ns =>
      simp only [hstep] at h
      have h1 := ih _ _ h
      have h2 := addChainLinkCommon_seqno hasf hstep
      rw [expectedSeqno_eq] at h2
      simp only [seqnoOrZero, TeamSigChainState.GetLatestSeqno] at h1 ⊢
      rw [h1, h2]
      simp only [seqnoOrZero, TeamSigChainState.GetLatestSeqno, List.length_cons]
      push_cast
      ring

theorem runCalls_seqno {env : Env} (hasf : AssertSomeFieldsChecksSeqno env)
    (calls : List (Bool × List SCChainLink)) :
    ∀ (t p : TeamSigChainPlayer), runCalls env t calls = some p →
      seqnoOrZero p.storedState
        = seqnoOrZero t.storedState + ((calls.map (fun c => c.2.length)).sum : Nat) ∧
      (calls ≠ [] → 1 ≤ (calls.map (fun c => c.2.length)).sum) := by
  induction calls with
  | nil =>
    intro t p h
    simp only [runCalls] at h
    cases h
    simp
  | cons call rest ih =>
    intro t p h
    obtain ⟨av, links⟩ := call
    simp only [runCalls] at h
    cases hc : addChainLinksCommon env t links av with
    | mk t' err =>
      cases err with
      | some e =>
        simp only [hc] at h
        cases h
      | none =>
        simp only [hc] at h
        obtain ⟨hne, st, hloop, ht'⟩ := addChainLinksCommon_ok hc
        obtain ⟨h1, _⟩ := ih _ _ h
        have h2 := addChainLinksLoop_seqno hasf links _ _ hloop
        have hlen : 1 ≤ links.length := by
          cases links with
          | nil => exact absurd rfl hne
          | cons a l => simp
        subst ht'
        refine ⟨?_, fun _ => ?_⟩
        · rw [h1]
          simp only [List.map_cons, List.sum_cons]
          rw [h2]
          push_cast
          ring
        · simp only [List.map_cons, List.sum_cons]
          omega

/-- C1: a call of `AddChainLinks` (`alreadyVerified = false`) or `AddChainLinksVerified`
(`alreadyVerified = true`) that returns an error leaves the player, and so its stored state and
what `GetState` returns, exactly as before the call, whatever the batch and wherever in it the
failure happens. -/
theorem failed_batch_leaves_player_unchanged (env : Env) (t : TeamSigChainPlayer)
    (links : List SCChainLink) (alreadyVerified : Bool)
    (h : (addChainLinksCommon env t links alreadyVerified).2 ≠ none) :
    (addChainLinksCommon env t links alreadyVerified).1 = t ∧
    (addChainLinksCommon env t links alreadyVerified).1.storedState = t.storedState ∧
    (addChainLinksCommon env t links alreadyVerified).1.GetState = t.GetState := by
  have h1 := addChainLinksCommon_error h
  exact ⟨h1, by rw [h1], by rw [h1]⟩

/-- Witness for C1: on the player that holds the root link of `acme`, the first link of the batch
alone is accepted, the batch fails at its second link, and the player is unchanged. -/
theorem failed_batch_leaves_player_unchanged_witness :
    (AddChainLinks Demo.env Demo.afterRoot [Demo.link 2 "o2s" "subX" "a"]).2 = none ∧
    (AddChainLinks Demo.env Demo.afterRoot Demo.collidingBatch).2 ≠ none ∧
    (AddChainLinks Demo.env Demo.afterRoot Demo.collidingBatch).1 = Demo.afterRoot :=
  ⟨by decide, by decide,
    (failed_batch_leaves_player_unchanged Demo.env Demo.afterRoot Demo.collidingBatch false
      (by decide)).1⟩

/-- C2: from a fresh player, after any non-empty sequence of successful calls of `AddChainLinks`
or `AddChainLinksVerified`, the player holds a state whose `GetLatestSeqno` is the total number of
links of the calls, provided `AssertSomeFields` only passes when the decoded outer link has the
seqno of the link. -/
theorem latest_seqno_counts_links (env : Env) (hasf : AssertSomeFieldsChecksSeqno env)
    (reader : UserVersion) (calls : List (Bool × List SCChainLink)) (p : TeamSigChainPlayer)
    (hrun : runCalls env (NewTeamSigChainPlayer reader) calls = some p) (hne : calls ≠ []) :
    ∃ st, p.storedState = some st ∧
      st.GetLatestSeqno = (((calls.map (fun c => c.2.length)).sum : Nat) : Int) := by
  obtain ⟨h1, h2⟩ := runCalls_seqno hasf calls _ _ hrun
  have h3 := h2 hne
  simp only [NewTeamSigChainPlayer, seqnoOrZero, zero_add] at h1
  cases hst : p.storedState with
  | none =>
    rw [hst] at h1
    simp only [seqnoOrZero] at h1
    have h4 : (((calls.map (fun c => c.2.length)).sum : Nat) : Int) = (0 : Int) := h1.symm
    omega
  | some st =>
    rw [hst] at h1
    exact ⟨st, rfl, h1⟩

theorem Demo.env_assertSomeFields : AssertSomeFieldsChecksSeqno Demo.env := by
  intro o version seqno h
  simp only [Demo.env, decide_eq_true_eq] at h
  exact h.2

/-- Witness for C2: after the root link and a batch of two links the latest seqno is 3. -/
theorem latest_seqno_counts_links_witness :
    ∃ st, Demo.afterTwoCalls.storedState = some st ∧ st.GetLatestSeqno = 3 :=
  latest_seqno_counts_links Demo.env Demo.env_assertSomeFields Demo.A Demo.twoCalls
    Demo.afterTwoCalls (by decide) (by decide)

end Teams

namespace Teams

open TeamSigChainPlayer

/-! ## Frames of the state operations -/

theorem inform_eq (s : TeamSigChainState) (u : UserVersion) (role : TeamRole) (seqno : Seqno) :
    s.inform u role seqno = { s with UserLog := (s.inform u role seqno).UserLog } := by
  unfold TeamSigChainState.inform
  by_cases h : s.getUserRole u = role
  · simp only [h, if_true]
  · simp only [h, if_false]

theorem foldl_inform_eq (uvs : List UserVersion) (role : TeamRole) (seqno : Seqno) :
    ∀ s : TeamSigChainState,
      uvs.foldl (fun st uv => st.inform uv role seqno) s
        = { s with UserLog := (uvs.foldl (fun st uv => st.inform uv role seqno) s).UserLog } := by
  induction uvs with
  | nil => intro s; rfl
  | cons uv rest ih =>
    intro s
    simp only [List.foldl_cons]
    rw [ih (s.inform uv role seqno)]
    generalize (rest.foldl (fun st uv => st.inform uv role seqno) (s.inform uv role seqno)).UserLog
      = ul
    rw [inform_eq s uv role seqno]

theorem updateMembership_eq (t : TeamSigChainPlayer) (s : TeamSigChainState)
    (roleUpdates : GoMap TeamRole (List UserVersion)) (seqno : Seqno) :
    t.updateMembership s roleUpdates seqno
      = { s with UserLog := (t.updateMembership s roleUpdates seqno).UserLog } := by
  unfold updateMembership
  generalize roleUpdates.entries = es
  induction es generalizing s with
  | nil => rfl
  | cons e rest ih =>
    simp only [List.foldl_cons]
    rw [ih (e.2.foldl (fun st uv => st.inform uv e.1 seqno) s)]
    generalize (rest.foldl (fun st e => e.2.foldl (fun st uv => st.inform uv e.1 seqno) st)
      (e.2.foldl (fun st uv => st.inform uv e.1 seqno) s)).UserLog = ul
    rw [foldl_inform_eq e.2 e.1 seqno s]

theorem informSubteam_ok {s s' : TeamSigChainState} {id : TeamID} {name : TeamName}
    {seqno : Seqno} (h : s.informSubteam id name seqno = .ok s') :
    s.checkSubteamCollision id name seqno = none ∧
    (∀ lastPoint, s.getLastSubteamPoint id = some lastPoint → lastPoint.Seqno < seqno) ∧
    s' = { s with SubteamLog :=
            s.SubteamLog.set id (s.subteamLogOf id ++ [{ Name := name, Seqno := seqno }]) } := by
  unfold TeamSigChainState.informSubteam at h
  cases hlast : s.getLastSubteamPoint id with
  | none =>
    simp only [hlast] at h
    cases hc : s.checkSubteamCollision id name seqno with
    | some e => simp only [hc] at h; cases h
    | none =>
      simp only [hc, Except.ok.injEq] at h
      exact ⟨rfl, fun lp hlp => Option.noConfusion hlp, h.symm⟩
  | some lastPoint =>
    simp only [hlast] at h
    by_cases h1 : lastPoint.Seqno = seqno
    · rw [if_pos h1] at h
      cases h
    rw [if_neg h1] at h
    by_cases h2 : seqno < lastPoint.Seqno
    · rw [if_pos h2] at h
      cases h
    rw [if_neg h2] at h
    cases hc : s.checkSubteamCollision id name seqno with
    | some e => simp only [hc] at h; cases h
    | none =>
      simp only [hc, Except.ok.injEq] at h
      refine ⟨rfl, ?_, h.symm⟩
      intro lp hlp
      cases hlp
      simp only [Seqno] at *
      omega

/-! ## Per-team keys -/

theorem keysDense_initial (k : PerTeamKey) (hk : k.Gen = 1) :
    KeysDense ((GoMap.empty : GoMap PerTeamKeyGeneration PerTeamKey).set 1 k) := by
  have hlen : ((GoMap.empty : GoMap PerTeamKeyGeneration PerTeamKey).set 1 k).len = 1 := rfl
  refine ⟨by rw [hlen], ?_, ?_⟩
  · intro g
    rw [GoMap.get?_set, hlen]
    by_cases hg : g = 1
    · simp [hg]
    · simp only [hg, if_false, GoMap.get?_empty, Option.isSome_none, Bool.false_eq_true,
        false_iff]
      intro hc
      apply hg
      simp only [PerTeamKeyGeneration] at *
      omega
  · intro g k' h
    rw [GoMap.get?_set] at h
    by_cases hg : g = 1
    · simp only [hg, if_true, Option.some.injEq] at h
      rw [← h, hk, hg]
    · simp [hg, GoMap.get?_empty] at h

theorem keysDense_latest {m : GoMap PerTeamKeyGeneration PerTeamKey} (hm : KeysDense m) :
    ∃ lastKey, m.get? (m.len : Int) = some lastKey ∧ lastKey.Gen = (m.len : Int) := by
  obtain ⟨h1, h2, h3⟩ := hm
  have : (m.get? (m.len : Int)).isSome := (h2 _).2 ⟨by exact_mod_cast h1, le_refl _⟩
  obtain ⟨k, hk⟩ := Option.isSome_iff_exists.1 this
  exact ⟨k, hk, h3 _ _ hk⟩

theorem keysDense_set {m : GoMap PerTeamKeyGeneration PerTeamKey} (hm : KeysDense m)
    (newKey : PerTeamKey) (hg : newKey.Gen = (m.len : Int) + 1) :
    KeysDense (m.set newKey.Gen newKey) ∧ (m.set newKey.Gen newKey).len = m.len + 1 := by
  obtain ⟨h1, h2, h3⟩ := hm
  have hnot : (m.get? newKey.Gen).isSome = false := by
    cases hx : (m.get? newKey.Gen).isSome with
    | false => rfl
    | true =>
      have := (h2 _).1 hx
      simp only [PerTeamKeyGeneration] at *
      omega
  have hlen : (m.set newKey.Gen newKey).len = m.len + 1 := by
    rw [GoMap.len_set, hnot]
    simp
  refine ⟨⟨by omega, ?_, ?_⟩, hlen⟩
  · intro g
    rw [GoMap.get?_set, hlen]
    by_cases hgg : g = newKey.Gen
    · simp only [hgg, if_true, Option.isSome_some, true_iff]
      push_cast
      simp only [PerTeamKeyGeneration] at *
      omega
    · simp only [hgg, if_false, h2 g]
      push_cast
      simp only [PerTeamKeyGeneration] at *
      constructor
      · intro hx
        omega
      · intro hx
        omega
  · intro g k h
    rw [GoMap.get?_set] at h
    by_cases hgg : g = newKey.Gen
    · simp only [hgg, if_true, Option.some.injEq] at h
      rw [← h, hgg]
    · simp only [hgg, if_false] at h
      exact h3 g k h

/-- How an accepted link changes the key map: a first link stores one key of generation 1; a
later link keeps the map or stores a key whose generation is one more than the generation of the
key found by `GetLatestPerTeamKey`. -/
theorem perTeamKeys_step {env : Env} {t : TeamSigChainPlayer}
    {prevState : Option TeamSigChainState} {link : SCChainLink} {av : Bool}
    {s : TeamSigChainState} (h : addChainLinkCommon env t prevState link av = .ok s) :
    (prevState = none ∧ ∃ k : PerTeamKey, k.Gen = 1 ∧
        s.PerTeamKeys = (GoMap.empty : GoMap PerTeamKeyGeneration PerTeamKey).set 1 k) ∨
    (∃ ps, prevState = some ps ∧
      (s.PerTeamKeys = ps.PerTeamKeys ∨
        ∃ lastKey newKey, ps.GetLatestPerTeamKey = .ok lastKey ∧
          newKey.Gen = lastKey.Gen + 1 ∧
          s.PerTeamKeys = ps.PerTeamKeys.set newKey.Gen newKey)) := by
  obtain ⟨oRes, hout, hcase⟩ := addChainLinkCommon_ok h
  rcases hcase with ⟨_, ps, hp, hs⟩ | ⟨_, iRes, hi, hs⟩
  · exact Or.inr ⟨ps, hp, Or.inl (by rw [hs])⟩
  obtain ⟨payload, team, teamID, _, _, _, _, _, _, _, hsw⟩ := addInnerLink_ok hi
  have hkeys : s.PerTeamKeys = iRes.newState.PerTeamKeys := by rw [hs]
  rw [hkeys]
  rcases hsw with ⟨_, hr⟩ | ⟨_, hr⟩ | ⟨_, hr⟩ | ⟨_, hr⟩ | ⟨_, hr⟩ | ⟨_, hr⟩
  · obtain ⟨hprev, _, _, _, name, members, ptk, teamName, ru, k, _, _, _, _, _, _, _, _, hk,
      hns, _⟩ := addInnerLinkRoot_ok hr
    refine Or.inl ⟨hprev, k, ?_, ?_⟩
    · rw [(checkPerTeamKey_ok hk).2.2.2]
    · rw [hns, updateMembership_eq]
      rfl
  · obtain ⟨_, _, _, ps, members, ru, hprev, _, _, _, hk⟩ := addInnerLinkChangeMembership_ok hr
    refine Or.inr ⟨ps, hprev, ?_⟩
    rcases hk with ⟨_, hns⟩ | ⟨ptk, lastKey, newKey, _, hlast, hck, hns⟩
    · left
      rw [hns, updateMembership_eq]
    · right
      refine ⟨lastKey, newKey, hlast, ?_, ?_⟩
      · rw [(checkPerTeamKey_ok hck).2.2.2]
      · rw [hns]
        show (t.updateMembership ps ru oRes.outerLink.Seqno).PerTeamKeys.set newKey.Gen newKey
          = ps.PerTeamKeys.set newKey.Gen newKey
        rw [updateMembership_eq]
  · obtain ⟨_, _, _, _, ps, ptk, lastKey, newKey, hprev, _, _, hlast, hck, hns⟩ :=
      addInnerLinkRotateKey_ok hr
    refine Or.inr ⟨ps, hprev, Or.inr ⟨lastKey, newKey, hlast, ?_, ?_⟩⟩
    · rw [(checkPerTeamKey_ok hck).2.2.2]
    · rw [hns]
  · obtain ⟨_, _, _, _, _, _, ps, hprev, _, hns⟩ := addInnerLinkLeave_ok hr
    refine Or.inr ⟨ps, hprev, Or.inl ?_⟩
    rw [hns, inform_eq]
  · obtain ⟨_, _, _, _, ps, subteam, sid, sname, lp, en, hprev, _, _, _, _, _, _, _, hinf⟩ :=
      addInnerLinkNewSubteam_ok hr
    refine Or.inr ⟨ps, hprev, Or.inl ?_⟩
    rw [(informSubteam_ok hinf).2.2]
  · obtain ⟨hprev, _, name, members, parent, ptk, parentID, teamName, ru, k, _, _, _, _, _, _,
      _, _, _, hk, hns⟩ := addInnerLinkSubteamHead_ok hr
    refine Or.inl ⟨hprev, k, ?_, ?_⟩
    · rw [(checkPerTeamKey_ok hk).2.2.2]
    · rw [hns, updateMembership_eq]
      rfl

theorem reachable_keysDense {env : Env} {s : TeamSigChainState} (h : Reachable env s) :
    KeysDense s.PerTeamKeys := by
  induction h with
  | first t link av s h =>
    rcases perTeamKeys_step h with ⟨_, k, hk, hs⟩ | ⟨ps, hp, _⟩
    · rw [hs]
      exact keysDense_initial k hk
    · cases hp
  | next t link av s s' _ h ih =>
    rcases perTeamKeys_step h with ⟨hp, _⟩ | ⟨ps, hp, hs⟩
    · cases hp
    · cases hp
      rcases hs with hs | ⟨lastKey, newKey, hlast, hgen, hs⟩
      · rw [hs]
        exact ih
      · rw [hs]
        obtain ⟨lk, hlk, hlkg⟩ := keysDense_latest ih
        have : lastKey = lk := by
          unfold TeamSigChainState.GetLatestPerTeamKey at hlast
          rw [hlk] at hlast
          simp only [Except.ok.injEq] at hlast
          exact hlast.symm
        subst this
        exact (keysDense_set ih newKey (by rw [hgen, hlkg])).1

end Teams

namespace Teams

open TeamSigChainPlayer

/-! ## From runs of the player to reachable states -/

theorem addChainLinksLoop_reachable {env : Env} {t : TeamSigChainPlayer} {av : Bool}
    (links : List SCChainLink) :
    ∀ (state st' : Option TeamSigChainState),
      (∀ st, state = some st → Reachable env st) →
      addChainLinksLoop env t av state links = .ok st' →
      ∀ s, st' = some s → Reachable env s := by
  induction links with
  | nil =>
    intro state st' hstate h s hs
    simp only [addChainLinksLoop] at h
    cases h
    exact hstate s hs
  | cons link rest ih =>
    intro state st' hstate h s hs
    simp only [addChainLinksLoop] at h
    cases hstep : addChainLinkCommon env t state link av with
    | error e =>
      simp only [hstep] at h
      cases state <;> cases h
    | ok ns =>
      simp only [hstep] at h
      refine ih (some ns) st' ?_ h s hs
      intro st hst
      cases hst
      cases state with
      | none => exact Reachable.first t link av _ hstep
      | some ps => exact Reachable.next t link av ps _ (hstate ps rfl) hstep

theorem runCalls_reachable {env : Env} (calls : List (Bool × List SCChainLink)) :
    ∀ (t p : TeamSigChainPlayer),
      (∀ st, t.storedState = some st → Reachable env st) →
      runCalls env t calls = some p →
      ∀ s, p.storedState = some s → Reachable env s := by
  induction calls with
  | nil =>
    intro t p ht h s hs
    simp only [runCalls] at h
    cases h
    exact ht s hs
  | cons call rest ih =>
    intro t p ht h s hs
    obtain ⟨av, links⟩ := call
    simp only [runCalls] at h
    cases hc : addChainLinksCommon env t links av with
    | mk t' err =>
      cases err with
      | some e =>
        simp only [hc] at h
        cases h
      | none =>
        simp only [hc] at h
        obtain ⟨_, st, hloop, ht'⟩ := addChainLinksCommon_ok hc
        subst ht'
        exact ih _ p (fun st0 hst0 => addChainLinksLoop_reachable links _ _ ht hloop st0 hst0)
          h s hs

theorem fresh_reachable {env : Env} {reader : UserVersion}
    {calls : List (Bool × List SCChainLink)} {p : TeamSigChainPlayer} {s : TeamSigChainState}
    (hrun : runCalls env (NewTeamSigChainPlayer reader) calls = some p)
    (hs : p.storedState = some s) : Reachable env s :=
  runCalls_reachable calls _ p (fun st hst => by cases hst) hrun s hs

/-- C3: in the state of a player that started fresh and accepted links through `AddChainLinks` or
`AddChainLinksVerified` calls, the generations present in `PerTeamKeys` are exactly `1 .. N` with
`N = len(PerTeamKeys) ≥ 1`, and the key stored under generation `g` has `Gen = g`. -/
theorem per_team_keys_dense (env : Env) (reader : UserVersion)
    (calls : List (Bool × List SCChainLink)) (p : TeamSigChainPlayer) (s : TeamSigChainState)
    (hrun : runCalls env (NewTeamSigChainPlayer reader) calls = some p)
    (hs : p.storedState = some s) :
    1 ≤ s.PerTeamKeys.len ∧
    (∀ g : PerTeamKeyGeneration,
      g ∈ s.PerTeamKeys.keys ↔ (1 ≤ g ∧ g ≤ (s.PerTeamKeys.len : Int))) ∧
    (∀ (g : PerTeamKeyGeneration) (k : PerTeamKey), s.PerTeamKeys.get? g = some k → k.Gen = g) := by
  obtain ⟨h1, h2, h3⟩ := reachable_keysDense (fresh_reachable hrun hs)
  refine ⟨h1, ?_, h3⟩
  intro g
  rw [GoMap.mem_keys_iff]
  exact h2 g

/-- Witness for C3: after the root link and a key rotation the generations are 1 and 2. -/
theorem per_team_keys_dense_witness :
    1 ≤ Demo.rotatedState.PerTeamKeys.len ∧
    (∀ g : PerTeamKeyGeneration,
      g ∈ Demo.rotatedState.PerTeamKeys.keys ↔
        (1 ≤ g ∧ g ≤ (Demo.rotatedState.PerTeamKeys.len : Int))) ∧
    (∀ (g : PerTeamKeyGeneration) (k : PerTeamKey),
      Demo.rotatedState.PerTeamKeys.get? g = some k → k.Gen = g) :=
  per_team_keys_dense Demo.env Demo.A
    [(false, [Demo.rootLink, Demo.link 2 "o2k" "rotate" "a"])]
    (NewTeamSigChainPlayerWithState Demo.A Demo.rotatedState) Demo.rotatedState
    (by decide) (by decide)

end Teams

namespace Teams

open TeamSigChainPlayer

/-! ## The member sanity check -/

theorem sanityCheckLoop_ok (all : List (UserVersion × TeamRole)) :
    ∀ (seen : GoMap UserVersion Bool) (res res' : GoMap TeamRole (List UserVersion)),
      sanityCheckLoop all seen res = .ok res' →
      (all.map Prod.fst).Nodup ∧
      (∀ u ∈ all.map Prod.fst, (seen.get? u).getD false = false) ∧
      ∀ r : TeamRole,
        (res'.get? r).getD [] =
          (res.get? r).getD [] ++ (all.filter (fun a => decide (a.2 = r))).map Prod.fst := by
  induction all with
  | nil =>
    intro seen res res' h
    simp only [sanityCheckLoop, Except.ok.injEq] at h
    subst h
    simp
  | cons a rest ih =>
    intro seen res res' h
    obtain ⟨uv, role⟩ := a
    simp only [sanityCheckLoop] at h
    by_cases hseen : (seen.get? uv).getD false = true
    · rw [if_pos hseen] at h
      cases h
    rw [if_neg hseen] at h
    obtain ⟨hnd, hs, hr⟩ := ih _ _ _ h
    have huv : uv ∉ rest.map Prod.fst := by
      intro hmem
      have := hs uv hmem
      rw [GoMap.get?_set_self] at this
      simp at this
    refine ⟨?_, ?_, ?_⟩
    · simp only [List.map_cons, List.nodup_cons]
      exact ⟨huv, hnd⟩
    · intro u hu
      simp only [List.map_cons, List.mem_cons] at hu
      rcases hu with hu | hu
      · subst hu
        simpa using hseen
      · have hne : u ≠ uv := fun e => huv (e ▸ hu)
        have := hs u hu
        rw [GoMap.get?_set_ne _ _ _ _ hne] at this
        exact this
    · intro r
      rw [hr r, GoMap.get?_set]
      by_cases hrole : r = role
      · subst hrole
        simp
      · have hrole' : ¬ role = r := fun e => hrole e.symm
        simp [hrole, hrole']

theorem presentRoles_getD (members : SCTeamMembers) (r : TeamRole) :
    ((presentRoles members).get? r).getD [] = [] := by
  have step : ∀ (m : GoMap TeamRole (List UserVersion)) (c : Bool) (k : TeamRole),
      (∀ r, (m.get? r).getD [] = []) →
      ∀ r, ((if c = true then m.set k [] else m).get? r).getD [] = [] := by
    intro m c k hm r
    cases c with
    | false => simpa using hm r
    | true =>
      simp only [if_true, GoMap.get?_set]
      by_cases h : r = k
      · simp [h]
      · simpa [h] using hm r
  unfold presentRoles
  refine step _ _ _ (step _ _ _ (step _ _ _ (step _ _ _ (step _ _ _ ?_)))) r
  intro r
  rfl

theorem sanityCheckMembers_ok {t : TeamSigChainPlayer} {members : SCTeamMembers}
    {requireOwners allowRemovals : Bool} {roleUpdates : GoMap TeamRole (List UserVersion)}
    (h : t.sanityCheckMembers members requireOwners allowRemovals = .ok roleUpdates) :
    ((allAssignments members).map Prod.fst).Nodup ∧
    (∀ r : TeamRole, (roleUpdates.get? r).getD [] =
      ((allAssignments members).filter (fun a => decide (a.2 = r))).map Prod.fst) ∧
    (requireOwners = true → ∃ owners, members.Owners = some owners ∧ owners ≠ []) ∧
    (allowRemovals = false → members.None.getD [] = []) := by
  unfold sanityCheckMembers at h
  by_cases h1 : (requireOwners && members.Owners.isNone) = true
  · rw [if_pos h1] at h
    cases h
  rw [if_neg h1] at h
  by_cases h2 : (requireOwners && decide ((members.Owners.getD []).length < 1)) = true
  · rw [if_pos h2] at h
    cases h
  rw [if_neg h2] at h
  by_cases h3 : (!allowRemovals &&
      (members.None.isSome && decide ((members.None.getD []).length ≠ 0))) = true
  · rw [if_pos h3] at h
    cases h
  rw [if_neg h3] at h
  obtain ⟨hnd, _, hr⟩ := sanityCheckLoop_ok _ _ _ _ h
  refine ⟨hnd, ?_, ?_, ?_⟩
  · intro r
    rw [hr r, presentRoles_getD]
    simp
  · intro hreq
    subst hreq
    cases ho : members.Owners with
    | none => simp [ho] at h1
    | some owners =>
      refine ⟨owners, rfl, ?_⟩
      intro he
      subst he
      simp [ho] at h2
  · intro hrem
    subst hrem
    cases hn : members.None with
    | none => rfl
    | some l =>
      cases l with
      | nil => rfl
      | cons a l => simp [hn] at h3

/-! ## Membership application -/

theorem updateMembership_eq_informAll (t : TeamSigChainPlayer) (s : TeamSigChainState)
    (roleUpdates : GoMap TeamRole (List UserVersion)) (seqno : Seqno) :
    t.updateMembership s roleUpdates seqno = informAll s (flatUpdates roleUpdates) seqno := by
  unfold updateMembership flatUpdates informAll
  generalize roleUpdates.entries = es
  induction es generalizing s with
  | nil => rfl
  | cons e rest ih =>
    simp only [List.foldl_cons, List.flatMap_cons, List.foldl_append]
    rw [ih]
    congr 1
    generalize e.2 = uvs
    induction uvs generalizing s with
    | nil => rfl
    | cons uv more ih2 =>
      simp only [List.foldl_cons, List.map_cons]
      exact ih2 _

theorem mem_flatUpdates (roleUpdates : GoMap TeamRole (List UserVersion)) (u : UserVersion)
    (r : TeamRole) : (u, r) ∈ flatUpdates roleUpdates ↔ u ∈ (roleUpdates.get? r).getD [] := by
  unfold flatUpdates
  simp only [List.mem_flatMap, List.mem_map, Prod.mk.injEq]
  constructor
  · rintro ⟨e, he, uv, huv, rfl, rfl⟩
    have := (GoMap.mem_entries_iff roleUpdates e.1 e.2).1 he
    rw [this]
    exact huv
  · intro hu
    cases hg : roleUpdates.get? r with
    | none => simp [hg] at hu
    | some l =>
      rw [hg] at hu
      exact ⟨(r, l), (GoMap.mem_entries_iff roleUpdates r l).2 hg, u, hu, rfl, rfl⟩

theorem role_unique_of_nodup {all : List (UserVersion × TeamRole)}
    (hnd : (all.map Prod.fst).Nodup) {u : UserVersion} {r1 r2 : TeamRole}
    (h1 : (u, r1) ∈ all) (h2 : (u, r2) ∈ all) : r1 = r2 := by
  induction all with
  | nil => simp at h1
  | cons a rest ih =>
    simp only [List.map_cons, List.nodup_cons] at hnd
    rcases List.mem_cons.1 h1 with e1 | e1 <;> rcases List.mem_cons.1 h2 with e2 | e2
    · rw [← e1] at e2
      exact (Prod.mk.inj e2).2.symm
    · exfalso
      apply hnd.1
      rw [← e1]
      exact List.mem_map.2 ⟨(u, r2), e2, rfl⟩
    · exfalso
      apply hnd.1
      rw [← e2]
      exact List.mem_map.2 ⟨(u, r1), e1, rfl⟩
    · exact ih hnd.2 e1 e2

theorem flatUpdates_nodup {all : List (UserVersion × TeamRole)}
    {roleUpdates : GoMap TeamRole (List UserVersion)}
    (hnd : (all.map Prod.fst).Nodup)
    (hr : ∀ r : TeamRole, (roleUpdates.get? r).getD [] =
      (all.filter (fun a => decide (a.2 = r))).map Prod.fst) :
    ((flatUpdates roleUpdates).map Prod.fst).Nodup ∧
    ∀ u r, (u, r) ∈ flatUpdates roleUpdates ↔ (u, r) ∈ all := by
  have hmem : ∀ u r, (u, r) ∈ flatUpdates roleUpdates ↔ (u, r) ∈ all := by
    intro u r
    rw [mem_flatUpdates, hr r]
    simp only [List.mem_map, List.mem_filter, decide_eq_true_eq]
    constructor
    · rintro ⟨a, ⟨ha, har⟩, hau⟩
      obtain ⟨a1, a2⟩ := a
      simp only at har hau
      subst har; subst hau
      exact ha
    · intro h
      exact ⟨(u, r), ⟨h, rfl⟩, rfl⟩
  refine ⟨?_, hmem⟩
  have hentry : ∀ e ∈ roleUpdates.entries,
      e.2 = (all.filter (fun a => decide (a.2 = e.1))).map Prod.fst := by
    intro e he
    have := (GoMap.mem_entries_iff roleUpdates e.1 e.2).1 he
    rw [← hr e.1, this]
    rfl
  unfold flatUpdates
  rw [List.map_flatMap]
  simp only [List.map_map]
  rw [List.nodup_flatMap]
  constructor
  · intro e he
    have : List.map (Prod.fst ∘ fun uv => (uv, e.1)) e.2 = e.2 := by
      simp [Function.comp_def]
    rw [this, hentry e he]
    exact List.Nodup.sublist (List.Sublist.map _ (List.filter_sublist _)) hnd
  · have hkeys := roleUpdates.nodup
    rw [List.Nodup, List.pairwise_map] at hkeys
    refine List.Pairwise.imp_of_mem ?_ hkeys
    intro a b ha hb hab
    simp only [Function.onFun]
    intro u hua hub
    simp only [List.mem_map, Function.comp_apply] at hua hub
    obtain ⟨x, hx, rfl⟩ := hua
    obtain ⟨y, hy, hxy⟩ := hub
    subst hxy
    have h1 : (y, a.1) ∈ all := by
      rw [← hmem, mem_flatUpdates, (GoMap.mem_entries_iff roleUpdates a.1 a.2).1 ha]
      exact hx
    have h2 : (y, b.1) ∈ all := by
      rw [← hmem, mem_flatUpdates, (GoMap.mem_entries_iff roleUpdates b.1 b.2).1 hb]
      exact hy
    exact hab (role_unique_of_nodup hnd h1 h2)

end Teams

namespace Teams

open TeamSigChainPlayer

/-! ## The user log -/

theorem userLogOf_congr {s s' : TeamSigChainState} (h : s.UserLog = s'.UserLog)
    (u : UserVersion) : s.userLogOf u = s'.userLogOf u := by
  unfold TeamSigChainState.userLogOf
  rw [h]

theorem getUserRole_congr {s s' : TeamSigChainState} (h : ∀ u, s.userLogOf u = s'.userLogOf u)
    (u : UserVersion) : s.getUserRole u = s'.getUserRole u := by
  unfold TeamSigChainState.getUserRole
  rw [h u]

theorem getUserRole_of_log {s s' : TeamSigChainState} {u : UserVersion}
    (h : s.userLogOf u = s'.userLogOf u) : s.getUserRole u = s'.getUserRole u := by
  unfold TeamSigChainState.getUserRole
  rw [h]

theorem userLogOf_inform (s : TeamSigChainState) (u u' : UserVersion) (role : TeamRole)
    (seqno : Seqno) :
    (s.inform u role seqno).userLogOf u' =
      if u' = u ∧ s.getUserRole u ≠ role then
        s.userLogOf u ++ [{ Role := role, Seqno := seqno }]
      else s.userLogOf u' := by
  unfold TeamSigChainState.inform
  by_cases hr : s.getUserRole u = role
  · simp [hr]
  · simp only [hr, if_false, ne_eq, not_false_eq_true, and_true]
    by_cases hu : u' = u
    · subst hu
      simp [TeamSigChainState.userLogOf, GoMap.get?_set_self]
    · simp [hu, TeamSigChainState.userLogOf, GoMap.get?_set_ne _ _ _ _ hu]

theorem getUserRole_append (s s' : TeamSigChainState) (u : UserVersion) (role : TeamRole)
    (seqno : Seqno) (h : s'.userLogOf u = s.userLogOf u ++ [{ Role := role, Seqno := seqno }]) :
    s'.getUserRole u = role := by
  unfold TeamSigChainState.getUserRole
  rw [h, List.getLast?_concat]

theorem informAll_not_mem (l : List (UserVersion × TeamRole)) (seqno : Seqno) (u : UserVersion) :
    ∀ s : TeamSigChainState, u ∉ l.map Prod.fst →
      (informAll s l seqno).userLogOf u = s.userLogOf u := by
  induction l with
  | nil => intro s _; rfl
  | cons a rest ih =>
    intro s hu
    simp only [List.map_cons, List.mem_cons, not_or] at hu
    unfold informAll
    simp only [List.foldl_cons]
    have := ih (s.inform a.1 a.2 seqno) hu.2
    unfold informAll at this
    rw [this, userLogOf_inform]
    simp [hu.1]

theorem informAll_mem (l : List (UserVersion × TeamRole)) (seqno : Seqno) (u : UserVersion)
    (r : TeamRole) :
    ∀ s : TeamSigChainState, (l.map Prod.fst).Nodup → (u, r) ∈ l →
      (informAll s l seqno).userLogOf u =
        if s.getUserRole u = r then s.userLogOf u
        else s.userLogOf u ++ [{ Role := r, Seqno := seqno }] := by
  induction l with
  | nil => intro s _ h; simp at h
  | cons a rest ih =>
    intro s hnd hmem
    simp only [List.map_cons, List.nodup_cons] at hnd
    have hunfold : informAll s (a :: rest) seqno = informAll (s.inform a.1 a.2 seqno) rest seqno :=
      rfl
    rw [hunfold]
    rcases List.mem_cons.1 hmem with h1 | h1
    · subst h1
      rw [informAll_not_mem rest seqno u _ hnd.1, userLogOf_inform]
      by_cases hr : s.getUserRole u = r
      · simp [hr]
      · simp [hr]
    · have hne : u ≠ a.1 := by
        intro e
        apply hnd.1
        rw [← e]
        exact List.mem_map.2 ⟨(u, r), h1, rfl⟩
      rw [ih _ hnd.2 h1]
      have hlog : (s.inform a.1 a.2 seqno).userLogOf u = s.userLogOf u := by
        rw [userLogOf_inform]
        simp [hne]
      have hrole : (s.inform a.1 a.2 seqno).getUserRole u = s.getUserRole u := by
        unfold TeamSigChainState.getUserRole
        rw [hlog]
      rw [hlog, hrole]

theorem informAll_cases (l : List (UserVersion × TeamRole)) (seqno : Seqno)
    (s : TeamSigChainState) (hnd : (l.map Prod.fst).Nodup) (u : UserVersion) :
    (informAll s l seqno).userLogOf u = s.userLogOf u ∨
    ∃ r, (informAll s l seqno).userLogOf u = s.userLogOf u ++ [{ Role := r, Seqno := seqno }] := by
  by_cases hu : u ∈ l.map Prod.fst
  · obtain ⟨a, ha, hau⟩ := List.mem_map.1 hu
    obtain ⟨u', r⟩ := a
    simp only at hau
    subst hau
    rw [informAll_mem l seqno u' r s hnd ha]
    by_cases hr : s.getUserRole u' = r
    · left
      simp [hr]
    · right
      exact ⟨r, by simp [hr]⟩
  · left
    exact informAll_not_mem l seqno u s hu

theorem updateMembership_cases {t : TeamSigChainPlayer} {members : SCTeamMembers}
    {requireOwners allowRemovals : Bool} {roleUpdates : GoMap TeamRole (List UserVersion)}
    (hsan : t.sanityCheckMembers members requireOwners allowRemovals = .ok roleUpdates)
    (s : TeamSigChainState) (seqno : Seqno) (u : UserVersion) :
    (t.updateMembership s roleUpdates seqno).userLogOf u = s.userLogOf u ∨
    ∃ r, (t.updateMembership s roleUpdates seqno).userLogOf u
      = s.userLogOf u ++ [{ Role := r, Seqno := seqno }] := by
  obtain ⟨hnd, hr, _, _⟩ := sanityCheckMembers_ok hsan
  rw [updateMembership_eq_informAll]
  exact informAll_cases _ seqno s (flatUpdates_nodup hnd hr).1 u

theorem userLogOf_initialState (env : Env) (t : TeamSigChainPlayer) (teamID : TeamID)
    (teamName : TeamName) (oRes : checkOuterLinkResult) (parentID : Option TeamID)
    (perTeamKey : PerTeamKey) (u : UserVersion) :
    (initialState env t teamID teamName oRes parentID perTeamKey).userLogOf u = [] := rfl

/-- How an accepted link changes the log of a user: the log is kept, or gets one more entry,
whose seqno is the seqno stored as `LastSeqno`. -/
theorem userLog_step {env : Env} {t : TeamSigChainPlayer}
    {prevState : Option TeamSigChainState} {link : SCChainLink} {av : Bool}
    {s : TeamSigChainState} (h : addChainLinkCommon env t prevState link av = .ok s)
    (u : UserVersion) :
    s.userLogOf u = prevUserLog prevState u ∨
    ∃ r, s.userLogOf u = prevUserLog prevState u ++ [{ Role := r, Seqno := s.LastSeqno }] := by
  obtain ⟨oRes, hout, hcase⟩ := addChainLinkCommon_ok h
  rcases hcase with ⟨_, ps, hp, hs⟩ | ⟨_, iRes, hi, hs⟩
  · left
    subst hp
    rw [hs]
    rfl
  obtain ⟨payload, team, teamID, _, _, _, _, _, _, _, hsw⟩ := addInnerLink_ok hi
  have hlog : s.userLogOf u = iRes.newState.userLogOf u := by
    rw [hs]
    rfl
  have hseq : s.LastSeqno = oRes.outerLink.Seqno := by rw [hs]
  rw [hlog, hseq]
  rcases hsw with ⟨_, hr⟩ | ⟨_, hr⟩ | ⟨_, hr⟩ | ⟨_, hr⟩ | ⟨_, hr⟩ | ⟨_, hr⟩
  · obtain ⟨hprev, _, _, _, name, members, ptk, teamName, ru, k, _, _, _, _, _, _, _, hsan, _,
      hns, _⟩ := addInnerLinkRoot_ok hr
    subst hprev
    rw [hns]
    exact updateMembership_cases hsan _ _ u
  · obtain ⟨_, _, _, ps, members, ru, hprev, _, _, hsan, hk⟩ :=
      addInnerLinkChangeMembership_ok hr
    subst hprev
    rcases hk with ⟨_, hns⟩ | ⟨ptk, lastKey, newKey, _, _, _, hns⟩
    · rw [hns]
      exact updateMembership_cases hsan _ _ u
    · rw [hns]
      exact updateMembership_cases hsan ps _ u
  · obtain ⟨_, _, _, _, ps, ptk, lastKey, newKey, hprev, _, _, _, _, hns⟩ :=
      addInnerLinkRotateKey_ok hr
    subst hprev
    left
    rw [hns]
    rfl
  · obtain ⟨_, _, _, _, _, _, ps, hprev, _, hns⟩ := addInnerLinkLeave_ok hr
    subst hprev
    rw [hns, userLogOf_inform]
    by_cases hc : u = oRes.signingUser ∧ ps.getUserRole oRes.signingUser ≠ TeamRole.NONE
    · right
      refine ⟨TeamRole.NONE, ?_⟩
      rw [if_pos hc, hc.1]
      rfl
    · left
      rw [if_neg hc]
      rfl
  · obtain ⟨_, _, _, _, ps, subteam, sid, sname, lp, en, hprev, _, _, _, _, _, _, _, hinf⟩ :=
      addInnerLinkNewSubteam_ok hr
    subst hprev
    left
    rw [(informSubteam_ok hinf).2.2]
    rfl
  · obtain ⟨hprev, _, name, members, parent, ptk, parentID, teamName, ru, k, _, _, _, _, _, _,
      _, _, hsan, _, hns⟩ := addInnerLinkSubteamHead_ok hr
    subst hprev
    rw [hns]
    exact updateMembership_cases hsan _ _ u

theorem reachable_userLogOrdered {env : Env} (hasf : AssertSomeFieldsChecksSeqno env)
    {s : TeamSigChainState} (h : Reachable env s) : UserLogOrdered s := by
  induction h with
  | first t link av s h =>
    intro u
    rcases userLog_step h u with hl | ⟨r, hl⟩
    · rw [hl]
      simp [prevUserLog]
    · rw [hl]
      simp [prevUserLog]
  | next t link av s s' _ h ih =>
    intro u
    obtain ⟨ih1, ih2⟩ := ih u
    have hseq : s'.LastSeqno = s.LastSeqno + 1 := addChainLinkCommon_seqno hasf h
    rcases userLog_step h u with hl | ⟨r, hl⟩
    · rw [hl]
      refine ⟨ih1, ?_⟩
      intro point hp
      have := ih2 point hp
      simp only [Seqno] at *
      omega
    · rw [hl]
      simp only [prevUserLog, List.map_append, List.map_cons, List.map_nil,
        List.pairwise_append, List.pairwise_cons, List.Pairwise.nil, List.mem_singleton,
        List.mem_append, List.mem_map, forall_eq, and_true, List.not_mem_nil, false_implies,
        implies_true, true_and]
      refine ⟨⟨ih1, ?_⟩, ?_⟩
      · rintro a ⟨point, hp, rfl⟩
        have := ih2 point hp
        simp only [Seqno] at *
        omega
      · rintro point (hp | hp)
        · have := ih2 point hp
          simp only [Seqno] at *
          omega
        · rw [hp]

/-- C4: in the state of a player that started fresh and accepted links, the seqnos of the
entries of every user's log are strictly increasing and each is at most `LastSeqno`, provided
`AssertSomeFields` only passes when the decoded outer link has the seqno of the link. -/
theorem user_log_seqnos_increasing (env : Env) (hasf : AssertSomeFieldsChecksSeqno env)
    (reader : UserVersion) (calls : List (Bool × List SCChainLink)) (p : TeamSigChainPlayer)
    (s : TeamSigChainState)
    (hrun : runCalls env (NewTeamSigChainPlayer reader) calls = some p)
    (hs : p.storedState = some s) (u : UserVersion) :
    ((s.userLogOf u).map (fun point => point.Seqno)).Pairwise (fun a b => a < b) ∧
    ∀ point ∈ s.userLogOf u, point.Seqno ≤ s.GetLatestSeqno :=
  reachable_userLogOrdered hasf (fresh_reachable hrun hs) u

/-- Witness for C4: after the root link and a membership change, the log of `b`. -/
theorem user_log_seqnos_increasing_witness :
    ((Demo.membersState.userLogOf Demo.B).map (fun point => point.Seqno)).Pairwise
      (fun a b => a < b) ∧
    ∀ point ∈ Demo.membersState.userLogOf Demo.B, point.Seqno ≤ Demo.membersState.GetLatestSeqno :=
  user_log_seqnos_increasing Demo.env Demo.env_assertSomeFields Demo.A
    [(false, [Demo.rootLink]), (false, [Demo.link 2 "o2" "members" "a"])]
    (NewTeamSigChainPlayerWithState Demo.A Demo.membersState) Demo.membersState
    (by decide) (by decide) Demo.B

end Teams

namespace Teams

open TeamSigChainPlayer

/-! ## The subteam log -/

theorem TeamName.Eq_symm (a b : TeamName) : a.Eq b = b.Eq a := by
  unfold TeamName.Eq
  by_cases h : a.Parts.map lowerPart = b.Parts.map lowerPart
  · simp [h]
  · have h' : ¬ b.Parts.map lowerPart = a.Parts.map lowerPart := fun e => h e.symm
    simp [h, h']

theorem subteamLogOf_congr {s s' : TeamSigChainState} (h : s.SubteamLog = s'.SubteamLog)
    (id : TeamID) : s.subteamLogOf id = s'.subteamLogOf id := by
  unfold TeamSigChainState.subteamLogOf
  rw [h]

theorem filter_eq_self_of_all {α : Type} (l : List α) (p : α → Bool) (h : ∀ a ∈ l, p a = true) :
    l.filter p = l := List.filter_eq_self.2 h

theorem nameAt_of_le_all (points : List SubteamLogPoint) (q : Seqno)
    (h : ∀ point ∈ points, point.Seqno ≤ q) :
    nameAt points q = points.getLast?.map (fun point => point.Name) := by
  unfold nameAt
  rw [filter_eq_self_of_all]
  intro a ha
  simpa using h a ha

theorem nameAt_append_lt (points : List SubteamLogPoint) (name : TeamName) (n q : Seqno)
    (h : q < n) : nameAt (points ++ [{ Name := name, Seqno := n }]) q = nameAt points q := by
  unfold nameAt
  have hn : ¬ n ≤ q := by
    simp only [Seqno] at *
    omega
  simp [List.filter_append, hn]

theorem nameAt_append_ge (points : List SubteamLogPoint) (name : TeamName) (n q : Seqno)
    (h : n ≤ q) : nameAt (points ++ [{ Name := name, Seqno := n }]) q = some name := by
  unfold nameAt
  simp [List.filter_append, h]

theorem otherNameAt_foldl (points : List SubteamLogPoint) (seqno : Seqno) :
    ∀ init : TeamName,
      points.foldl (fun otherName point => if point.Seqno < seqno then point.Name else otherName)
        init
      = (((points.filter (fun point => decide (point.Seqno < seqno))).getLast?).map
          (fun point => point.Name)).getD init := by
  induction points with
  | nil => intro init; rfl
  | cons pt rest ih =>
    intro init
    simp only [List.foldl_cons]
    rw [ih]
    by_cases h : pt.Seqno < seqno
    · simp only [h, if_true, List.filter_cons, decide_True]
      cases hrest : rest.filter (fun point => decide (point.Seqno < seqno)) with
      | nil => simp
      | cons a l =>
        have hl : (a :: l).getLast? = some ((a :: l).getLast (List.cons_ne_nil a l)) :=
          List.getLast?_eq_getLast _ _
        have hl2 : (pt :: a :: l).getLast? = (a :: l).getLast? := List.getLast?_cons_cons
        rw [hl2, hl]
        rfl
    · simp [h, List.filter_cons]

theorem otherNameAt_of_lt_all (points : List SubteamLogPoint) (seqno : Seqno)
    (h : ∀ point ∈ points, point.Seqno < seqno) (last : SubteamLogPoint)
    (hlast : points.getLast? = some last) :
    TeamSigChainState.otherNameAt points seqno = last.Name := by
  unfold TeamSigChainState.otherNameAt
  rw [otherNameAt_foldl, filter_eq_self_of_all, hlast]
  · rfl
  · intro a ha
    simpa using h a ha

theorem checkSubteamCollision_none {s : TeamSigChainState} {id : TeamID} {name : TeamName}
    {seqno : Seqno} (h : s.checkSubteamCollision id name seqno = none) (Y : TeamID)
    (points : List SubteamLogPoint) (hY : s.SubteamLog.get? Y = some points) (hne : Y ≠ id) :
    (TeamSigChainState.otherNameAt points seqno).Eq name = false := by
  unfold TeamSigChainState.checkSubteamCollision at h
  by_cases hany : s.SubteamLog.entries.any
      (fun e => !(TeamID.Equal e.1 id) && (TeamSigChainState.otherNameAt e.2 seqno).Eq name) = true
  · rw [if_pos hany] at h
    cases h
  · have hmem := (GoMap.mem_entries_iff s.SubteamLog Y points).2 hY
    cases hEq : (TeamSigChainState.otherNameAt points seqno).Eq name with
    | false => rfl
    | true =>
      exfalso
      apply hany
      rw [List.any_eq_true]
      refine ⟨(Y, points), hmem, ?_⟩
      simp [TeamID.Equal, hne, hEq]

theorem subteamLogOf_set (s : TeamSigChainState) (id id' : TeamID)
    (points : List SubteamLogPoint) :
    ({ s with SubteamLog := s.SubteamLog.set id points } : TeamSigChainState).subteamLogOf id'
      = if id' = id then points else s.subteamLogOf id' := by
  unfold TeamSigChainState.subteamLogOf
  simp only [GoMap.get?_set]
  by_cases h : id' = id
  · simp [h]
  · simp [h]

/-- How an accepted link changes the subteam log: a first link starts with the empty log; a later
link keeps the log or is a successful `informSubteam` at the seqno stored as `LastSeqno`. -/
theorem subteamLog_step {env : Env} {t : TeamSigChainPlayer}
    {prevState : Option TeamSigChainState} {link : SCChainLink} {av : Bool}
    {s : TeamSigChainState} (h : addChainLinkCommon env t prevState link av = .ok s) :
    (prevState = none ∧ s.SubteamLog = GoMap.empty) ∨
    (∃ ps, prevState = some ps ∧
      (s.SubteamLog = ps.SubteamLog ∨
        ∃ id name s1, ps.informSubteam id name s.LastSeqno = .ok s1 ∧
          s.SubteamLog = s1.SubteamLog)) := by
  obtain ⟨oRes, hout, hcase⟩ := addChainLinkCommon_ok h
  rcases hcase with ⟨_, ps, hp, hs⟩ | ⟨_, iRes, hi, hs⟩
  · exact Or.inr ⟨ps, hp, Or.inl (by rw [hs])⟩
  obtain ⟨payload, team, teamID, _, _, _, _, _, _, _, hsw⟩ := addInnerLink_ok hi
  have hlog : s.SubteamLog = iRes.newState.SubteamLog := by rw [hs]
  have hseq : s.LastSeqno = oRes.outerLink.Seqno := by rw [hs]
  rw [hlog, hseq]
  rcases hsw with ⟨_, hr⟩ | ⟨_, hr⟩ | ⟨_, hr⟩ | ⟨_, hr⟩ | ⟨_, hr⟩ | ⟨_, hr⟩
  · obtain ⟨hprev, _, _, _, name, members, ptk, teamName, ru, k, _, _, _, _, _, _, _, _, _,
      hns, _⟩ := addInnerLinkRoot_ok hr
    refine Or.inl ⟨hprev, ?_⟩
    rw [hns, updateMembership_eq]
    rfl
  · obtain ⟨_, _, _, ps, members, ru, hprev, _, _, _, hk⟩ := addInnerLinkChangeMembership_ok hr
    refine Or.inr ⟨ps, hprev, Or.inl ?_⟩
    rcases hk with ⟨_, hns⟩ | ⟨ptk, lastKey, newKey, _, _, _, hns⟩
    · rw [hns, updateMembership_eq]
    · rw [hns]
      show (t.updateMembership ps ru oRes.outerLink.Seqno).SubteamLog = ps.SubteamLog
      rw [updateMembership_eq]
  · obtain ⟨_, _, _, _, ps, ptk, lastKey, newKey, hprev, _, _, _, _, hns⟩ :=
      addInnerLinkRotateKey_ok hr
    refine Or.inr ⟨ps, hprev, Or.inl ?_⟩
    rw [hns]
  · obtain ⟨_, _, _, _, _, _, ps, hprev, _, hns⟩ := addInnerLinkLeave_ok hr
    refine Or.inr ⟨ps, hprev, Or.inl ?_⟩
    rw [hns, inform_eq]
  · obtain ⟨_, _, _, _, ps, subteam, sid, sname, lp, en, hprev, _, _, _, _, _, _, _, hinf⟩ :=
      addInnerLinkNewSubteam_ok hr
    exact Or.inr ⟨ps, hprev, Or.inr ⟨sid, sname, iRes.newState, hinf, rfl⟩⟩
  · obtain ⟨hprev, _, name, members, parent, ptk, parentID, teamName, ru, k, _, _, _, _, _, _,
      _, _, _, _, hns⟩ := addInnerLinkSubteamHead_ok hr
    refine Or.inl ⟨hprev, ?_⟩
    rw [hns, updateMembership_eq]
    rfl

end Teams

namespace Teams

open TeamSigChainPlayer

/-! ## Sibling names -/

theorem nameAt_stable (points : List SubteamLogPoint) (m q : Seqno)
    (h : ∀ point ∈ points, point.Seqno ≤ m) (hmq : m ≤ q) :
    nameAt points q = nameAt points m := by
  rw [nameAt_of_le_all points m h, nameAt_of_le_all points q]
  intro point hp
  have := h point hp
  simp only [Seqno] at *
  omega

theorem other_name_not_eq {ps : TeamSigChainState} (hord : SubteamLogOrdered ps) {id : TeamID}
    {name : TeamName} {n : Seqno} (hn : ps.LastSeqno < n)
    (hcol : ps.checkSubteamCollision id name n = none) {Y : TeamID} (hY : Y ≠ id)
    {b : TeamName} (hb : nameAt (ps.subteamLogOf Y) n = some b) : b.Eq name = false := by
  have hall : ∀ point ∈ ps.subteamLogOf Y, point.Seqno ≤ ps.LastSeqno := (hord Y).2
  have hle : ∀ point ∈ ps.subteamLogOf Y, point.Seqno ≤ n := by
    intro point hp
    have := hall point hp
    simp only [Seqno] at *
    omega
  have hlt : ∀ point ∈ ps.subteamLogOf Y, point.Seqno < n := by
    intro point hp
    have := hall point hp
    simp only [Seqno] at *
    omega
  rw [nameAt_of_le_all _ _ hle] at hb
  cases hlast : (ps.subteamLogOf Y).getLast? with
  | none =>
    rw [hlast] at hb
    cases hb
  | some last =>
    rw [hlast] at hb
    simp only [Option.map_some', Option.some.injEq] at hb
    cases hget : ps.SubteamLog.get? Y with
    | none =>
      have : ps.subteamLogOf Y = [] := by
        unfold TeamSigChainState.subteamLogOf
        rw [hget]
        rfl
      rw [this] at hlast
      cases hlast
    | some points =>
      have hpts : ps.subteamLogOf Y = points := by
        unfold TeamSigChainState.subteamLogOf
        rw [hget]
        rfl
      rw [hpts] at hlast hlt
      have h1 := otherNameAt_of_lt_all points n hlt last hlast
      have h2 := checkSubteamCollision_none hcol Y points hget hY
      rw [h1, hb] at h2
      exact h2

theorem reachable_subteamLog {env : Env} (hasf : AssertSomeFieldsChecksSeqno env)
    {s : TeamSigChainState} (h : Reachable env s) :
    SubteamLogOrdered s ∧ SiblingNamesUnique s := by
  induction h with
  | first t link av s h =>
    rcases subteamLog_step h with ⟨_, hs⟩ | ⟨ps, hp, _⟩
    · have hempty : ∀ id, s.subteamLogOf id = [] := by
        intro id
        unfold TeamSigChainState.subteamLogOf
        rw [hs]
        rfl
      refine ⟨?_, ?_⟩
      · intro id
        rw [hempty id]
        simp
      · intro X Y _ q _ a b ha _
        rw [hempty X] at ha
        cases ha
    · cases hp
  | next t link av s s' _ h ih =>
    obtain ⟨ihord, ihuniq⟩ := ih
    have hseq : s'.LastSeqno = s.LastSeqno + 1 := addChainLinkCommon_seqno hasf h
    have hlt : s.LastSeqno < s'.LastSeqno := by
      simp only [Seqno] at *
      omega
    rcases subteamLog_step h with ⟨hp, _⟩ | ⟨ps, hp, hs⟩
    · cases hp
    cases hp
    rcases hs with hs | ⟨id, name, s1, hinf, hs⟩
    · have hlog : ∀ id, s'.subteamLogOf id = s.subteamLogOf id := subteamLogOf_congr hs
      refine ⟨?_, ?_⟩
      · intro id
        rw [hlog id]
        refine ⟨(ihord id).1, ?_⟩
        intro point hp
        have := (ihord id).2 point hp
        simp only [Seqno] at *
        omega
      · intro X Y hXY q hq a b ha hb
        rw [hlog X] at ha
        rw [hlog Y] at hb
        by_cases hq' : q ≤ s.LastSeqno
        · exact ihuniq X Y hXY q hq' a b ha hb
        · have hmq : s.LastSeqno ≤ q := by
            simp only [Seqno] at *
            omega
          rw [nameAt_stable _ _ _ (ihord X).2 hmq] at ha
          rw [nameAt_stable _ _ _ (ihord Y).2 hmq] at hb
          exact ihuniq X Y hXY _ (le_refl _) a b ha hb
    · obtain ⟨hcol, hlastlt, hs1⟩ := informSubteam_ok hinf
      have hlog : ∀ z, s'.subteamLogOf z =
          if z = id then s.subteamLogOf id ++ [{ Name := name, Seqno := s'.LastSeqno }]
          else s.subteamLogOf z := by
        intro z
        rw [subteamLogOf_congr hs z, hs1, subteamLogOf_set]
      refine ⟨?_, ?_⟩
      · intro z
        rw [hlog z]
        by_cases hz : z = id
        · subst hz
          simp only [if_true, List.map_append, List.map_cons, List.map_nil,
            List.pairwise_append, List.pairwise_cons, List.Pairwise.nil, List.mem_singleton,
            List.mem_append, List.mem_map, forall_eq, and_true, List.not_mem_nil,
            false_implies, implies_true, true_and]
          refine ⟨⟨(ihord z).1, ?_⟩, ?_⟩
          · rintro a ⟨point, hp, rfl⟩
            have := (ihord z).2 point hp
            simp only [Seqno] at *
            omega
          · rintro point (hp | hp)
            · have := (ihord z).2 point hp
              simp only [Seqno] at *
              omega
            · rw [hp]
        · simp only [hz, if_false]
          refine ⟨(ihord z).1, ?_⟩
          intro point hp
          have := (ihord z).2 point hp
          simp only [Seqno] at *
          omega
      · intro X Y hXY q hq a b ha hb
        rw [hlog X] at ha
        rw [hlog Y] at hb
        by_cases hq' : q ≤ s.LastSeqno
        · have hqlt : q < s'.LastSeqno := by
            simp only [Seqno] at *
            omega
          have ha' : nameAt (s.subteamLogOf X) q = some a := by
            by_cases hX : X = id
            · rw [if_pos hX, nameAt_append_lt _ _ _ _ hqlt] at ha
              rw [hX]
              exact ha
            · rw [if_neg hX] at ha
              exact ha
          have hb' : nameAt (s.subteamLogOf Y) q = some b := by
            by_cases hY : Y = id
            · rw [if_pos hY, nameAt_append_lt _ _ _ _ hqlt] at hb
              rw [hY]
              exact hb
            · rw [if_neg hY] at hb
              exact hb
          exact ihuniq X Y hXY q hq' a b ha' hb'
        · have hmq : s.LastSeqno ≤ q := by
            simp only [Seqno] at *
            omega
          have hnq : s'.LastSeqno ≤ q := by
            simp only [Seqno] at *
            omega
          have hqn : q = s'.LastSeqno := le_antisymm hq hnq
          by_cases hX : X = id
          · have hY : Y ≠ id := fun e => hXY (hX.trans e.symm)
            rw [if_pos hX, nameAt_append_ge _ _ _ _ hnq] at ha
            rw [if_neg hY, hqn] at hb
            cases ha
            rw [TeamName.Eq_symm]
            exact other_name_not_eq ihord hlt hcol hY hb
          · rw [if_neg hX] at ha
            by_cases hY : Y = id
            · rw [if_pos hY, nameAt_append_ge _ _ _ _ hnq] at hb
              rw [hqn] at ha
              cases hb
              exact other_name_not_eq ihord hlt hcol hX ha
            · rw [if_neg hY] at hb
              rw [nameAt_stable _ _ _ (ihord X).2 hmq] at ha
              rw [nameAt_stable _ _ _ (ihord Y).2 hmq] at hb
              exact ihuniq X Y hXY _ (le_refl _) a b ha hb

theorem getSubteamName_eq_nameAt {s : TeamSigChainState} (hord : SubteamLogOrdered s)
    {X : TeamID} {a : TeamName} (h : s.GetSubteamName X = .ok a) :
    nameAt (s.subteamLogOf X) s.LastSeqno = some a := by
  rw [nameAt_of_le_all _ _ (hord X).2]
  unfold TeamSigChainState.GetSubteamName TeamSigChainState.getLastSubteamPoint at h
  cases hl : (s.subteamLogOf X).getLast? with
  | none =>
    rw [hl] at h
    cases h
  | some last =>
    rw [hl] at h
    simp only [Except.ok.injEq] at h
    rw [← h]
    rfl

/-- C5: in the state of a player that started fresh and accepted links, two distinct subteam IDs
that both have a name at a seqno `q ≤ LastSeqno` (the name of the last log point with seqno at
most `q`; the logs are strictly increasing in seqno) have names that are not equal under
`TeamName.Eq`; in particular the current names given by `GetSubteamName` differ.  This holds
provided `AssertSomeFields` only passes when the decoded outer link has the seqno of the link. -/
theorem sibling_names_unique (env : Env) (hasf : AssertSomeFieldsChecksSeqno env)
    (reader : UserVersion) (calls : List (Bool × List SCChainLink)) (p : TeamSigChainPlayer)
    (s : TeamSigChainState)
    (hrun : runCalls env (NewTeamSigChainPlayer reader) calls = some p)
    (hs : p.storedState = some s) (X Y : TeamID) (hXY : X ≠ Y) :
    (∀ (q : Seqno) (a b : TeamName), q ≤ s.GetLatestSeqno →
      nameAt (s.subteamLogOf X) q = some a → nameAt (s.subteamLogOf Y) q = some b →
      a.Eq b = false) ∧
    (∀ a b : TeamName, s.GetSubteamName X = .ok a → s.GetSubteamName Y = .ok b →
      a.Eq b = false) ∧
    ((s.subteamLogOf X).map (fun point => point.Seqno)).Pairwise (fun a b => a < b) := by
  obtain ⟨hord, huniq⟩ := reachable_subteamLog hasf (fresh_reachable hrun hs)
  refine ⟨?_, ?_, (hord X).1⟩
  · intro q a b hq ha hb
    exact huniq X Y hXY q hq a b ha hb
  · intro a b ha hb
    exact huniq X Y hXY s.LastSeqno (le_refl _) a b (getSubteamName_eq_nameAt hord ha)
      (getSubteamName_eq_nameAt hord hb)

/-- Witness for C5: the subteams `s-x` (`acme.eng`) and `s-y` (`acme.ops`) after `twoCalls`. -/
theorem sibling_names_unique_witness :
    (∀ (q : Seqno) (a b : TeamName), q ≤ Demo.subteamsState.GetLatestSeqno →
      nameAt (Demo.subteamsState.subteamLogOf "s-x") q = some a →
      nameAt (Demo.subteamsState.subteamLogOf "s-y") q = some b → a.Eq b = false) ∧
    (∀ a b : TeamName, Demo.subteamsState.GetSubteamName "s-x" = .ok a →
      Demo.subteamsState.GetSubteamName "s-y" = .ok b → a.Eq b = false) ∧
    ((Demo.subteamsState.subteamLogOf "s-x").map (fun point => point.Seqno)).Pairwise
      (fun a b => a < b) :=
  sibling_names_unique Demo.env Demo.env_assertSomeFields Demo.A Demo.twoCalls
    (NewTeamSigChainPlayerWithState Demo.A Demo.subteamsState) Demo.subteamsState
    (by decide) (by decide) "s-x" "s-y" (by decide)

end Teams

namespace Teams

open TeamSigChainPlayer

/-! ## Accepted links with a payload -/

theorem mem_allAssignments (members : SCTeamMembers) (u : UserVersion) (r : TeamRole) :
    (u, r) ∈ allAssignments members ↔ u ∈ (members.listOf r).getD [] := by
  unfold allAssignments
  cases r <;> simp [SCTeamMembers.listOf]

theorem mem_allAssignments_fst (members : SCTeamMembers) (u : UserVersion) :
    u ∈ (allAssignments members).map Prod.fst ↔ ∃ r, u ∈ (members.listOf r).getD [] := by
  constructor
  · intro h
    obtain ⟨a, ha, hau⟩ := List.mem_map.1 h
    obtain ⟨u', r⟩ := a
    simp only at hau
    subst hau
    exact ⟨r, (mem_allAssignments members u' r).1 ha⟩
  · rintro ⟨r, hr⟩
    exact List.mem_map.2 ⟨(u, r), (mem_allAssignments members u r).2 hr, rfl⟩

/-- The user log after `updateMembership` with the result of `sanityCheckMembers`. -/
theorem updateMembership_userLog {t : TeamSigChainPlayer} {members : SCTeamMembers}
    {requireOwners allowRemovals : Bool} {roleUpdates : GoMap TeamRole (List UserVersion)}
    (hsan : t.sanityCheckMembers members requireOwners allowRemovals = .ok roleUpdates)
    (s : TeamSigChainState) (seqno : Seqno) (u : UserVersion) :
    (∀ r, u ∈ (members.listOf r).getD [] →
      (t.updateMembership s roleUpdates seqno).userLogOf u =
        (if s.getUserRole u = r then s.userLogOf u
         else s.userLogOf u ++ [{ Role := r, Seqno := seqno }]) ∧
      (t.updateMembership s roleUpdates seqno).getUserRole u = r) ∧
    ((∀ r, u ∉ (members.listOf r).getD []) →
      (t.updateMembership s roleUpdates seqno).userLogOf u = s.userLogOf u) := by
  obtain ⟨hnd, hr, _, _⟩ := sanityCheckMembers_ok hsan
  obtain ⟨hfnd, hfmem⟩ := flatUpdates_nodup hnd hr
  rw [updateMembership_eq_informAll]
  constructor
  · intro r hu
    have hmem : (u, r) ∈ flatUpdates roleUpdates :=
      (hfmem u r).2 ((mem_allAssignments members u r).2 hu)
    have hlog := informAll_mem _ seqno u r s hfnd hmem
    refine ⟨hlog, ?_⟩
    by_cases hrole : s.getUserRole u = r
    · rw [if_pos hrole] at hlog
      unfold TeamSigChainState.getUserRole at hrole ⊢
      rw [hlog]
      exact hrole
    · rw [if_neg hrole] at hlog
      exact getUserRole_append s _ u r seqno hlog
  · intro hu
    apply informAll_not_mem
    intro hmem
    obtain ⟨a, ha, hau⟩ := List.mem_map.1 hmem
    obtain ⟨u', r⟩ := a
    simp only at hau
    subst hau
    exact hu r ((mem_allAssignments members u' r).1 ((hfmem u' r).1 ha))

/-- An accepted link that carries a payload went through one of the six handlers. -/
theorem accepted_inner {env : Env} {t : TeamSigChainPlayer}
    {prevState : Option TeamSigChainState} {link : SCChainLink} {av : Bool}
    {s : TeamSigChainState} {payload : SCChainLinkPayload}
    (h : addChainLinkCommon env t prevState link av = .ok s)
    (hne : link.Payload ≠ "") (hpl : env.unmarshalPayload link.Payload = some payload) :
    ∃ oRes iRes team teamID,
      checkOuterLink env t prevState link av = .ok oRes ∧
      oRes.signingUser = NewUserVersion link.UID 1 ∧
      payload.Body.Team = some team ∧
      env.teamIDFromString team.ID = some teamID ∧
      s = { iRes.newState with
            LastSeqno := oRes.outerLink.Seqno
            LastLinkID := env.outerLinkID oRes.outerLink } ∧
      ((payload.Body.Type_ = "team.root" ∧
          addInnerLinkRoot env t prevState link oRes team teamID = .ok iRes) ∨
       (payload.Body.Type_ = "team.change_membership" ∧
          addInnerLinkChangeMembership env t prevState link oRes team = .ok iRes) ∨
       (payload.Body.Type_ = "team.rotate_key" ∧
          addInnerLinkRotateKey env t prevState link oRes team = .ok iRes) ∨
       (payload.Body.Type_ = "team.leave" ∧
          addInnerLinkLeave env t prevState link oRes team = .ok iRes) ∨
       (payload.Body.Type_ = "team.new_subteam" ∧
          addInnerLinkNewSubteam env t prevState link oRes team = .ok iRes) ∨
       (payload.Body.Type_ = "team.subteam_head" ∧
          addInnerLinkSubteamHead env t prevState link oRes team teamID = .ok iRes)) := by
  obtain ⟨oRes, hout, hcase⟩ := addChainLinkCommon_ok h
  obtain ⟨_, _, _, _, hsigner, hinner, _⟩ := checkOuterLink_ok hout
  rw [if_neg hne, hpl] at hinner
  rcases hcase with ⟨hnone, _⟩ | ⟨_, iRes, hi, hs⟩
  · rw [hinner] at hnone
    cases hnone
  obtain ⟨payload', team, teamID, hpl', _, _, hteam, _, htid, _, hsw⟩ := addInnerLink_ok hi
  rw [hinner] at hpl'
  cases hpl'
  exact ⟨oRes, iRes, team, teamID, hout, hsigner, hteam, htid, hs, hsw⟩

end Teams

namespace Teams

open TeamSigChainPlayer

/-! ## The root link -/

/-- C6: an accepted `team.root` link lists at least one owner, the signing user version
`(link.UID, 1)` is among the listed owners, and it has role OWNER in the resulting state; so a
root link without owners, or signed by a user that is not a listed owner, is rejected. -/
theorem root_link_signer_is_owner (env : Env) (t : TeamSigChainPlayer)
    (prevState : Option TeamSigChainState) (link : SCChainLink) (av : Bool)
    (s : TeamSigChainState) (payload : SCChainLinkPayload)
    (hne : link.Payload ≠ "") (hpl : env.unmarshalPayload link.Payload = some payload)
    (htype : payload.Body.Type_ = "team.root")
    (h : addChainLinkCommon env t prevState link av = .ok s) :
    ∃ team members owners,
      payload.Body.Team = some team ∧ team.Members = some members ∧
      members.Owners = some owners ∧ owners ≠ [] ∧
      NewUserVersion link.UID 1 ∈ owners ∧
      s.getUserRole (NewUserVersion link.UID 1) = TeamRole.OWNER := by
  obtain ⟨oRes, iRes, team, teamID, hout, hsigner, hteam, _, hs, hsw⟩ := accepted_inner h hne hpl
  rcases hsw with ⟨_, hr⟩ | ⟨hty, _⟩ | ⟨hty, _⟩ | ⟨hty, _⟩ | ⟨hty, _⟩ | ⟨hty, _⟩
  · obtain ⟨_, _, _, _, name, members, ptk, teamName, ru, k, _, hmem, _, _, _, _, _, hsan, _,
      hns, hown⟩ := addInnerLinkRoot_ok hr
    obtain ⟨_, _, howners, _⟩ := sanityCheckMembers_ok hsan
    obtain ⟨owners, ho, hone⟩ := howners rfl
    rw [hsigner] at hown
    refine ⟨team, members, owners, hteam, hmem, ho, hone, ?_, ?_⟩
    · obtain ⟨hin, hout'⟩ := updateMembership_userLog hsan
        (initialState env t teamID teamName oRes none k) oRes.outerLink.Seqno
        (NewUserVersion link.UID 1)
      rw [← hns] at hin hout'
      by_cases hlisted : ∃ r, NewUserVersion link.UID 1 ∈ (members.listOf r).getD []
      · obtain ⟨r, hr'⟩ := hlisted
        have hrole := (hin r hr').2
        rw [hown] at hrole
        subst hrole
        simpa [SCTeamMembers.listOf, ho] using hr'
      · exfalso
        have hlog := hout' (fun r hr' => hlisted ⟨r, hr'⟩)
        rw [userLogOf_initialState] at hlog
        unfold TeamSigChainState.getUserRole at hown
        rw [hlog] at hown
        cases hown
    · rw [← hown]
      apply getUserRole_congr
      intro u
      rw [hs]
      rfl
  all_goals (rw [htype] at hty; exact absurd hty (by decide))

/-- Witness for C6: the root link of `acme`, signed by `a`, whose owners are `[a%1]`. -/
theorem root_link_signer_is_owner_witness :
    ∃ team members owners,
      Demo.rootPayload.Body.Team = some team ∧ team.Members = some members ∧
      members.Owners = some owners ∧ owners ≠ [] ∧
      NewUserVersion Demo.rootLink.UID 1 ∈ owners ∧
      Demo.rootState.getUserRole (NewUserVersion Demo.rootLink.UID 1) = TeamRole.OWNER :=
  root_link_signer_is_owner Demo.env Demo.fresh none Demo.rootLink false Demo.rootState
    Demo.rootPayload (by decide) (by decide) (by decide) (by decide)

/-! ## Membership changes -/

/-- C7: a `team.change_membership` link is rejected whenever the role of the signing user
version `(link.UID, 1)` in the state before the link is neither ADMIN nor OWNER, whatever the
members section of the link says. -/
theorem change_membership_reads_prior_state (env : Env) (t : TeamSigChainPlayer)
    (ps : TeamSigChainState) (link : SCChainLink) (av : Bool) (payload : SCChainLinkPayload)
    (hne : link.Payload ≠ "") (hpl : env.unmarshalPayload link.Payload = some payload)
    (htype : payload.Body.Type_ = "team.change_membership")
    (hrole : ps.getUserRole (NewUserVersion link.UID 1) ≠ TeamRole.ADMIN ∧
      ps.getUserRole (NewUserVersion link.UID 1) ≠ TeamRole.OWNER) :
    ∃ err, addChainLinkCommon env t (some ps) link av = .error err := by
  cases h : addChainLinkCommon env t (some ps) link av with
  | error err => exact ⟨err, rfl⟩
  | ok s =>
    exfalso
    obtain ⟨oRes, iRes, team, teamID, hout, hsigner, hteam, _, hs, hsw⟩ :=
      accepted_inner h hne hpl
    rcases hsw with ⟨hty, _⟩ | ⟨_, hr⟩ | ⟨hty, _⟩ | ⟨hty, _⟩ | ⟨hty, _⟩ | ⟨hty, _⟩
    rotate_left
    · obtain ⟨_, _, _, ps', members, ru, hprev, _, hok, _⟩ := addInnerLinkChangeMembership_ok hr
      cases hprev
      rw [hsigner] at hok
      rcases hok with hok | hok
      · exact hrole.1 hok
      · exact hrole.2 hok
    all_goals (rw [htype] at hty; exact absurd hty (by decide))

/-- Witness for C7: on the state after the root link of `acme`, a membership link signed by `b`
(no role yet) that lists `b` among the admins is rejected. -/
theorem change_membership_reads_prior_state_witness :
    (∃ team members, Demo.membersPayload.Body.Team = some team ∧
      team.Members = some members ∧ members.Admins = some [Demo.B]) ∧
    ∃ err, addChainLinkCommon Demo.env Demo.fresh (some Demo.rootState)
      (Demo.link 2 "o2" "members" "b") false = .error err :=
  ⟨⟨_, _, rfl, rfl, rfl⟩,
    change_membership_reads_prior_state Demo.env Demo.fresh Demo.rootState
      (Demo.link 2 "o2" "members" "b") false Demo.membersPayload
      (by decide) (by decide) (by decide) (by decide)⟩

/-- C8: after an accepted `team.change_membership` link, with `n` the seqno stored as
`LastSeqno` (the seqno of the link when `AssertSomeFields` checks it): a user version listed
under role `r` has role `r`, and its log is the prior log, with the entry `(r, n)` added exactly
when `r` differs from the prior role; a user version listed nowhere keeps its log and role;
`SubteamLog` is unchanged; and without a `per_team_key` section `PerTeamKeys` is unchanged. -/
theorem change_membership_effect (env : Env) (t : TeamSigChainPlayer)
    (ps : TeamSigChainState) (link : SCChainLink) (av : Bool) (s : TeamSigChainState)
    (payload : SCChainLinkPayload)
    (hne : link.Payload ≠ "") (hpl : env.unmarshalPayload link.Payload = some payload)
    (htype : payload.Body.Type_ = "team.change_membership")
    (h : addChainLinkCommon env t (some ps) link av = .ok s) :
    ∃ team members,
      payload.Body.Team = some team ∧ team.Members = some members ∧
      (∀ (u : UserVersion) (r : TeamRole), u ∈ (members.listOf r).getD [] →
        s.getUserRole u = r ∧
        s.userLogOf u =
          if ps.getUserRole u = r then ps.userLogOf u
          else ps.userLogOf u ++ [{ Role := r, Seqno := s.GetLatestSeqno }]) ∧
      (∀ u : UserVersion, (∀ r, u ∉ (members.listOf r).getD []) →
        s.userLogOf u = ps.userLogOf u ∧ s.getUserRole u = ps.getUserRole u) ∧
      s.SubteamLog = ps.SubteamLog ∧
      (team.PerTeamKey = none → s.PerTeamKeys = ps.PerTeamKeys) ∧
      (AssertSomeFieldsChecksSeqno env → s.GetLatestSeqno = link.Seqno) := by
  obtain ⟨oRes, iRes, team, teamID, hout, hsigner, hteam, _, hs, hsw⟩ := accepted_inner h hne hpl
  rcases hsw with ⟨hty, _⟩ | ⟨_, hr⟩ | ⟨hty, _⟩ | ⟨hty, _⟩ | ⟨hty, _⟩ | ⟨hty, _⟩
  rotate_left
  · obtain ⟨_, _, _, ps', members, ru, hprev, hmem, _, hsan, hk⟩ :=
      addInnerLinkChangeMembership_ok hr
    cases hprev
    have hseq : s.GetLatestSeqno = oRes.outerLink.Seqno := by
      rw [hs]
      rfl
    have hlog : ∀ u, s.userLogOf u
        = (t.updateMembership ps ru oRes.outerLink.Seqno).userLogOf u := by
      intro u
      rw [hs]
      rcases hk with ⟨_, hns⟩ | ⟨ptk, lastKey, newKey, _, _, _, hns⟩
      · rw [hns]
        rfl
      · rw [hns]
        rfl
    have hrole : ∀ u, s.getUserRole u
        = (t.updateMembership ps ru oRes.outerLink.Seqno).getUserRole u :=
      getUserRole_congr hlog
    refine ⟨team, members, hteam, hmem, ?_, ?_, ?_, ?_, ?_⟩
    · intro u r hu
      obtain ⟨hin, _⟩ := updateMembership_userLog hsan ps oRes.outerLink.Seqno u
      rw [hrole u, hlog u, hseq]
      exact ⟨(hin r hu).2, (hin r hu).1⟩
    · intro u hu
      obtain ⟨_, hout'⟩ := updateMembership_userLog hsan ps oRes.outerLink.Seqno u
      have h1 : s.userLogOf u = ps.userLogOf u := by
        rw [hlog u]
        exact hout' hu
      exact ⟨h1, getUserRole_of_log h1⟩
    · rw [hs]
      rcases hk with ⟨_, hns⟩ | ⟨ptk, lastKey, newKey, _, _, _, hns⟩
      · rw [hns, updateMembership_eq]
      · rw [hns]
        show (t.updateMembership ps ru oRes.outerLink.Seqno).SubteamLog = ps.SubteamLog
        rw [updateMembership_eq]
    · intro hnone
      rw [hs]
      rcases hk with ⟨_, hns⟩ | ⟨ptk, lastKey, newKey, hsome, _, _, _⟩
      · rw [hns, updateMembership_eq]
      · rw [hnone] at hsome
        cases hsome
    · intro hasf
      have := addChainLinkCommon_seqno hasf h
      obtain ⟨hlink, _⟩ := checkOuterLink_ok hout
      rw [hlink]
      exact this
  all_goals (rw [htype] at hty; exact absurd hty (by decide))

end Teams

namespace Teams

open TeamSigChainPlayer

/-- Witness for C8: the membership link of scenario S3 on the state after the root link: `b`
becomes ADMIN and `c` READER at seqno 2, `a` keeps its log, and the keys are unchanged. -/
theorem change_membership_effect_witness :
    ∃ team members,
      Demo.membersPayload.Body.Team = some team ∧ team.Members = some members ∧
      (∀ (u : UserVersion) (r : TeamRole), u ∈ (members.listOf r).getD [] →
        Demo.membersState.getUserRole u = r ∧
        Demo.membersState.userLogOf u =
          if Demo.rootState.getUserRole u = r then Demo.rootState.userLogOf u
          else Demo.rootState.userLogOf u
            ++ [{ Role := r, Seqno := Demo.membersState.GetLatestSeqno }]) ∧
      (∀ u : UserVersion, (∀ r, u ∉ (members.listOf r).getD []) →
        Demo.membersState.userLogOf u = Demo.rootState.userLogOf u ∧
        Demo.membersState.getUserRole u = Demo.rootState.getUserRole u) ∧
      Demo.membersState.SubteamLog = Demo.rootState.SubteamLog ∧
      (team.PerTeamKey = none → Demo.membersState.PerTeamKeys = Demo.rootState.PerTeamKeys) ∧
      (AssertSomeFieldsChecksSeqno Demo.env →
        Demo.membersState.GetLatestSeqno = (Demo.link 2 "o2" "members" "a").Seqno) :=
  change_membership_effect Demo.env Demo.fresh Demo.rootState (Demo.link 2 "o2" "members" "a")
    false Demo.membersState Demo.membersPayload (by decide) (by decide) (by decide) (by decide)

/-! ## Key rotation -/

/-- C9: a `team.rotate_key` link is rejected whenever the role of the signing user version
`(link.UID, 1)` in the prior state is NONE or READER; so it can be accepted only when that role
is WRITER, ADMIN or OWNER. -/
theorem rotate_key_needs_writer (env : Env) (t : TeamSigChainPlayer)
    (ps : TeamSigChainState) (link : SCChainLink) (av : Bool) (payload : SCChainLinkPayload)
    (hne : link.Payload ≠ "") (hpl : env.unmarshalPayload link.Payload = some payload)
    (htype : payload.Body.Type_ = "team.rotate_key")
    (hrole : ps.getUserRole (NewUserVersion link.UID 1) = TeamRole.NONE ∨
      ps.getUserRole (NewUserVersion link.UID 1) = TeamRole.READER) :
    ∃ err, addChainLinkCommon env t (some ps) link av = .error err := by
  cases h : addChainLinkCommon env t (some ps) link av with
  | error err => exact ⟨err, rfl⟩
  | ok s =>
    exfalso
    obtain ⟨oRes, iRes, team, teamID, hout, hsigner, hteam, _, hs, hsw⟩ :=
      accepted_inner h hne hpl
    rcases hsw with ⟨hty, _⟩ | ⟨hty, _⟩ | ⟨_, hr⟩ | ⟨hty, _⟩ | ⟨hty, _⟩ | ⟨hty, _⟩
    rotate_left 2
    · obtain ⟨_, _, _, _, ps', ptk, lastKey, newKey, hprev, _, hok, _⟩ :=
        addInnerLinkRotateKey_ok hr
      cases hprev
      rw [hsigner] at hok
      rcases hrole with hn | hn <;> rw [hn] at hok <;>
        rcases hok with hok | hok | hok <;> cases hok
    all_goals (rw [htype] at hty; exact absurd hty (by decide))

/-- Witness for C9: on the state after the root link of `acme`, a rotation signed by `b`, who
has no role, is rejected. -/
theorem rotate_key_needs_writer_witness :
    Demo.rootState.getUserRole (NewUserVersion "b" 1) = TeamRole.NONE ∧
    ∃ err, addChainLinkCommon Demo.env Demo.fresh (some Demo.rootState)
      (Demo.link 2 "o2k" "rotate" "b") false = .error err :=
  ⟨by decide,
    rotate_key_needs_writer Demo.env Demo.fresh Demo.rootState (Demo.link 2 "o2k" "rotate" "b")
      false Demo.rotatePayload (by decide) (by decide) (by decide) (Or.inl (by decide))⟩

/-- C10: an accepted `team.rotate_key` link on a state with dense keys whose latest generation is
`N` stores exactly one new key, at generation `N + 1`, with `Gen = N + 1`, the seqno of the link
and the KIDs of the link's `per_team_key`; every other generation maps to what it mapped to
before, and `UserLog`, `SubteamLog`, `Id`, `Name` and `ParentID` are unchanged. -/
theorem rotate_key_effect (env : Env) (t : TeamSigChainPlayer)
    (ps : TeamSigChainState) (link : SCChainLink) (av : Bool) (s : TeamSigChainState)
    (payload : SCChainLinkPayload)
    (hne : link.Payload ≠ "") (hpl : env.unmarshalPayload link.Payload = some payload)
    (htype : payload.Body.Type_ = "team.rotate_key")
    (hdense : KeysDense ps.PerTeamKeys)
    (h : addChainLinkCommon env t (some ps) link av = .ok s) :
    ∃ team ptk,
      payload.Body.Team = some team ∧ team.PerTeamKey = some ptk ∧
      ptk.Generation = ps.GetLatestGeneration + 1 ∧
      s.PerTeamKeys = ps.PerTeamKeys.set (ps.GetLatestGeneration + 1)
        { Gen := ps.GetLatestGeneration + 1, Seqno := link.Seqno,
          SigKID := ptk.SigKID, EncKID := ptk.EncKID } ∧
      ps.PerTeamKeys.get? (ps.GetLatestGeneration + 1) = none ∧
      s.PerTeamKeys.get? (ps.GetLatestGeneration + 1) =
        some { Gen := ps.GetLatestGeneration + 1, Seqno := link.Seqno,
               SigKID := ptk.SigKID, EncKID := ptk.EncKID } ∧
      (∀ g : PerTeamKeyGeneration, g ≠ ps.GetLatestGeneration + 1 →
        s.PerTeamKeys.get? g = ps.PerTeamKeys.get? g) ∧
      s.PerTeamKeys.len = ps.PerTeamKeys.len + 1 ∧
      s.GetLatestGeneration = ps.GetLatestGeneration + 1 ∧
      s.UserLog = ps.UserLog ∧ s.SubteamLog = ps.SubteamLog ∧
      s.Id = ps.Id ∧ s.Name = ps.Name ∧ s.ParentID = ps.ParentID := by
  obtain ⟨oRes, iRes, team, teamID, hout, hsigner, hteam, _, hs, hsw⟩ := accepted_inner h hne hpl
  rcases hsw with ⟨hty, _⟩ | ⟨hty, _⟩ | ⟨_, hr⟩ | ⟨hty, _⟩ | ⟨hty, _⟩ | ⟨hty, _⟩
  rotate_left 2
  · obtain ⟨_, _, _, _, ps', ptk, lastKey, newKey, hprev, hptk, _, hlast, hck, hns⟩ :=
      addInnerLinkRotateKey_ok hr
    cases hprev
    obtain ⟨lk, hlk, hlkg⟩ := keysDense_latest hdense
    have hlast' : lastKey = lk := by
      unfold TeamSigChainState.GetLatestPerTeamKey at hlast
      rw [hlk] at hlast
      simp only [Except.ok.injEq] at hlast
      exact hlast.symm
    subst hlast'
    obtain ⟨hgen, _, _, hnew⟩ := checkPerTeamKey_ok hck
    have hN : ps.GetLatestGeneration = (ps.PerTeamKeys.len : Int) := rfl
    have hg : newKey.Gen = (ps.PerTeamKeys.len : Int) + 1 := by
      rw [hnew, hlkg]
    have hkeys : s.PerTeamKeys = ps.PerTeamKeys.set newKey.Gen newKey := by
      rw [hs, hns]
    obtain ⟨hd', hlen⟩ := keysDense_set hdense newKey hg
    have hfresh : ps.PerTeamKeys.get? ((ps.PerTeamKeys.len : Int) + 1) = none := by
      cases hx : ps.PerTeamKeys.get? ((ps.PerTeamKeys.len : Int) + 1) with
      | none => rfl
      | some k =>
        have := (hdense.2.1 ((ps.PerTeamKeys.len : Int) + 1)).1 (by rw [hx]; rfl)
        simp only [PerTeamKeyGeneration] at *
        omega
    refine ⟨team, ptk, hteam, hptk, ?_, ?_, ?_, ?_, ?_, ?_, ?_, ?_, ?_, ?_, ?_, ?_⟩
    · rw [hgen, hN, hlkg]
    · rw [hkeys, hN, ← hg]
      congr 1
      rw [hnew, hlkg]
    · rw [hN]
      exact hfresh
    · rw [hkeys, hN, ← hg, GoMap.get?_set_self, hnew, hlkg]
    · intro g hgne
      rw [hkeys, GoMap.get?_set_ne]
      rw [hg, ← hN]
      exact hgne
    · rw [hkeys]
      exact hlen
    · show ((s.PerTeamKeys.len : Nat) : Int) = (ps.PerTeamKeys.len : Int) + 1
      rw [hkeys, hlen]
      push_cast
      rfl
    · rw [hs, hns]
    · rw [hs, hns]
    · rw [hs, hns]
    · rw [hs, hns]
    · rw [hs, hns]
  all_goals (rw [htype] at hty; exact absurd hty (by decide))

/-- Witness for C10: the rotation of scenario S4 on the state after the root link. -/
theorem rotate_key_effect_witness :
    ∃ team ptk,
      Demo.rotatePayload.Body.Team = some team ∧ team.PerTeamKey = some ptk ∧
      ptk.Generation = Demo.rootState.GetLatestGeneration + 1 ∧
      Demo.rotatedState.PerTeamKeys = Demo.rootState.PerTeamKeys.set
        (Demo.rootState.GetLatestGeneration + 1)
        { Gen := Demo.rootState.GetLatestGeneration + 1,
          Seqno := (Demo.link 2 "o2k" "rotate" "a").Seqno,
          SigKID := ptk.SigKID, EncKID := ptk.EncKID } ∧
      Demo.rootState.PerTeamKeys.get? (Demo.rootState.GetLatestGeneration + 1) = none ∧
      Demo.rotatedState.PerTeamKeys.get? (Demo.rootState.GetLatestGeneration + 1) =
        some { Gen := Demo.rootState.GetLatestGeneration + 1,
               Seqno := (Demo.link 2 "o2k" "rotate" "a").Seqno,
               SigKID := ptk.SigKID, EncKID := ptk.EncKID } ∧
      (∀ g : PerTeamKeyGeneration, g ≠ Demo.rootState.GetLatestGeneration + 1 →
        Demo.rotatedState.PerTeamKeys.get? g = Demo.rootState.PerTeamKeys.get? g) ∧
      Demo.rotatedState.PerTeamKeys.len = Demo.rootState.PerTeamKeys.len + 1 ∧
      Demo.rotatedState.GetLatestGeneration = Demo.rootState.GetLatestGeneration + 1 ∧
      Demo.rotatedState.UserLog = Demo.rootState.UserLog ∧
      Demo.rotatedState.SubteamLog = Demo.rootState.SubteamLog ∧
      Demo.rotatedState.Id = Demo.rootState.Id ∧ Demo.rotatedState.Name = Demo.rootState.Name ∧
      Demo.rotatedState.ParentID = Demo.rootState.ParentID :=
  rotate_key_effect Demo.env Demo.fresh Demo.rootState (Demo.link 2 "o2k" "rotate" "a") false
    Demo.rotatedState Demo.rotatePayload (by decide) (by decide) (by decide)
    (keysDense_initial _ rfl) (by decide)

end Teams

namespace Teams

open TeamSigChainPlayer

/-! ## Continuity -/

/-- The outer checks pass for a stubbed link that meets each of them. -/
theorem checkOuterLink_stubbed {env : Env} (t : TeamSigChainPlayer) {ps : TeamSigChainState}
    {link : SCChainLink} (av : Bool) {outerLink : OuterLinkV2}
    (hseq : link.Seqno = ps.LastSeqno + 1) (hver : link.Version = 2)
    (hsig : link.Sig.length ≠ 0) (hdec : env.decodeOuterLinkV2 link.Sig = some outerLink)
    (hasf : env.assertSomeFields outerLink link.Version link.Seqno = true)
    (hprev : env.importLinkID ps.LastLinkID = some outerLink.Prev)
    (hstub : link.Payload = "") :
    checkOuterLink env t (some ps) link av =
      .ok { outerLink := outerLink, signingUser := NewUserVersion link.UID 1,
            innerLink := none } := by
  unfold checkOuterLink
  simp only [TeamSigChainPlayerSupportedLinkVersion]
  rw [if_neg (by simp [hseq]), if_neg (by simp [hver]), if_neg hsig]
  simp only [hdec]
  rw [if_neg (by simp [hasf])]
  simp only [hprev, ne_eq, not_true_eq_false, if_false]
  rw [if_pos hstub]

end Teams

namespace Teams

open TeamSigChainPlayer

/-! ## Stubbed links -/

theorem stubbed_first_link_error {env : Env} {t : TeamSigChainPlayer} {link : SCChainLink}
    {av : Bool} (hstub : link.Payload = "") :
    ∃ err, addChainLinkCommon env t none link av = .error err := by
  cases h : addChainLinkCommon env t none link av with
  | error err => exact ⟨err, rfl⟩
  | ok s =>
    exfalso
    obtain ⟨oRes, hout, hcase⟩ := addChainLinkCommon_ok h
    obtain ⟨_, _, _, _, _, hinner, _⟩ := checkOuterLink_ok hout
    rw [if_pos hstub] at hinner
    rcases hcase with ⟨_, ps, hp, _⟩ | ⟨hsome, _⟩
    · cases hp
    · exact hsome hinner

theorem any_setEntries_true {K : Type} [DecidableEq K] (l : List (K × Bool)) (k : K) :
    (GoMap.setEntries l k true).any (fun e => e.2) = true := by
  induction l with
  | nil => simp [GoMap.setEntries]
  | cons hd tl ih =>
    obtain ⟨k', v'⟩ := hd
    by_cases h : k' = k
    · simp [GoMap.setEntries, h]
    · simp only [GoMap.setEntries, h, if_false, List.any_cons, ih, Bool.or_true]

/-- C17: for a player without a stored state, a call of `AddChainLinks` or
`AddChainLinksVerified` on a batch whose first link is stubbed (empty payload) returns an error,
and the player still has no state. -/
theorem stubbed_first_link_rejected (env : Env) (t : TeamSigChainPlayer) (link : SCChainLink)
    (rest : List SCChainLink) (alreadyVerified : Bool)
    (hfresh : t.storedState = none) (hstub : link.Payload = "") :
    (addChainLinksCommon env t (link :: rest) alreadyVerified).2 ≠ none ∧
    (addChainLinksCommon env t (link :: rest) alreadyVerified).1.storedState = none := by
  obtain ⟨err, herr⟩ := @stubbed_first_link_error env t link alreadyVerified hstub
  have hres : addChainLinksCommon env t (link :: rest) alreadyVerified
      = (t, some (Err.atBeginning err)) := by
    unfold addChainLinksCommon
    rw [if_neg (by simp)]
    simp only [hfresh, addChainLinksLoop, herr]
  rw [hres]
  exact ⟨by simp, hfresh⟩

/-- Witness for C17: a fresh player and a batch that starts with a stubbed link at seqno 1. -/
theorem stubbed_first_link_rejected_witness :
    (AddChainLinks Demo.env Demo.fresh [Demo.link 1 "o1" "" "a", Demo.rootLink]).2 ≠ none ∧
    (AddChainLinks Demo.env Demo.fresh
      [Demo.link 1 "o1" "" "a", Demo.rootLink]).1.storedState = none :=
  stubbed_first_link_rejected Demo.env Demo.fresh (Demo.link 1 "o1" "" "a") [Demo.rootLink]
    false rfl rfl

/-- C18: a stubbed link that passes the outer checks of `checkOuterLink` (expected seqno,
version 2, non-empty sig, outer link decoded, `AssertSomeFields`, outer prev equal to the prior
`LastLinkID`) is accepted, whatever the handlers of `addInnerLink` would say; the new state is
the prior state with `LastSeqno` the outer seqno, `LastLinkID` the outer link's hash and
`StubbedTypes[outer type] = true`, so `HasAnyStubbedLinks` is true and `Id`, `Name`,
`ParentID`, `UserLog`, `SubteamLog` and `PerTeamKeys` are unchanged. -/
theorem stubbed_link_effect (env : Env) (t : TeamSigChainPlayer) (ps : TeamSigChainState)
    (link : SCChainLink) (av : Bool) (outerLink : OuterLinkV2)
    (hseq : link.Seqno = ps.LastSeqno + 1) (hver : link.Version = 2)
    (hsig : link.Sig.length ≠ 0) (hdec : env.decodeOuterLinkV2 link.Sig = some outerLink)
    (hasf : env.assertSomeFields outerLink link.Version link.Seqno = true)
    (hprev : env.importLinkID ps.LastLinkID = some outerLink.Prev)
    (hstub : link.Payload = "") :
    ∃ s, addChainLinkCommon env t (some ps) link av = .ok s ∧
      s = { ps with
            LastSeqno := outerLink.Seqno
            LastLinkID := env.outerLinkID outerLink
            StubbedTypes := ps.StubbedTypes.set outerLink.LinkType true } ∧
      s.GetLatestSeqno = outerLink.Seqno ∧
      s.GetLatestLinkID = env.outerLinkID outerLink ∧
      s.StubbedTypes.get? outerLink.LinkType = some true ∧
      (∀ k : Int, k ≠ outerLink.LinkType → s.StubbedTypes.get? k = ps.StubbedTypes.get? k) ∧
      s.HasAnyStubbedLinks = true ∧
      s.Id = ps.Id ∧ s.Name = ps.Name ∧ s.ParentID = ps.ParentID ∧ s.UserLog = ps.UserLog ∧
      s.SubteamLog = ps.SubteamLog ∧ s.PerTeamKeys = ps.PerTeamKeys := by
  have hout := checkOuterLink_stubbed t av hseq hver hsig hdec hasf hprev hstub
  refine ⟨_, ?_, rfl, rfl, rfl, ?_, ?_, ?_, rfl, rfl, rfl, rfl, rfl, rfl⟩
  · unfold addChainLinkCommon
    simp only [hout, TeamSigChainState.DeepCopy]
  · exact GoMap.get?_set_self _ _ _
  · intro k hk
    exact GoMap.get?_set_ne _ _ _ _ hk
  · exact any_setEntries_true _ _

/-- Witness for C18: the stubbed link of scenario S6 on the state after the root link. -/
theorem stubbed_link_effect_witness :
    ∃ s, addChainLinkCommon Demo.env Demo.fresh (some Demo.rootState) Demo.stubbedLink false
        = .ok s ∧
      s = { Demo.rootState with
            LastSeqno := (Demo.outer 2 [1] 35).Seqno
            LastLinkID := Demo.env.outerLinkID (Demo.outer 2 [1] 35)
            StubbedTypes := Demo.rootState.StubbedTypes.set (Demo.outer 2 [1] 35).LinkType true } ∧
      s.GetLatestSeqno = (Demo.outer 2 [1] 35).Seqno ∧
      s.GetLatestLinkID = Demo.env.outerLinkID (Demo.outer 2 [1] 35) ∧
      s.StubbedTypes.get? (Demo.outer 2 [1] 35).LinkType = some true ∧
      (∀ k : Int, k ≠ (Demo.outer 2 [1] 35).LinkType →
        s.StubbedTypes.get? k = Demo.rootState.StubbedTypes.get? k) ∧
      s.HasAnyStubbedLinks = true ∧
      s.Id = Demo.rootState.Id ∧ s.Name = Demo.rootState.Name ∧
      s.ParentID = Demo.rootState.ParentID ∧ s.UserLog = Demo.rootState.UserLog ∧
      s.SubteamLog = Demo.rootState.SubteamLog ∧ s.PerTeamKeys = Demo.rootState.PerTeamKeys :=
  stubbed_link_effect Demo.env Demo.fresh Demo.rootState Demo.stubbedLink false
    (Demo.outer 2 [1] 35) (by decide) (by decide) (by decide) (by decide) (by decide)
    (by decide) (by decide)

end Teams

namespace Teams

open TeamSigChainPlayer

/-! ## Leaving, new subteams -/

/-- C12: an accepted `team.leave` link has a signer `(link.UID, 1)` whose role in the prior
state is READER, WRITER, ADMIN or OWNER; the signer's log gains the entry `(NONE, n)`, with `n`
the seqno stored as `LastSeqno` (the seqno of the link when `AssertSomeFields` checks it), so
the signer's role is NONE; every other user's log, `SubteamLog` and `PerTeamKeys` are
unchanged. -/
theorem leave_effect (env : Env) (t : TeamSigChainPlayer)
    (ps : TeamSigChainState) (link : SCChainLink) (av : Bool) (s : TeamSigChainState)
    (payload : SCChainLinkPayload)
    (hne : link.Payload ≠ "") (hpl : env.unmarshalPayload link.Payload = some payload)
    (htype : payload.Body.Type_ = "team.leave")
    (h : addChainLinkCommon env t (some ps) link av = .ok s) :
    (ps.getUserRole (NewUserVersion link.UID 1) = TeamRole.READER ∨
      ps.getUserRole (NewUserVersion link.UID 1) = TeamRole.WRITER ∨
      ps.getUserRole (NewUserVersion link.UID 1) = TeamRole.ADMIN ∨
      ps.getUserRole (NewUserVersion link.UID 1) = TeamRole.OWNER) ∧
    s.userLogOf (NewUserVersion link.UID 1) =
      ps.userLogOf (NewUserVersion link.UID 1)
        ++ [{ Role := TeamRole.NONE, Seqno := s.GetLatestSeqno }] ∧
    s.getUserRole (NewUserVersion link.UID 1) = TeamRole.NONE ∧
    (∀ u : UserVersion, u ≠ NewUserVersion link.UID 1 → s.userLogOf u = ps.userLogOf u) ∧
    s.SubteamLog = ps.SubteamLog ∧ s.PerTeamKeys = ps.PerTeamKeys ∧
    (AssertSomeFieldsChecksSeqno env → s.GetLatestSeqno = link.Seqno) := by
  obtain ⟨oRes, iRes, team, teamID, hout, hsigner, hteam, _, hs, hsw⟩ := accepted_inner h hne hpl
  rcases hsw with ⟨hty, _⟩ | ⟨hty, _⟩ | ⟨hty, _⟩ | ⟨_, hr⟩ | ⟨hty, _⟩ | ⟨hty, _⟩
  rotate_left 3
  · obtain ⟨_, _, _, _, _, _, ps', hprev, hrole, hns⟩ := addInnerLinkLeave_ok hr
    cases hprev
    rw [hsigner] at hrole hns
    have hseq : s.GetLatestSeqno = oRes.outerLink.Seqno := by
      rw [hs]
      rfl
    have hlog : ∀ u, s.userLogOf u
        = (ps.inform (NewUserVersion link.UID 1) TeamRole.NONE oRes.outerLink.Seqno).userLogOf u := by
      intro u
      rw [hs, hns]
      rfl
    have hself : s.userLogOf (NewUserVersion link.UID 1) =
        ps.userLogOf (NewUserVersion link.UID 1)
          ++ [{ Role := TeamRole.NONE, Seqno := s.GetLatestSeqno }] := by
      rw [hlog, userLogOf_inform, if_pos ⟨rfl, hrole⟩, hseq]
    refine ⟨?_, hself, getUserRole_append ps s _ _ _ hself, ?_, ?_, ?_, ?_⟩
    · cases hr' : ps.getUserRole (NewUserVersion link.UID 1) with
      | NONE => exact absurd hr' hrole
      | READER => exact Or.inl rfl
      | WRITER => exact Or.inr (Or.inl rfl)
      | ADMIN => exact Or.inr (Or.inr (Or.inl rfl))
      | OWNER => exact Or.inr (Or.inr (Or.inr rfl))
    · intro u hu
      rw [hlog, userLogOf_inform, if_neg (fun hc => hu hc.1)]
    · rw [hs, hns, inform_eq]
    · rw [hs, hns, inform_eq]
    · intro hasf
      have := addChainLinkCommon_seqno hasf h
      obtain ⟨hlink, _⟩ := checkOuterLink_ok hout
      rw [hlink]
      exact this
  all_goals (rw [htype] at hty; exact absurd hty (by decide))

/-- Witness for C12: on the state after the root link of `acme`, the owner `a` leaves at
seqno 2. -/
theorem leave_effect_witness :
    (Demo.rootState.getUserRole (NewUserVersion "a" 1) = TeamRole.READER ∨
      Demo.rootState.getUserRole (NewUserVersion "a" 1) = TeamRole.WRITER ∨
      Demo.rootState.getUserRole (NewUserVersion "a" 1) = TeamRole.ADMIN ∨
      Demo.rootState.getUserRole (NewUserVersion "a" 1) = TeamRole.OWNER) ∧
    Demo.leftState.userLogOf (NewUserVersion "a" 1) =
      Demo.rootState.userLogOf (NewUserVersion "a" 1)
        ++ [{ Role := TeamRole.NONE, Seqno := Demo.leftState.GetLatestSeqno }] ∧
    Demo.leftState.getUserRole (NewUserVersion "a" 1) = TeamRole.NONE ∧
    (∀ u : UserVersion, u ≠ NewUserVersion "a" 1 →
      Demo.leftState.userLogOf u = Demo.rootState.userLogOf u) ∧
    Demo.leftState.SubteamLog = Demo.rootState.SubteamLog ∧
    Demo.leftState.PerTeamKeys = Demo.rootState.PerTeamKeys ∧
    (AssertSomeFieldsChecksSeqno Demo.env →
      Demo.leftState.GetLatestSeqno = (Demo.link 2 "o2l" "leave" "a").Seqno) :=
  leave_effect Demo.env Demo.fresh Demo.rootState (Demo.link 2 "o2l" "leave" "a") false
    Demo.leftState Demo.leavePayload (by decide) (by decide) (by decide) (by decide)

/-- C13: an accepted `team.new_subteam` link has a `subteam.id` that parses and is
subteam-tagged and a `subteam.name` that parses and is equal (`TeamName.Eq`) to the name of the
team with the last part of the subteam name appended; the log of that subteam ID gains the point
`(subteam.name, n)`, with `n` the seqno stored as `LastSeqno`, the logs of the other subteams,
`UserLog` and `PerTeamKeys` are unchanged. -/
theorem new_subteam_effect (env : Env) (t : TeamSigChainPlayer)
    (ps : TeamSigChainState) (link : SCChainLink) (av : Bool) (s : TeamSigChainState)
    (payload : SCChainLinkPayload)
    (hne : link.Payload ≠ "") (hpl : env.unmarshalPayload link.Payload = some payload)
    (htype : payload.Body.Type_ = "team.new_subteam")
    (h : addChainLinkCommon env t (some ps) link av = .ok s) :
    ∃ team subteam subteamID subteamName lastPart,
      payload.Body.Team = some team ∧ team.Subteam = some subteam ∧
      env.teamIDFromString subteam.ID = some subteamID ∧
      env.teamIDIsSubTeam subteamID = true ∧
      env.teamNameFromString subteam.Name = some subteamName ∧
      subteamName.LastPart = some lastPart ∧
      ps.GetName.Append env lastPart = .ok { Parts := ps.GetName.Parts ++ [lastPart] } ∧
      TeamName.Eq { Parts := ps.GetName.Parts ++ [lastPart] } subteamName = true ∧
      s.subteamLogOf subteamID =
        ps.subteamLogOf subteamID ++ [{ Name := subteamName, Seqno := s.GetLatestSeqno }] ∧
      s.GetSubteamName subteamID = .ok subteamName ∧
      (∀ id : TeamID, id ≠ subteamID → s.subteamLogOf id = ps.subteamLogOf id) ∧
      s.UserLog = ps.UserLog ∧ s.PerTeamKeys = ps.PerTeamKeys ∧
      (AssertSomeFieldsChecksSeqno env → s.GetLatestSeqno = link.Seqno) := by
  obtain ⟨oRes, iRes, team, teamID, hout, hsigner, hteam, _, hs, hsw⟩ := accepted_inner h hne hpl
  rcases hsw with ⟨hty, _⟩ | ⟨hty, _⟩ | ⟨hty, _⟩ | ⟨hty, _⟩ | ⟨_, hr⟩ | ⟨hty, _⟩
  rotate_left 4
  · obtain ⟨_, _, _, _, ps', subteam, sid, sname, lp, en, hprev, hsub, hsid, htag, hsn, hlp,
      happ, heq, hinf⟩ := addInnerLinkNewSubteam_ok hr
    cases hprev
    obtain ⟨_, _, hs1⟩ := informSubteam_ok hinf
    have hen : en = { Parts := ps.GetName.Parts ++ [lp] } := by
      unfold TeamName.Append at happ
      by_cases hv : env.validNamePart lp = true
      · rw [if_pos hv] at happ
        simp only [Except.ok.injEq] at happ
        exact happ.symm
      · rw [if_neg hv] at happ
        cases happ
    subst hen
    have hseq : s.GetLatestSeqno = oRes.outerLink.Seqno := by
      rw [hs]
      rfl
    have hlog : ∀ id, s.subteamLogOf id =
        if id = sid then ps.subteamLogOf sid ++ [{ Name := sname, Seqno := s.GetLatestSeqno }]
        else ps.subteamLogOf id := by
      intro id
      rw [hseq]
      have h1 : s.subteamLogOf id = iRes.newState.subteamLogOf id := by
        rw [hs]
        rfl
      rw [h1, hs1, subteamLogOf_set]
    have hself := hlog sid
    rw [if_pos rfl] at hself
    refine ⟨team, subteam, sid, sname, lp, hteam, hsub, hsid, htag, hsn, hlp, happ, heq, hself,
      ?_, ?_, ?_, ?_, ?_⟩
    · unfold TeamSigChainState.GetSubteamName TeamSigChainState.getLastSubteamPoint
      rw [hself, List.getLast?_concat]
    · intro id hid
      rw [hlog id, if_neg hid]
    · rw [hs, hs1]
    · rw [hs, hs1]
    · intro hasf
      have := addChainLinkCommon_seqno hasf h
      obtain ⟨hlink, _⟩ := checkOuterLink_ok hout
      rw [hlink]
      exact this
  all_goals (rw [htype] at hty; exact absurd hty (by decide))

/-- Witness for C13: on the state after the root link of `acme`, the link that creates subteam
`s-x` named `acme.eng`. -/
theorem new_subteam_effect_witness :
    ∃ team subteam subteamID subteamName lastPart,
      Demo.subXPayload.Body.Team = some team ∧ team.Subteam = some subteam ∧
      Demo.env.teamIDFromString subteam.ID = some subteamID ∧
      Demo.env.teamIDIsSubTeam subteamID = true ∧
      Demo.env.teamNameFromString subteam.Name = some subteamName ∧
      subteamName.LastPart = some lastPart ∧
      Demo.rootState.GetName.Append Demo.env lastPart
        = .ok { Parts := Demo.rootState.GetName.Parts ++ [lastPart] } ∧
      TeamName.Eq { Parts := Demo.rootState.GetName.Parts ++ [lastPart] } subteamName = true ∧
      Demo.subXState.subteamLogOf subteamID =
        Demo.rootState.subteamLogOf subteamID
          ++ [{ Name := subteamName, Seqno := Demo.subXState.GetLatestSeqno }] ∧
      Demo.subXState.GetSubteamName subteamID = .ok subteamName ∧
      (∀ id : TeamID, id ≠ subteamID →
        Demo.subXState.subteamLogOf id = Demo.rootState.subteamLogOf id) ∧
      Demo.subXState.UserLog = Demo.rootState.UserLog ∧
      Demo.subXState.PerTeamKeys = Demo.rootState.PerTeamKeys ∧
      (AssertSomeFieldsChecksSeqno Demo.env →
        Demo.subXState.GetLatestSeqno = (Demo.link 2 "o2s" "subX" "a").Seqno) :=
  new_subteam_effect Demo.env Demo.fresh Demo.rootState (Demo.link 2 "o2s" "subX" "a") false
    Demo.subXState Demo.subXPayload (by decide) (by decide) (by decide) (by decide)

end Teams

namespace Teams

open TeamSigChainPlayer

/-! ## Identity of the team -/

theorem updateMembership_identity (t : TeamSigChainPlayer) (s : TeamSigChainState)
    (roleUpdates : GoMap TeamRole (List UserVersion)) (seqno : Seqno) :
    (t.updateMembership s roleUpdates seqno).Id = s.Id ∧
    (t.updateMembership s roleUpdates seqno).Name = s.Name ∧
    (t.updateMembership s roleUpdates seqno).ParentID = s.ParentID := by
  rw [updateMembership_eq]
  exact ⟨rfl, rfl, rfl⟩

/-- How an accepted link sets the identity of the team: a first link establishes the identity
invariant; a later link keeps `Id`, `Name` and `ParentID`. -/
theorem identity_step {env : Env} {t : TeamSigChainPlayer}
    {prevState : Option TeamSigChainState} {link : SCChainLink} {av : Bool}
    {s : TeamSigChainState} (h : addChainLinkCommon env t prevState link av = .ok s) :
    (prevState = none ∧ IdentityInvariant env s) ∨
    (∃ ps, prevState = some ps ∧ s.Id = ps.Id ∧ s.Name = ps.Name ∧ s.ParentID = ps.ParentID) := by
  obtain ⟨oRes, hout, hcase⟩ := addChainLinkCommon_ok h
  rcases hcase with ⟨_, ps, hp, hs⟩ | ⟨_, iRes, hi, hs⟩
  · exact Or.inr ⟨ps, hp, by rw [hs], by rw [hs], by rw [hs]⟩
  obtain ⟨payload, team, teamID, _, _, _, _, _, _, _, hsw⟩ := addInnerLink_ok hi
  have hid : s.Id = iRes.newState.Id := by rw [hs]
  have hname : s.Name = iRes.newState.Name := by rw [hs]
  have hpar : s.ParentID = iRes.newState.ParentID := by rw [hs]
  rcases hsw with ⟨_, hr⟩ | ⟨_, hr⟩ | ⟨_, hr⟩ | ⟨_, hr⟩ | ⟨_, hr⟩ | ⟨_, hr⟩
  · obtain ⟨hprev, _, _, _, name, members, ptk, teamName, ru, k, _, _, _, _, hroot, hidn, hsub,
      _, _, hns, _⟩ := addInnerLinkRoot_ok hr
    obtain ⟨h1, h2, h3⟩ := updateMembership_identity t
      (initialState env t teamID teamName oRes none k) ru oRes.outerLink.Seqno
    rw [← hns] at h1 h2 h3
    have hid' : s.Id = teamID := hid.trans h1
    have hname' : s.Name = teamName := hname.trans h2
    have hpar' : s.ParentID = none := hpar.trans h3
    refine Or.inl ⟨hprev, ?_, ?_⟩
    · intro _
      rw [hid', hname']
      refine ⟨hroot, ?_, hidn, hsub⟩
      simpa [TeamName.IsRootTeam] using hroot
    · intro hc
      exact absurd hpar' hc
  · obtain ⟨_, _, _, ps, members, ru, hprev, _, _, _, hk⟩ := addInnerLinkChangeMembership_ok hr
    obtain ⟨h1, h2, h3⟩ := updateMembership_identity t ps ru oRes.outerLink.Seqno
    refine Or.inr ⟨ps, hprev, ?_⟩
    rcases hk with ⟨_, hns⟩ | ⟨ptk, lastKey, newKey, _, _, _, hns⟩
    · rw [hid, hname, hpar, hns]
      exact ⟨h1, h2, h3⟩
    · rw [hid, hname, hpar, hns]
      exact ⟨h1, h2, h3⟩
  · obtain ⟨_, _, _, _, ps, ptk, lastKey, newKey, hprev, _, _, _, _, hns⟩ :=
      addInnerLinkRotateKey_ok hr
    refine Or.inr ⟨ps, hprev, ?_⟩
    rw [hid, hname, hpar, hns]
    exact ⟨rfl, rfl, rfl⟩
  · obtain ⟨_, _, _, _, _, _, ps, hprev, _, hns⟩ := addInnerLinkLeave_ok hr
    refine Or.inr ⟨ps, hprev, ?_⟩
    rw [hid, hname, hpar, hns, inform_eq]
    exact ⟨rfl, rfl, rfl⟩
  · obtain ⟨_, _, _, _, ps, subteam, sid, sname, lp, en, hprev, _, _, _, _, _, _, _, hinf⟩ :=
      addInnerLinkNewSubteam_ok hr
    refine Or.inr ⟨ps, hprev, ?_⟩
    rw [hid, hname, hpar, (informSubteam_ok hinf).2.2]
    exact ⟨rfl, rfl, rfl⟩
  · obtain ⟨hprev, _, name, members, parent, ptk, parentID, teamName, ru, k, _, _, _, _, htag,
      _, _, hroot, _, _, hns⟩ := addInnerLinkSubteamHead_ok hr
    obtain ⟨h1, h2, h3⟩ := updateMembership_identity t
      (initialState env t teamID teamName oRes (some parentID) k) ru oRes.outerLink.Seqno
    rw [← hns] at h1 h2 h3
    have hid' : s.Id = teamID := hid.trans h1
    have hname' : s.Name = teamName := hname.trans h2
    have hpar' : s.ParentID = some parentID := hpar.trans h3
    refine Or.inl ⟨hprev, ?_, ?_⟩
    · intro hc
      rw [hpar'] at hc
      cases hc
    · intro _
      rw [hid', hname']
      exact ⟨htag, hroot⟩

theorem reachable_identity {env : Env} {s : TeamSigChainState} (h : Reachable env s) :
    IdentityInvariant env s := by
  induction h with
  | first t link av s h =>
    rcases identity_step h with ⟨_, hinv⟩ | ⟨ps, hp, _⟩
    · exact hinv
    · cases hp
  | next t link av s s' _ h ih =>
    rcases identity_step h with ⟨hp, _⟩ | ⟨ps, hp, h1, h2, h3⟩
    · cases hp
    · cases hp
      unfold IdentityInvariant at ih ⊢
      rw [h1, h2, h3]
      exact ih

/-- C14: in the state of a player that started fresh and accepted links: if `ParentID` is absent
then `Name` is a root name (one part), `Id` equals `Name.ToTeamID()` and `Id` is not
subteam-tagged; if `ParentID` is present then `Id` is subteam-tagged and `Name` is not a root
name; and a further accepted link changes none of `Id`, `Name` and `ParentID`. -/
theorem root_subteam_identity (env : Env) (reader : UserVersion)
    (calls : List (Bool × List SCChainLink)) (p : TeamSigChainPlayer) (s : TeamSigChainState)
    (hrun : runCalls env (NewTeamSigChainPlayer reader) calls = some p)
    (hs : p.storedState = some s) :
    (s.ParentID = none →
      s.Name.IsRootTeam = true ∧ s.Name.Parts.length = 1 ∧
      s.GetID = env.teamNameToTeamID s.GetName ∧ env.teamIDIsSubTeam s.GetID = false) ∧
    (s.IsSubteam = true → env.teamIDIsSubTeam s.GetID = true ∧ s.Name.IsRootTeam = false) ∧
    (∀ (t : TeamSigChainPlayer) (link : SCChainLink) (av : Bool) (s' : TeamSigChainState),
      addChainLinkCommon env t (some s) link av = .ok s' →
      s'.Id = s.Id ∧ s'.Name = s.Name ∧ s'.ParentID = s.ParentID) := by
  obtain ⟨h1, h2⟩ := reachable_identity (fresh_reachable hrun hs)
  refine ⟨h1, ?_, ?_⟩
  · intro hsub
    apply h2
    intro hc
    unfold TeamSigChainState.IsSubteam at hsub
    rw [hc] at hsub
    cases hsub
  · intro t link av s' h
    rcases identity_step h with ⟨hp, _⟩ | ⟨ps, hp, hrest⟩
    · cases hp
    · cases hp
      exact hrest

/-- Witness for C14: the root team `acme` after its root link. -/
theorem root_subteam_identity_witness :
    (Demo.rootState.ParentID = none →
      Demo.rootState.Name.IsRootTeam = true ∧ Demo.rootState.Name.Parts.length = 1 ∧
      Demo.rootState.GetID = Demo.env.teamNameToTeamID Demo.rootState.GetName ∧
      Demo.env.teamIDIsSubTeam Demo.rootState.GetID = false) ∧
    (Demo.rootState.IsSubteam = true →
      Demo.env.teamIDIsSubTeam Demo.rootState.GetID = true ∧
      Demo.rootState.Name.IsRootTeam = false) ∧
    (∀ (t : TeamSigChainPlayer) (link : SCChainLink) (av : Bool) (s' : TeamSigChainState),
      addChainLinkCommon Demo.env t (some Demo.rootState) link av = .ok s' →
      s'.Id = Demo.rootState.Id ∧ s'.Name = Demo.rootState.Name ∧
      s'.ParentID = Demo.rootState.ParentID) :=
  root_subteam_identity Demo.env Demo.A [(false, [Demo.rootLink])]
    (NewTeamSigChainPlayerWithState Demo.A Demo.rootState) Demo.rootState (by decide) (by decide)

end Teams

namespace Teams

open TeamSigChainPlayer

/-! ## Checks on a new per-team key -/

theorem getLatestPerTeamKey_ok {ps : TeamSigChainState} {k : PerTeamKey}
    (h : ps.GetLatestPerTeamKey = .ok k) :
    ps.PerTeamKeys.get? ps.GetLatestGeneration = some k := by
  unfold TeamSigChainState.GetLatestPerTeamKey at h
  unfold TeamSigChainState.GetLatestGeneration
  cases hg : ps.PerTeamKeys.get? (ps.PerTeamKeys.len : Int) with
  | none =>
    rw [hg] at h
    cases h
  | some k' =>
    rw [hg] at h
    simp only [Except.ok.injEq] at h
    rw [h]

theorem latestKeyConsistent_of_keysDense {ps : TeamSigChainState}
    (h : KeysDense ps.PerTeamKeys) : LatestKeyConsistent (some ps) := by
  intro ps' k hp hk
  cases hp
  exact h.2.2 _ _ hk

/-- What `checkPerTeamKey` has checked when it returns a key. -/
theorem checkPerTeamKey_good {env : Env} {t : TeamSigChainPlayer} {link : SCChainLink}
    {ptk : SCPerTeamKey} {expected : PerTeamKeyGeneration} {res : PerTeamKey}
    (h : checkPerTeamKey env t link ptk expected = .ok res)
    (hbad : ptk.Generation ≠ expected ∨
      env.importNaclSigningKeyPairFromHex ptk.SigKID = none ∨
      env.importNaclDHKeyPairFromHex ptk.EncKID = false ∨
      (∀ sigKey, env.importNaclSigningKeyPairFromHex ptk.SigKID = some sigKey →
        env.verifyReverseSig sigKey link.Payload ptk.ReverseSig = false)) : False := by
  obtain ⟨hgen, ⟨sigKey, hsig, hver⟩, henc, _⟩ := checkPerTeamKey_ok h
  rcases hbad with hb | hb | hb | hb
  · exact hb hgen
  · rw [hsig] at hb
    cases hb
  · rw [henc] at hb
    cases hb
  · rw [hb sigKey hsig] at hver
    cases hver

/-- C11: a link of type `team.root`, `team.subteam_head`, `team.rotate_key` or
`team.change_membership` that carries a `per_team_key` section is rejected if the generation is
not the expected one (1 on a first link, the latest generation plus one on a state whose latest
key carries its generation), or `sig_kid` does not import as a signing key, or `enc_kid` does
not import as a DH key, or the reverse signature over the payload does not verify under
`sig_kid`. -/
theorem bad_per_team_key_rejected (env : Env) (t : TeamSigChainPlayer)
    (prevState : Option TeamSigChainState) (link : SCChainLink) (av : Bool)
    (payload : SCChainLinkPayload) (team : SCTeamSection) (ptk : SCPerTeamKey)
    (hne : link.Payload ≠ "") (hpl : env.unmarshalPayload link.Payload = some payload)
    (hteam : payload.Body.Team = some team) (hptk : team.PerTeamKey = some ptk)
    (htype : payload.Body.Type_ = "team.root" ∨ payload.Body.Type_ = "team.subteam_head" ∨
      payload.Body.Type_ = "team.rotate_key" ∨ payload.Body.Type_ = "team.change_membership")
    (hlatest : LatestKeyConsistent prevState)
    (hbad : ptk.Generation ≠ expectedGeneration prevState ∨
      env.importNaclSigningKeyPairFromHex ptk.SigKID = none ∨
      env.importNaclDHKeyPairFromHex ptk.EncKID = false ∨
      (∀ sigKey, env.importNaclSigningKeyPairFromHex ptk.SigKID = some sigKey →
        env.verifyReverseSig sigKey link.Payload ptk.ReverseSig = false)) :
    ∃ err, addChainLinkCommon env t prevState link av = .error err := by
  cases h : addChainLinkCommon env t prevState link av with
  | error err => exact ⟨err, rfl⟩
  | ok s =>
    exfalso
    obtain ⟨oRes, iRes, team', teamID, hout, hsigner, hteam', _, hs, hsw⟩ :=
      accepted_inner h hne hpl
    rw [hteam] at hteam'
    cases hteam'
    rcases hsw with ⟨_, hr⟩ | ⟨_, hr⟩ | ⟨_, hr⟩ | ⟨hty, _⟩ | ⟨hty, _⟩ | ⟨_, hr⟩
    · obtain ⟨hprev, _, _, _, name, members, ptk', teamName, ru, k, _, _, hptk', _, _, _, _, _,
        hk, _⟩ := addInnerLinkRoot_ok hr
      rw [hptk] at hptk'
      cases hptk'
      subst hprev
      exact checkPerTeamKey_good hk hbad
    · obtain ⟨_, _, _, ps, members, ru, hprev, _, _, _, hk⟩ := addInnerLinkChangeMembership_ok hr
      subst hprev
      rcases hk with ⟨hnone, _⟩ | ⟨ptk', lastKey, newKey, hptk', hlast, hck, _⟩
      · rw [hptk] at hnone
        cases hnone
      · rw [hptk] at hptk'
        cases hptk'
        have hgen := hlatest ps lastKey rfl (getLatestPerTeamKey_ok hlast)
        rw [hgen] at hck
        exact checkPerTeamKey_good hck hbad
    · obtain ⟨_, _, _, _, ps, ptk', lastKey, newKey, hprev, hptk', _, hlast, hck, _⟩ :=
        addInnerLinkRotateKey_ok hr
      subst hprev
      rw [hptk] at hptk'
      cases hptk'
      have hgen := hlatest ps lastKey rfl (getLatestPerTeamKey_ok hlast)
      rw [hgen] at hck
      exact checkPerTeamKey_good hck hbad
    · rcases htype with ht | ht | ht | ht <;>
        (rw [hty] at ht; exact absurd ht (by decide))
    · rcases htype with ht | ht | ht | ht <;>
        (rw [hty] at ht; exact absurd ht (by decide))
    · obtain ⟨hprev, _, name, members, parent, ptk', parentID, teamName, ru, k, _, _, _, hptk',
        _, _, _, _, _, hk, _⟩ := addInnerLinkSubteamHead_ok hr
      rw [hptk] at hptk'
      cases hptk'
      subst hprev
      exact checkPerTeamKey_good hk hbad

/-- Witness for C11: the rotation of scenario S4 with generation 3 on a state whose latest
generation is 1. -/
theorem bad_per_team_key_rejected_witness :
    Demo.rootState.GetLatestGeneration = 1 ∧ (Demo.key 3).Generation = 3 ∧
    ∃ err, addChainLinkCommon Demo.env Demo.fresh (some Demo.rootState)
      (Demo.link 2 "o2k" "rotate3" "a") false = .error err :=
  ⟨by decide, by decide,
    bad_per_team_key_rejected Demo.env Demo.fresh (some Demo.rootState)
      (Demo.link 2 "o2k" "rotate3" "a") false Demo.rotate3Payload
      { Demo.section0 with PerTeamKey := some (Demo.key 3) } (Demo.key 3)
      (by decide) (by decide) rfl rfl (Or.inr (Or.inr (Or.inl rfl)))
      (latestKeyConsistent_of_keysDense (keysDense_initial _ rfl)) (Or.inl (by decide))⟩

end Teams

namespace Teams

open TeamSigChainPlayer

/-! ## The predicate matrix -/

theorem addInnerLink_switch {env : Env} {t : TeamSigChainPlayer}
    {prevState : Option TeamSigChainState} {link : SCChainLink} {oRes : checkOuterLinkResult}
    {av : Bool} {iRes : checkInnerLinkResult}
    (h : addInnerLink env t prevState link oRes av = .ok iRes) :
    ∃ payload team teamID,
      oRes.innerLink = some payload ∧ payload.Body.Team = some team ∧
      addInnerLinkSwitch env t prevState link oRes team teamID payload.Body.Type_ = .ok iRes := by
  unfold addInnerLink at h
  cases hpl : oRes.innerLink with
  | none => simp only [hpl] at h; cases h
  | some payload =>
    simp only [hpl] at h
    cases hmatch : checkInnerOuterMatch env t oRes.outerLink payload
        (env.payloadHash link.Payload) with
    | some e => simp only [hmatch] at h; cases h
    | none =>
      simp only [hmatch] at h
      by_cases htag : payload.Tag ≠ "signature"
      · rw [if_pos htag] at h
        cases h
      rw [if_neg htag] at h
      cases hteam : payload.Body.Team with
      | none => simp only [hteam] at h; cases h
      | some team =>
        simp only [hteam] at h
        by_cases hid : team.ID.length = 0
        · rw [if_pos hid] at h
          cases h
        rw [if_neg hid] at h
        cases htid : env.teamIDFromString team.ID with
        | none => simp only [htid] at h; cases h
        | some teamID =>
          simp only [htid] at h
          by_cases hw : wrongTeamID prevState teamID = true
          · rw [if_pos hw] at h
            cases h
          rw [if_neg hw] at h
          exact ⟨payload, team, teamID, rfl, hteam, h⟩

/-- An error of the structural check of a handled type is the error of the switch. -/
theorem structuralCheck_error {env : Env} {t : TeamSigChainPlayer}
    {prevState : Option TeamSigChainState} {link : SCChainLink} {oRes : checkOuterLinkResult}
    {team : SCTeamSection} {teamID : TeamID} {type : String} {err : Err}
    (h : structuralCheck prevState team type = some err) :
    addInnerLinkSwitch env t prevState link oRes team teamID type = .error err := by
  unfold structuralCheck at h
  unfold addInnerLinkSwitch
  by_cases h1 : type = "team.root"
  · rw [if_pos h1] at h ⊢
    unfold addInnerLinkRoot
    simp only [h]
  rw [if_neg h1] at h ⊢
  by_cases h2 : type = "team.change_membership"
  · rw [if_pos h2] at h ⊢
    unfold addInnerLinkChangeMembership
    simp only [h]
  rw [if_neg h2] at h ⊢
  by_cases h3 : type = "team.rotate_key"
  · rw [if_pos h3] at h ⊢
    unfold addInnerLinkRotateKey
    simp only [h]
  rw [if_neg h3] at h ⊢
  by_cases h4 : type = "team.leave"
  · rw [if_pos h4] at h ⊢
    unfold addInnerLinkLeave
    simp only [h]
  rw [if_neg h4] at h ⊢
  by_cases h5 : type = "team.new_subteam"
  · rw [if_pos h5] at h ⊢
    unfold addInnerLinkNewSubteam
    simp only [h]
  rw [if_neg h5] at h ⊢
  by_cases h6 : type = "team.subteam_head"
  · rw [if_pos h6] at h ⊢
    unfold addInnerLinkSubteamHead
    simp only [h]
  rw [if_neg h6] at h
  cases h

/-- The structural check of a handled type passes exactly when the row of the matrix holds. -/
theorem structuralCheck_iff (prevState : Option TeamSigChainState) (team : SCTeamSection)
    (type : String) (row : PredicateRow) (hrow : predicateMatrix type = some row) :
    structuralCheck prevState team type = none ↔ row.holds prevState team = true := by
  unfold predicateMatrix at hrow
  unfold structuralCheck
  by_cases h1 : type = "team.root"
  · rw [if_pos h1] at hrow ⊢
    cases hrow
    rw [PickFirstError_none]
    simp [hasName, hasMembers, hasParent, hasSubteam, hasPerTeamKey, hasAdmin, hasGeneric_none,
      hasPrevState_none, PredicateRow.holds, Presence.allows, and_assoc]
  rw [if_neg h1] at hrow ⊢
  by_cases h2 : type = "team.change_membership"
  · rw [if_pos h2] at hrow ⊢
    cases hrow
    rw [PickFirstError_none]
    simp [hasName, hasMembers, hasParent, hasSubteam, hasPerTeamKey, hasAdmin, hasGeneric_none,
      hasPrevState_none, PredicateRow.holds, Presence.allows, and_assoc]
  rw [if_neg h2] at hrow ⊢
  by_cases h3 : type = "team.rotate_key"
  · rw [if_pos h3] at hrow ⊢
    cases hrow
    rw [PickFirstError_none]
    simp [hasName, hasMembers, hasParent, hasSubteam, hasPerTeamKey, hasAdmin, hasGeneric_none,
      hasPrevState_none, PredicateRow.holds, Presence.allows, and_assoc]
  rw [if_neg h3] at hrow ⊢
  by_cases h4 : type = "team.leave"
  · rw [if_pos h4] at hrow ⊢
    cases hrow
    rw [PickFirstError_none]
    simp [hasName, hasMembers, hasParent, hasSubteam, hasPerTeamKey, hasAdmin, hasGeneric_none,
      hasPrevState_none, PredicateRow.holds, Presence.allows, and_assoc]
  rw [if_neg h4] at hrow ⊢
  by_cases h5 : type = "team.new_subteam"
  · rw [if_pos h5] at hrow ⊢
    cases hrow
    rw [PickFirstError_none]
    simp [hasName, hasMembers, hasParent, hasSubteam, hasPerTeamKey, hasAdmin, hasGeneric_none,
      hasPrevState_none, PredicateRow.holds, Presence.allows, and_assoc]
  rw [if_neg h5] at hrow ⊢
  by_cases h6 : type = "team.subteam_head"
  · rw [if_pos h6] at hrow ⊢
    cases hrow
    rw [PickFirstError_none]
    simp [hasName, hasMembers, hasParent, hasSubteam, hasPerTeamKey, hasAdmin, hasGeneric_none,
      hasPrevState_none, PredicateRow.holds, Presence.allows, and_assoc]
  rw [if_neg h6] at hrow
  cases hrow

end Teams

namespace Teams

open TeamSigChainPlayer

theorem Presence.allows_congr (cell : Presence) (has has' : Bool)
    (h : cell ≠ Presence.either → has' = has) : cell.allows has' = cell.allows has := by
  cases cell with
  | R => rw [h (by decide)]
  | F => rw [h (by decide)]
  | either => rfl

/-- C15: for each of the six handled link types, the chain of `has*` checks at the head of its
case returns no error if and only if the prior state is present or absent as the row of the
spec's matrix says, every section marked R is present and every section marked F is absent;
sections marked `either` do not influence it; and when the row is violated the switch, and so
`addInnerLink`, returns an error. -/
theorem structural_predicate_matches_matrix (env : Env) (t : TeamSigChainPlayer)
    (prevState : Option TeamSigChainState) (link : SCChainLink) (oRes : checkOuterLinkResult)
    (av : Bool) (team : SCTeamSection) (teamID : TeamID) (type : String) (row : PredicateRow)
    (hrow : predicateMatrix type = some row) :
    (structuralCheck prevState team type = none ↔ row.holds prevState team = true) ∧
    (∀ team' : SCTeamSection,
      (row.name ≠ Presence.either → team'.Name.isSome = team.Name.isSome) →
      (row.members ≠ Presence.either → team'.Members.isSome = team.Members.isSome) →
      (row.parent ≠ Presence.either → team'.Parent.isSome = team.Parent.isSome) →
      (row.subteam ≠ Presence.either → team'.Subteam.isSome = team.Subteam.isSome) →
      (row.perTeamKey ≠ Presence.either → team'.PerTeamKey.isSome = team.PerTeamKey.isSome) →
      (row.admin ≠ Presence.either → team'.Admin.isSome = team.Admin.isSome) →
      (structuralCheck prevState team' type = none ↔ structuralCheck prevState team type = none)) ∧
    (row.holds prevState team = false →
      (∃ err, addInnerLinkSwitch env t prevState link oRes team teamID type = .error err) ∧
      (∀ payload : SCChainLinkPayload, oRes.innerLink = some payload →
        payload.Body.Team = some team → payload.Body.Type_ = type →
        ∃ err, addInnerLink env t prevState link oRes av = .error err)) := by
  have hiff := structuralCheck_iff prevState team type row hrow
  refine ⟨hiff, ?_, ?_⟩
  · intro team' h1 h2 h3 h4 h5 h6
    rw [hiff, structuralCheck_iff prevState team' type row hrow]
    unfold PredicateRow.holds
    rw [Presence.allows_congr _ _ _ h1, Presence.allows_congr _ _ _ h2,
      Presence.allows_congr _ _ _ h3, Presence.allows_congr _ _ _ h4,
      Presence.allows_congr _ _ _ h5, Presence.allows_congr _ _ _ h6]
  · intro hviol
    have hsome : ∃ err, structuralCheck prevState team type = some err := by
      cases hc : structuralCheck prevState team type with
      | some err => exact ⟨err, rfl⟩
      | none =>
        rw [hiff.1 hc] at hviol
        cases hviol
    obtain ⟨err, herr⟩ := hsome
    refine ⟨⟨err, structuralCheck_error herr⟩, ?_⟩
    intro payload hpl hteam htype
    cases h : addInnerLink env t prevState link oRes av with
    | error e => exact ⟨e, rfl⟩
    | ok iRes =>
      exfalso
      obtain ⟨payload', team', teamID', hpl', hteam', hsw⟩ := addInnerLink_switch h
      rw [hpl] at hpl'
      cases hpl'
      rw [hteam] at hteam'
      cases hteam'
      rw [htype, structuralCheck_error herr] at hsw
      cases hsw

/-- Witness for C15: the row of `team.root` and the team section of the root link of `acme`,
which has a name, members and a per-team key and nothing else, with no prior state. -/
theorem structural_predicate_matches_matrix_witness :
    predicateMatrix "team.root" =
      some { prevState := false, name := .R, members := .R, parent := .F, subteam := .F,
             perTeamKey := .R, admin := .F } ∧
    structuralCheck none
      { Demo.section0 with Name := some "acme", PerTeamKey := some (Demo.key 1),
                           Members := some { Demo.noMembers with Owners := some [Demo.A] } }
      "team.root" = none ∧
    structuralCheck (some Demo.rootState)
      { Demo.section0 with Name := some "acme", PerTeamKey := some (Demo.key 1),
                           Members := some { Demo.noMembers with Owners := some [Demo.A] } }
      "team.root" ≠ none :=
  ⟨rfl,
    (structural_predicate_matches_matrix Demo.env Demo.fresh none Demo.rootLink
      { outerLink := Demo.outer 1 [] 33, signingUser := Demo.A, innerLink := none } false
      { Demo.section0 with Name := some "acme", PerTeamKey := some (Demo.key 1),
                           Members := some { Demo.noMembers with Owners := some [Demo.A] } }
      "r-acme" "team.root"
      { prevState := false, name := .R, members := .R, parent := .F, subteam := .F,
        perTeamKey := .R, admin := .F } rfl).1.2 (by decide),
    by decide⟩

/-! ## Link types without a handler -/

theorem addChainLinksLoop_error_of_mem {env : Env} {t : TeamSigChainPlayer} {av : Bool}
    {link : SCChainLink}
    (hrej : ∀ prevState, ∃ err, addChainLinkCommon env t prevState link av = .error err)
    (links : List SCChainLink) (hmem : link ∈ links) :
    ∀ state, ∃ err, addChainLinksLoop env t av state links = .error err := by
  induction links with
  | nil => simp at hmem
  | cons l rest ih =>
    intro state
    simp only [addChainLinksLoop]
    cases hstep : addChainLinkCommon env t state l av with
    | error e =>
      cases state with
      | none => exact ⟨_, rfl⟩
      | some st => exact ⟨_, rfl⟩
    | ok ns =>
      simp only
      rcases List.mem_cons.1 hmem with h1 | h1
      · subst h1
        obtain ⟨e, he⟩ := hrej state
        rw [he] at hstep
        cases hstep
      · exact ih h1 (some ns)

/-- C16: a link with a payload whose `body.type` is none of the six handled types (so
`team.subteam_rename`, the empty string, or any other string) is rejected with an error in every
prior state, present or absent; a batch that contains such a link fails and leaves the player
unchanged. -/
theorem unsupported_type_rejected (env : Env) (t : TeamSigChainPlayer) (link : SCChainLink)
    (payload : SCChainLinkPayload)
    (hne : link.Payload ≠ "") (hpl : env.unmarshalPayload link.Payload = some payload)
    (htype : payload.Body.Type_ ∉ handledLinkTypes) :
    (∀ (prevState : Option TeamSigChainState) (av : Bool),
      ∃ err, addChainLinkCommon env t prevState link av = .error err) ∧
    (∀ (links : List SCChainLink) (av : Bool), link ∈ links →
      (addChainLinksCommon env t links av).2 ≠ none ∧
      (addChainLinksCommon env t links av).1 = t) := by
  have hrej : ∀ (prevState : Option TeamSigChainState) (av : Bool),
      ∃ err, addChainLinkCommon env t prevState link av = .error err := by
    intro prevState av
    cases h : addChainLinkCommon env t prevState link av with
    | error err => exact ⟨err, rfl⟩
    | ok s =>
      exfalso
      obtain ⟨oRes, iRes, team, teamID, _, _, _, _, _, hsw⟩ := accepted_inner h hne hpl
      apply htype
      rcases hsw with ⟨hty, _⟩ | ⟨hty, _⟩ | ⟨hty, _⟩ | ⟨hty, _⟩ | ⟨hty, _⟩ | ⟨hty, _⟩ <;>
        (rw [hty]; decide)
  refine ⟨hrej, ?_⟩
  intro links av hmem
  obtain ⟨err, herr⟩ := addChainLinksLoop_error_of_mem (fun prev => hrej prev av) links hmem
    t.storedState
  have hnot : (addChainLinksCommon env t links av).2 ≠ none := by
    unfold addChainLinksCommon
    by_cases hl : links.length = 0
    · rw [if_pos hl]
      simp
    · rw [if_neg hl]
      simp only [herr]
      simp
  exact ⟨hnot, addChainLinksCommon_error hnot⟩

/-- Witness for C16: a `team.subteam_rename` link at seqno 2 on the player that holds the root
link of `acme`. -/
theorem unsupported_type_rejected_witness :
    Demo.renamePayload.Body.Type_ = "team.subteam_rename" ∧
    (AddChainLinks Demo.env Demo.afterRoot [Demo.link 2 "o2r" "rename" "a"]).2 ≠ none ∧
    (AddChainLinks Demo.env Demo.afterRoot [Demo.link 2 "o2r" "rename" "a"]).1
      = Demo.afterRoot :=
  ⟨rfl,
    (unsupported_type_rejected Demo.env Demo.afterRoot (Demo.link 2 "o2r" "rename" "a")
      Demo.renamePayload (by decide) (by decide) (by decide)).2
      [Demo.link 2 "o2r" "rename" "a"] false (by simp)⟩

/-! ## The outer signature -/

/-- C20 (the code at a failing input): the same outer signature bytes `o1` are accepted once as
the root link signed by user `a` and once as a root link signed by user `b`, so under every
verifier for which a signature verifies for one user at most, one of the two accepted links has
an outer signature that does not verify for its signing user. -/
theorem outer_signature_not_verified :
    (AddChainLinks Demo.env Demo.fresh [Demo.link 1 "o1" "root" "a"]).2 = none ∧
    (AddChainLinks Demo.env Demo.fresh [Demo.link 1 "o1" "rootB" "b"]).2 = none ∧
    ∀ verify : OuterLinkVerifier,
      (∀ (sig : String) (u v : UserVersion), verify u sig = true → verify v sig = true → u = v) →
      verify (NewUserVersion "a" 1) "o1" = false ∨ verify (NewUserVersion "b" 1) "o1" = false := by
  refine ⟨by decide, by decide, ?_⟩
  intro verify huniq
  cases ha : verify (NewUserVersion "a" 1) "o1" with
  | false => exact Or.inl rfl
  | true =>
    cases hb : verify (NewUserVersion "b" 1) "o1" with
    | false => exact Or.inr rfl
    | true =>
      have := huniq "o1" _ _ ha hb
      exact absurd this (by decide)

end Teams

namespace Teams

open TeamSigChainPlayer

/-! ## The `alreadyVerified` flag -/

theorem addChainLinkCommon_flag (env : Env) (t : TeamSigChainPlayer)
    (prevState : Option TeamSigChainState) (link : SCChainLink) :
    addChainLinkCommon env t prevState link true = addChainLinkCommon env t prevState link false :=
  rfl

theorem addChainLinksLoop_flag (env : Env) (t : TeamSigChainPlayer) (links : List SCChainLink) :
    ∀ state, addChainLinksLoop env t true state links = addChainLinksLoop env t false state links := by
  induction links with
  | nil => intro state; rfl
  | cons link rest ih =>
    intro state
    simp only [addChainLinksLoop, addChainLinkCommon_flag, ih]

/-- C21: `AddChainLinksVerified` returns the same error, or none, and leaves the same player as
`AddChainLinks`, for every player and batch: one fails iff the other does, and on success both
store the same state.  The flag `alreadyVerified` is handed down and never read, so every
structural and continuity check is made in both. -/
theorem verified_same_as_unverified (env : Env) (t : TeamSigChainPlayer)
    (links : List SCChainLink) :
    AddChainLinksVerified env t links = AddChainLinks env t links ∧
    ((AddChainLinksVerified env t links).2 = none ↔ (AddChainLinks env t links).2 = none) ∧
    (AddChainLinksVerified env t links).1.storedState = (AddChainLinks env t links).1.storedState := by
  have h : AddChainLinksVerified env t links = AddChainLinks env t links := by
    unfold AddChainLinksVerified AddChainLinks addChainLinksCommon
    rw [addChainLinksLoop_flag]
  exact ⟨h, by rw [h], by rw [h]⟩

/-! ## `inform` -/

theorem getUserRole_inform_self (s : TeamSigChainState) (u : UserVersion) (role : TeamRole)
    (seqno : Seqno) : (s.inform u role seqno).getUserRole u = role := by
  by_cases h : s.getUserRole u = role
  · unfold TeamSigChainState.inform
    rw [if_pos h]
    exact h
  · apply getUserRole_append s _ u role seqno
    rw [userLogOf_inform, if_pos ⟨rfl, h⟩]

/-- C26: `inform(u, r, s)` twice in a row leaves the state of a single call; a call appends
`(r, s)` to the log of `u` iff `r` differs from the current role of `u` (the role of the last
entry, NONE without entries) and changes nothing otherwise; the log of no other user and no
other field of the state is changed. -/
theorem inform_idempotent (t : TeamSigChainState) (u : UserVersion) (role : TeamRole)
    (seqno : Seqno) :
    (t.inform u role seqno).inform u role seqno = t.inform u role seqno ∧
    (t.getUserRole u = role → t.inform u role seqno = t) ∧
    (t.getUserRole u ≠ role →
      (t.inform u role seqno).userLogOf u = t.userLogOf u ++ [{ Role := role, Seqno := seqno }]) ∧
    (∀ u' : UserVersion, u' ≠ u →
      (t.inform u role seqno).UserLog.get? u' = t.UserLog.get? u' ∧
      (t.inform u role seqno).userLogOf u' = t.userLogOf u') ∧
    t.inform u role seqno = { t with UserLog := (t.inform u role seqno).UserLog } ∧
    t.getUserRole u = (match (t.userLogOf u).getLast? with
      | none => TeamRole.NONE
      | some point => point.Role) := by
  refine ⟨?_, ?_, ?_, ?_, inform_eq t u role seqno, rfl⟩
  · have h := getUserRole_inform_self t u role seqno
    generalize t.inform u role seqno = t' at h
    unfold TeamSigChainState.inform
    rw [if_pos h]
  · intro h
    unfold TeamSigChainState.inform
    rw [if_pos h]
  · intro h
    rw [userLogOf_inform, if_pos ⟨rfl, h⟩]
  · intro u' hu
    constructor
    · unfold TeamSigChainState.inform
      by_cases h : t.getUserRole u = role
      · rw [if_pos h]
      · rw [if_neg h]
        exact GoMap.get?_set_ne _ _ _ _ hu
    · rw [userLogOf_inform, if_neg (fun hc => hu hc.1)]

end Teams

namespace Teams

open TeamSigChainPlayer

/-! ## Composition of batches -/

theorem addChainLinkCommon_stored (env : Env) (t : TeamSigChainPlayer)
    (st : Option TeamSigChainState) (prevState : Option TeamSigChainState) (link : SCChainLink)
    (av : Bool) :
    addChainLinkCommon env { t with storedState := st } prevState link av
      = addChainLinkCommon env t prevState link av :=
  rfl

theorem addChainLinksLoop_stored (env : Env) (t : TeamSigChainPlayer)
    (st : Option TeamSigChainState) (av : Bool) (links : List SCChainLink) :
    ∀ state, addChainLinksLoop env { t with storedState := st } av state links
      = addChainLinksLoop env t av state links := by
  induction links with
  | nil => intro state; rfl
  | cons link rest ih =>
    intro state
    simp only [addChainLinksLoop, addChainLinkCommon_stored, ih]

theorem addChainLinksLoop_append_ok {env : Env} {t : TeamSigChainPlayer} {av : Bool}
    (a b : List SCChainLink) :
    ∀ (state st : Option TeamSigChainState), addChainLinksLoop env t av state a = .ok st →
      addChainLinksLoop env t av state (a ++ b) = addChainLinksLoop env t av st b := by
  induction a with
  | nil =>
    intro state st h
    simp only [addChainLinksLoop] at h
    cases h
    rfl
  | cons link rest ih =>
    intro state st h
    simp only [addChainLinksLoop, List.cons_append] at h ⊢
    cases hstep : addChainLinkCommon env t state link av with
    | error e =>
      simp only [hstep] at h
      cases state <;> cases h
    | ok ns =>
      simp only [hstep] at h ⊢
      exact ih _ _ h

theorem addChainLinksLoop_append_error {env : Env} {t : TeamSigChainPlayer} {av : Bool}
    (a b : List SCChainLink) :
    ∀ (state : Option TeamSigChainState) (e : Err),
      addChainLinksLoop env t av state a = .error e →
      addChainLinksLoop env t av state (a ++ b) = .error e := by
  induction a with
  | nil =>
    intro state e h
    simp only [addChainLinksLoop] at h
    cases h
  | cons link rest ih =>
    intro state e h
    simp only [addChainLinksLoop, List.cons_append] at h ⊢
    cases hstep : addChainLinkCommon env t state link av with
    | error e' =>
      simp only [hstep] at h ⊢
      exact h
    | ok ns =>
      simp only [hstep] at h ⊢
      exact ih _ _ h

theorem addChainLinksCommon_of_loop_ok {env : Env} {t : TeamSigChainPlayer} {av : Bool}
    {links : List SCChainLink} {st : Option TeamSigChainState} (hne : links ≠ [])
    (h : addChainLinksLoop env t av t.storedState links = .ok st) :
    addChainLinksCommon env t links av = ({ t with storedState := st }, none) := by
  have hl : ¬ links.length = 0 := fun e => hne (List.length_eq_zero.mp e)
  unfold addChainLinksCommon
  rw [if_neg hl, h]

theorem addChainLinksCommon_of_loop_error {env : Env} {t : TeamSigChainPlayer} {av : Bool}
    {links : List SCChainLink} {e : Err} (hne : links ≠ [])
    (h : addChainLinksLoop env t av t.storedState links = .error e) :
    addChainLinksCommon env t links av = (t, some e) := by
  have hl : ¬ links.length = 0 := fun e => hne (List.length_eq_zero.mp e)
  unfold addChainLinksCommon
  rw [if_neg hl, h]

/-- C30: for every player and all non-empty batches `a` and `b`, `AddChainLinks (a ++ b)` returns
no error iff `AddChainLinks a` and then `AddChainLinks b` on the resulting player both return
none, and then both ways leave the same player, hence the same stored state. -/
theorem batch_composition (env : Env) (t : TeamSigChainPlayer) (a b : List SCChainLink)
    (ha : a ≠ []) (hb : b ≠ []) :
    ((AddChainLinks env t (a ++ b)).2 = none ↔
      (AddChainLinks env t a).2 = none ∧
      (AddChainLinks env (AddChainLinks env t a).1 b).2 = none) ∧
    ((AddChainLinks env t (a ++ b)).2 = none →
      (AddChainLinks env t (a ++ b)).1 = (AddChainLinks env (AddChainLinks env t a).1 b).1 ∧
      (AddChainLinks env t (a ++ b)).1.storedState
        = (AddChainLinks env (AddChainLinks env t a).1 b).1.storedState) := by
  have hab : a ++ b ≠ [] := fun e => ha (List.append_eq_nil.mp e).1
  unfold AddChainLinks
  cases hA : addChainLinksLoop env t false t.storedState a with
  | error e =>
    rw [addChainLinksCommon_of_loop_error ha hA,
      addChainLinksCommon_of_loop_error hab (addChainLinksLoop_append_error a b _ _ hA)]
    simp
  | ok st =>
    rw [addChainLinksCommon_of_loop_ok ha hA]
    have hAB := @addChainLinksLoop_append_ok env t false a b _ _ hA
    cases hB : addChainLinksLoop env t false st b with
    | error e =>
      rw [hB] at hAB
      have hB' : addChainLinksLoop env { t with storedState := st } false
          ({ t with storedState := st } : TeamSigChainPlayer).storedState b = .error e := by
        rw [addChainLinksLoop_stored]
        exact hB
      rw [addChainLinksCommon_of_loop_error hab hAB, addChainLinksCommon_of_loop_error hb hB']
      simp
    | ok st2 =>
      rw [hB] at hAB
      have hB' : addChainLinksLoop env { t with storedState := st } false
          ({ t with storedState := st } : TeamSigChainPlayer).storedState b = .ok st2 := by
        rw [addChainLinksLoop_stored]
        exact hB
      rw [addChainLinksCommon_of_loop_ok hab hAB, addChainLinksCommon_of_loop_ok hb hB']
      simp

/-- Witness for C30: the root link followed by the creation of a subteam, in one batch on the
fresh player or in two calls. -/
theorem batch_composition_witness :
    ((AddChainLinks Demo.env Demo.fresh ([Demo.rootLink] ++ [Demo.link 2 "o2s" "subX" "a"])).2
        = none ↔
      (AddChainLinks Demo.env Demo.fresh [Demo.rootLink]).2 = none ∧
      (AddChainLinks Demo.env (AddChainLinks Demo.env Demo.fresh [Demo.rootLink]).1
        [Demo.link 2 "o2s" "subX" "a"]).2 = none) ∧
    (AddChainLinks Demo.env Demo.fresh ([Demo.rootLink] ++ [Demo.link 2 "o2s" "subX" "a"])).2
      = none ∧
    (AddChainLinks Demo.env Demo.fresh
      ([Demo.rootLink] ++ [Demo.link 2 "o2s" "subX" "a"])).1.storedState = some Demo.subXState :=
  ⟨(batch_composition Demo.env Demo.fresh [Demo.rootLink] [Demo.link 2 "o2s" "subX" "a"]
      (by decide) (by decide)).1, by decide, by decide⟩

end Teams

namespace Teams

open TeamSigChainPlayer

/-! ## The error of a failed batch -/

theorem addChainLinksLoop_error {env : Env} {t : TeamSigChainPlayer} {av : Bool}
    (links : List SCChainLink) :
    ∀ (state : Option TeamSigChainState) (err : Err),
      addChainLinksLoop env t av state links = .error err →
      ∃ (accepted : List SCChainLink) (failing : SCChainLink) (rest : List SCChainLink)
        (st : Option TeamSigChainState) (e : Err),
        links = accepted ++ failing :: rest ∧
        addChainLinksLoop env t av state accepted = .ok st ∧
        addChainLinkCommon env t st failing av = .error e ∧
        (st = none → err = .atBeginning e) ∧
        (∀ s, st = some s → err = .atSeqno s.GetLatestSeqno e) ∧
        (st = none ↔ state = none ∧ accepted = []) := by
  induction links with
  | nil =>
    intro state err h
    simp only [addChainLinksLoop] at h
    cases h
  | cons link rest ih =>
    intro state err h
    simp only [addChainLinksLoop] at h
    cases hstep : addChainLinkCommon env t state link av with
    | error e =>
      simp only [hstep] at h
      refine ⟨[], link, rest, state, e, rfl, rfl, hstep, ?_, ?_, ?_⟩
      · intro hs
        subst hs
        cases h
        rfl
      · intro s hs
        subst hs
        cases h
        rfl
      · simp
    | ok ns =>
      simp only [hstep] at h
      obtain ⟨accepted, failing, rest', st, e, hl, hacc, hfail, h1, h2, h3⟩ := ih _ _ h
      refine ⟨link :: accepted, failing, rest', st, e, ?_, ?_, hfail, h1, h2, ?_⟩
      · rw [hl]
        rfl
      · simp only [addChainLinksLoop, hstep]
        exact hacc
      · constructor
        · intro hs
          exact absurd (h3.mp hs).1 (by simp)
        · intro hs
          exact absurd hs.2 (by simp)

/-- C24 as the code has it: when `AddChainLinks` fails on a non-empty batch, the batch splits into
the links accepted before the failure, the link that failed and the rest; the error is the error
of the failing link, prefixed `at beginning` when there is no state to apply it to (no stored
state and no link accepted before it), and else prefixed `at seqno N` with `N` the latest seqno
of the state the failing link was applied to, which is the seqno of the last accepted link: the
latest seqno of the stored state plus the number of links accepted before the failure, when
`AssertSomeFields` checks the seqno. -/
theorem error_names_latest_seqno (env : Env) (t : TeamSigChainPlayer) (links : List SCChainLink)
    (err : Err) (hne : links ≠ []) (h : (AddChainLinks env t links).2 = some err) :
    ∃ (accepted : List SCChainLink) (failing : SCChainLink) (rest : List SCChainLink)
      (st : Option TeamSigChainState) (e : Err),
      links = accepted ++ failing :: rest ∧
      addChainLinksLoop env t false t.storedState accepted = .ok st ∧
      addChainLinkCommon env t st failing false = .error e ∧
      (st = none → err = .atBeginning e) ∧
      (∀ s, st = some s → err = .atSeqno s.GetLatestSeqno e) ∧
      (st = none ↔ t.storedState = none ∧ accepted = []) ∧
      (AssertSomeFieldsChecksSeqno env →
        seqnoOrZero st = seqnoOrZero t.storedState + (accepted.length : Int)) := by
  unfold AddChainLinks at h
  cases hloop : addChainLinksLoop env t false t.storedState links with
  | ok st =>
    rw [addChainLinksCommon_of_loop_ok hne hloop] at h
    cases h
  | error e0 =>
    rw [addChainLinksCommon_of_loop_error hne hloop] at h
    cases h
    obtain ⟨accepted, failing, rest, st, e, hl, hacc, hfail, h1, h2, h3⟩ :=
      addChainLinksLoop_error links _ _ hloop
    exact ⟨accepted, failing, rest, st, e, hl, hacc, hfail, h1, h2, h3,
      fun hasf => addChainLinksLoop_seqno hasf accepted _ _ hacc⟩

/-- Witness for C24: on the player that holds the root link, the colliding batch fails at its
second link. -/
theorem error_names_latest_seqno_witness :
    ∃ (accepted : List SCChainLink) (failing : SCChainLink) (rest : List SCChainLink)
      (st : Option TeamSigChainState) (e : Err),
      Demo.collidingBatch = accepted ++ failing :: rest ∧
      addChainLinksLoop Demo.env Demo.afterRoot false Demo.afterRoot.storedState accepted
        = .ok st ∧
      addChainLinkCommon Demo.env Demo.afterRoot st failing false = .error e ∧
      (st = none →
        Err.atSeqno 2 (.wrap "team sigchain inner link"
          (.wrap "adding new subteam" (.msg "multiple subteams named"))) = .atBeginning e) ∧
      (∀ s, st = some s →
        Err.atSeqno 2 (.wrap "team sigchain inner link"
          (.wrap "adding new subteam" (.msg "multiple subteams named")))
          = .atSeqno s.GetLatestSeqno e) ∧
      (st = none ↔ Demo.afterRoot.storedState = none ∧ accepted = []) ∧
      (AssertSomeFieldsChecksSeqno Demo.env →
        seqnoOrZero st = seqnoOrZero Demo.afterRoot.storedState + (accepted.length : Int)) :=
  error_names_latest_seqno Demo.env Demo.afterRoot Demo.collidingBatch _ (by decide) (by decide)

/-- Counterexample for C24: on the player that holds the root link (latest seqno 1), the first
link of the colliding batch, of seqno 2, is accepted and the second, of seqno 3, fails; the error
of the call is prefixed `at seqno 2`, the seqno of the last accepted link, not 3. -/
theorem error_seqno_is_not_of_failing_link :
    (AddChainLinks Demo.env Demo.afterRoot Demo.collidingBatch).2
      = some (.atSeqno 2 (.wrap "team sigchain inner link"
          (.wrap "adding new subteam" (.msg "multiple subteams named")))) ∧
    Demo.collidingBatch = [Demo.link 2 "o2s" "subX" "a"] ++ [Demo.link 3 "o3s" "subY" "a"] ∧
    addChainLinksLoop Demo.env Demo.afterRoot false Demo.afterRoot.storedState
      [Demo.link 2 "o2s" "subX" "a"] = .ok (some Demo.subXState) ∧
    Demo.subXState.GetLatestSeqno = 2 ∧
    addChainLinkCommon Demo.env Demo.afterRoot (some Demo.subXState)
      (Demo.link 3 "o3s" "subY" "a") false
      = .error (.wrap "team sigchain inner link"
          (.wrap "adding new subteam" (.msg "multiple subteams named"))) ∧
    (Demo.link 3 "o3s" "subY" "a").Seqno = 3 ∧
    (AddChainLinks Demo.env Demo.afterRoot Demo.collidingBatch).2
      ≠ some (.atSeqno (Demo.link 3 "o3s" "subY" "a").Seqno (.wrap "team sigchain inner link"
          (.wrap "adding new subteam" (.msg "multiple subteams named")))) := by
  refine ⟨by decide, by decide, by decide, by decide, by decide, by decide, by decide⟩

end Teams

namespace Teams

open TeamSigChainPlayer

/-! ## The context -/

/-- C25 as the code has it: `AddChainLinks` hands its context down and never reads it, so the
outcome of a call, error and player, is the same for every context, cancelled or not, and is
decided by the player and the links alone. -/
theorem context_is_not_consulted (env : Env) (ctx ctx' : Context) (t : TeamSigChainPlayer)
    (links : List SCChainLink) :
    AddChainLinksCtx env ctx t links = AddChainLinksCtx env ctx' t links ∧
    AddChainLinksCtx env ctx t links = AddChainLinks env t links :=
  ⟨rfl, rfl⟩

/-- Counterexample for C25: with a context that is cancelled between the two links of a batch,
the call on the player that holds the root link returns no error and stores the state after both
links. -/
theorem cancelled_batch_is_applied :
    Demo.cancelledAfterFirst.cancelledBefore 0 = false ∧
    Demo.cancelledAfterFirst.cancelledBefore 1 = true ∧
    (AddChainLinksCtx Demo.env Demo.cancelledAfterFirst Demo.afterRoot Demo.subteamsBatch).2
      = none ∧
    (AddChainLinksCtx Demo.env Demo.cancelledAfterFirst Demo.afterRoot
      Demo.subteamsBatch).1.storedState = some Demo.subteamsState ∧
    (AddChainLinksCtx Demo.env Demo.cancelledAfterFirst Demo.afterRoot
      Demo.subteamsBatch).1.storedState ≠ Demo.afterRoot.storedState := by
  refine ⟨by decide, by decide, by decide, by decide, by decide⟩

end Teams

namespace Teams

/-! ## Parsing a user version -/

theorem splitOnChar_length (sep : Char) (cs : List Char) :
    (splitOnChar sep cs).length = cs.count sep + 1 := by
  induction cs with
  | nil => rfl
  | cons c cs ih =>
    by_cases hc : c = sep
    · subst hc
      simp [splitOnChar, ih]
    · have hcount : (c :: cs).count sep = cs.count sep := by
        rw [List.count_cons]
        simp [hc]
      rw [hcount, ← ih]
      cases hs : splitOnChar sep cs with
      | nil =>
        rw [hs] at ih
        simp at ih
      | cons piece pieces =>
        simp [splitOnChar, hc, hs]

theorem splitOnChar_of_not_mem (sep : Char) (cs : List Char) (h : sep ∉ cs) :
    splitOnChar sep cs = [cs] := by
  induction cs with
  | nil => rfl
  | cons c cs ih =>
    have hc : c ≠ sep := fun e => h (by simp [e])
    have hcs : sep ∉ cs := fun e => h (List.mem_cons_of_mem _ e)
    simp [splitOnChar, hc, ih hcs]

theorem splitOnChar_append (sep : Char) (a b : List Char) (h : sep ∉ a) :
    splitOnChar sep (a ++ sep :: b) = a :: splitOnChar sep b := by
  induction a with
  | nil => simp [splitOnChar]
  | cons c a ih =>
    have hc : c ≠ sep := fun e => h (by simp [e])
    have ha : sep ∉ a := fun e => h (List.mem_cons_of_mem _ e)
    simp [splitOnChar, hc, ih ha]

theorem ParseUserVersion_two_parts (uidFromHex : String → Option UID) (a b : String)
    (ha : '%' ∉ a.data) (hb : '%' ∉ b.data) :
    ParseUserVersion uidFromHex (a ++ "%" ++ b) =
      (match uidFromHex a with
        | none => .error (.msg "invalid uid")
        | some uid =>
          match ParseInt64 b with
          | none => .error (.msg "invalid eldest seqno")
          | some eldestSeqno => .ok { Uid := uid, EldestSeqno := eldestSeqno }) := by
  have hd : (a ++ "%" ++ b).data = a.data ++ '%' :: b.data := by
    simp [String.data_append]
  unfold ParseUserVersion
  rw [hd, splitOnChar_append _ _ _ ha, splitOnChar_of_not_mem _ _ hb]
  rfl

theorem ParseUserVersion_one_part (uidFromHex : String → Option UID) (s : String)
    (hs : '%' ∉ s.data) :
    ParseUserVersion uidFromHex s =
      (match uidFromHex s with
        | none => .error (.msg "invalid uid")
        | some uid => .ok { Uid := uid, EldestSeqno := 1 }) := by
  unfold ParseUserVersion
  rw [splitOnChar_of_not_mem _ _ hs]
  have h1 : ParseInt64 "1" = some 1 := by decide
  simp only [List.map, List.length_singleton, if_true, List.singleton_append, List.length_cons,
    List.length_nil, ne_eq, not_true_eq_false, if_false, h1]

theorem ParseUserVersion_many_parts (uidFromHex : String → Option UID) (s : String)
    (hs : 2 ≤ s.data.count '%') :
    ParseUserVersion uidFromHex s = .error (.msg "invalid user version") := by
  have hl := splitOnChar_length '%' s.data
  unfold ParseUserVersion
  have h1 : ¬ ((splitOnChar '%' s.data).map String.mk).length = 1 := by
    rw [List.length_map]; omega
  have h2 : ((splitOnChar '%' s.data).map String.mk).length ≠ 2 := by
    rw [List.length_map]; omega
  simp only [if_neg h1, if_pos h2]

/-- C23: `ParseUserVersion` on a string without `%` gives what it gives on the string followed
by `%1`: it succeeds iff the string is a valid hex UID, with that UID and eldest seqno 1.  On a
string `a%b` with one `%` it fails when `a` is not a valid hex UID and when `b` is not a base-10
64-bit integer (the empty string is none), and else returns `(uid, n)`.  On a string with more
than one `%` it fails. -/
theorem parse_user_version_cases (uidFromHex : String → Option UID) :
    (∀ s : String, '%' ∉ s.data →
      ParseUserVersion uidFromHex s = ParseUserVersion uidFromHex (s ++ "%1") ∧
      ((∃ uv, ParseUserVersion uidFromHex s = .ok uv) ↔ ∃ uid, uidFromHex s = some uid) ∧
      (∀ uv, ParseUserVersion uidFromHex s = .ok uv →
        uidFromHex s = some uv.Uid ∧ uv.EldestSeqno = 1)) ∧
    (∀ a b : String, '%' ∉ a.data → '%' ∉ b.data →
      (uidFromHex a = none → ∃ e, ParseUserVersion uidFromHex (a ++ "%" ++ b) = .error e) ∧
      (ParseInt64 b = none → ∃ e, ParseUserVersion uidFromHex (a ++ "%" ++ b) = .error e) ∧
      (∀ uid n, uidFromHex a = some uid → ParseInt64 b = some n →
        ParseUserVersion uidFromHex (a ++ "%" ++ b) = .ok { Uid := uid, EldestSeqno := n })) ∧
    (∀ s : String, 2 ≤ s.data.count '%' → ∃ e, ParseUserVersion uidFromHex s = .error e) ∧
    ParseInt64 "" = none := by
  refine ⟨?_, ?_, ?_, by decide⟩
  · intro s hs
    have h1 := ParseUserVersion_one_part uidFromHex s hs
    have h2 := ParseUserVersion_two_parts uidFromHex s "1" hs (by decide)
    have h3 : s ++ "%" ++ "1" = s ++ "%1" := by
      rw [String.append_assoc]
      rfl
    have h4 : ParseInt64 "1" = some 1 := by decide
    rw [h3, h4] at h2
    refine ⟨?_, ?_, ?_⟩
    · rw [h1, h2]
    · rw [h1]
      cases uidFromHex s with
      | none => simp
      | some uid => simp
    · intro uv huv
      rw [h1] at huv
      cases hu : uidFromHex s with
      | none =>
        rw [hu] at huv
        cases huv
      | some uid =>
        rw [hu] at huv
        cases huv
        exact ⟨rfl, rfl⟩
  · intro a b ha hb
    have h := ParseUserVersion_two_parts uidFromHex a b ha hb
    refine ⟨?_, ?_, ?_⟩
    · intro hu
      rw [hu] at h
      exact ⟨_, h⟩
    · intro hn
      rw [hn] at h
      cases hu : uidFromHex a with
      | none =>
        rw [hu] at h
        exact ⟨_, h⟩
      | some uid =>
        rw [hu] at h
        exact ⟨_, h⟩
    · intro uid n hu hn
      rw [hu, hn] at h
      exact h
  · intro s hs
    exact ⟨_, ParseUserVersion_many_parts uidFromHex s hs⟩

/-- Witness for C23: with the stand-in `Demo.uidFromHex`, `ab` parses as `(ab, 1)`, `ab%12` as
`(ab, 12)`, and `ab%`, `xy%1` and `ab%1%2` do not parse. -/
theorem parse_user_version_cases_witness :
    ParseUserVersion Demo.uidFromHex "ab" = ParseUserVersion Demo.uidFromHex ("ab" ++ "%1") ∧
    ParseUserVersion Demo.uidFromHex "ab" = .ok { Uid := "ab", EldestSeqno := 1 } ∧
    ParseUserVersion Demo.uidFromHex ("ab" ++ "%" ++ "12")
      = .ok { Uid := "ab", EldestSeqno := 12 } ∧
    (∃ e, ParseUserVersion Demo.uidFromHex ("ab" ++ "%" ++ "") = .error e) ∧
    (∃ e, ParseUserVersion Demo.uidFromHex ("xy" ++ "%" ++ "1") = .error e) ∧
    (∃ e, ParseUserVersion Demo.uidFromHex "ab%1%2" = .error e) :=
  ⟨((parse_user_version_cases Demo.uidFromHex).1 "ab" (by decide)).1,
    by decide,
    ((parse_user_version_cases Demo.uidFromHex).2.1 "ab" "12" (by decide) (by decide)).2.2
      "ab" 12 (by decide) (by decide),
    ((parse_user_version_cases Demo.uidFromHex).2.1 "ab" "" (by decide) (by decide)).2.1
      (by decide),
    ((parse_user_version_cases Demo.uidFromHex).2.1 "xy" "1" (by decide) (by decide)).1
      (by decide),
    (parse_user_version_cases Demo.uidFromHex).2.2.1 "ab%1%2" (by decide)⟩

end Teams

namespace Teams

open TeamSigChainPlayer

/-! ## `informSubteam` -/

theorem checkSubteamCollision_some {s : TeamSigChainState} {id : TeamID} {name : TeamName}
    {seqno : Seqno} (h : collidesWithOther s id name seqno) :
    s.checkSubteamCollision id name seqno = some (.msg "multiple subteams named") := by
  obtain ⟨other, points, hget, hne, hEq⟩ := h
  unfold TeamSigChainState.checkSubteamCollision
  have hany : s.SubteamLog.entries.any
      (fun e => !(TeamID.Equal e.1 id) && (TeamSigChainState.otherNameAt e.2 seqno).Eq name)
      = true := by
    rw [List.any_eq_true]
    refine ⟨(other, points), (GoMap.mem_entries_iff s.SubteamLog other points).2 hget, ?_⟩
    simp [TeamID.Equal, hne, hEq]
  rw [if_pos hany]

theorem checkSubteamCollision_of_not {s : TeamSigChainState} {id : TeamID} {name : TeamName}
    {seqno : Seqno} (h : ¬ collidesWithOther s id name seqno) :
    s.checkSubteamCollision id name seqno = none := by
  unfold TeamSigChainState.checkSubteamCollision
  by_cases hany : s.SubteamLog.entries.any
      (fun e => !(TeamID.Equal e.1 id) && (TeamSigChainState.otherNameAt e.2 seqno).Eq name) = true
  · exfalso
    apply h
    rw [List.any_eq_true] at hany
    obtain ⟨e, hmem, he⟩ := hany
    simp only [Bool.and_eq_true, Bool.not_eq_true', TeamID.Equal, decide_eq_false_iff_not] at he
    exact ⟨e.1, e.2, (GoMap.mem_entries_iff s.SubteamLog e.1 e.2).1 hmem, he.1, he.2⟩
  · rw [if_neg hany]

theorem otherNameAt_eq (points : List SubteamLogPoint) (seqno : Seqno) :
    TeamSigChainState.otherNameAt points seqno
      = (((points.filter (fun point => decide (point.Seqno < seqno))).getLast?).map
          (fun point => point.Name)).getD { Parts := [] } := by
  unfold TeamSigChainState.otherNameAt
  exact otherNameAt_foldl points seqno _

theorem zero_name_eq (name : TeamName) :
    (TeamName.Eq { Parts := [] } name = true) ↔ name.Parts = [] := by
  unfold TeamName.Eq
  simp only [List.map_nil, decide_eq_true_eq]
  constructor
  · intro h
    exact List.map_eq_nil_iff.mp h.symm
  · intro h
    rw [h]
    rfl

theorem collidesWithLastBelow_iff (s : TeamSigChainState) (id : TeamID) (name : TeamName)
    (seqno : Seqno) (hname : name.Parts ≠ []) :
    collidesWithLastBelow s id name seqno = true ↔ collidesWithOther s id name seqno := by
  unfold collidesWithLastBelow collidesWithOther
  rw [List.any_eq_true]
  constructor
  · rintro ⟨e, hmem, he⟩
    simp only [Bool.and_eq_true, decide_eq_true_eq] at he
    refine ⟨e.1, e.2, (GoMap.mem_entries_iff s.SubteamLog e.1 e.2).1 hmem, he.1, ?_⟩
    rw [otherNameAt_eq]
    cases hl : (e.2.filter (fun point => decide (point.Seqno < seqno))).getLast? with
    | none =>
      rw [hl] at he
      simp at he
    | some point =>
      rw [hl] at he
      simpa using he.2
  · rintro ⟨other, points, hget, hne, hEq⟩
    refine ⟨(other, points), (GoMap.mem_entries_iff s.SubteamLog other points).2 hget, ?_⟩
    simp only [Bool.and_eq_true, decide_eq_true_eq]
    refine ⟨hne, ?_⟩
    rw [otherNameAt_eq] at hEq
    cases hl : (points.filter (fun point => decide (point.Seqno < seqno))).getLast? with
    | none =>
      rw [hl] at hEq
      simp only [Option.map_none', Option.getD_none] at hEq
      exact absurd ((zero_name_eq name).1 hEq) hname
    | some point =>
      rw [hl] at hEq
      simpa using hEq

theorem PickFirstError_mem (l : List (Option Err)) (e : Err) (h : PickFirstError l = some e) :
    some e ∈ l := by
  induction l with
  | nil => cases h
  | cons a rest ih =>
    cases a with
    | some e' =>
      simp only [PickFirstError, Option.some.injEq] at h
      subst h
      simp
    | none =>
      simp only [PickFirstError] at h
      exact List.mem_cons_of_mem _ (ih h)

theorem hasPrevState_tag (prevState : Option TeamSigChainState) (has : Bool) (tag : String)
    (e : Err) : hasPrevState prevState has ≠ some (.wrap tag e) := by
  unfold hasPrevState
  intro h
  repeat' split at h
  all_goals cases h

theorem hasGeneric_tag (hasExpected hasReal : Bool) (attr : String) (e : Err) :
    hasGeneric hasExpected hasReal attr ≠ some (.wrap "adding new subteam" e) := by
  unfold hasGeneric
  intro h
  repeat' split at h
  all_goals
    first
    | cases h
    | (injection h with h; injection h with h1 h2; exact absurd h1 (by decide))

/-- The name the `team.new_subteam` case hands to `informSubteam` has at least one part: the
call is made after `LastPart` of the name was taken, both when the call succeeds and when it
fails. -/
theorem addInnerLinkNewSubteam_name {env : Env} {t : TeamSigChainPlayer}
    {prevState : Option TeamSigChainState} {link : SCChainLink} {oRes : checkOuterLinkResult}
    {team : SCTeamSection} :
    (∀ iRes, addInnerLinkNewSubteam env t prevState link oRes team = .ok iRes →
      ∃ ps subteamID subteamName, prevState = some ps ∧ subteamName.Parts ≠ [] ∧
        ps.informSubteam subteamID subteamName oRes.outerLink.Seqno = .ok iRes.newState) ∧
    (∀ e, addInnerLinkNewSubteam env t prevState link oRes team
        = .error (.wrap "adding new subteam" e) →
      ∃ ps subteamID subteamName, prevState = some ps ∧ subteamName.Parts ≠ [] ∧
        ps.informSubteam subteamID subteamName oRes.outerLink.Seqno = .error e) := by
  have hparts : ∀ (name : TeamName) (lastPart : String), name.LastPart = some lastPart →
      name.Parts ≠ [] := by
    intro name lastPart hl e
    unfold TeamName.LastPart at hl
    rw [e] at hl
    cases hl
  constructor
  · intro iRes h
    obtain ⟨_, _, _, _, ps, subteam, subteamID, subteamName, lastPart, expected, hps, _, _, _, _,
      hlast, _, _, hinf⟩ := addInnerLinkNewSubteam_ok h
    exact ⟨ps, subteamID, subteamName, hps, hparts _ _ hlast, hinf⟩
  · intro e h
    unfold addInnerLinkNewSubteam at h
    generalize hpick : PickFirstError _ = pf at h
    cases pf with
    | some e' =>
      exfalso
      simp only [Except.error.injEq] at h
      subst h
      have hmem := PickFirstError_mem _ _ hpick
      simp only [List.mem_cons, List.mem_singleton, List.not_mem_nil, or_false] at hmem
      rcases hmem with hm | hm | hm | hm | hm | hm
      · exact hasPrevState_tag _ _ _ _ hm.symm
      all_goals exact hasGeneric_tag _ _ _ _ hm.symm
    | none =>
      simp only at h
      cases hps : prevState with
      | none =>
        rw [hps] at h
        cases h
      | some ps =>
        rw [hps] at h
        cases hsub : team.Subteam with
        | none =>
          rw [hsub] at h
          cases h
        | some subteam =>
          simp only [hsub] at h
          cases hid : env.teamIDFromString subteam.ID with
          | none => simp only [hid] at h; cases h
          | some subteamID =>
            simp only [hid] at h
            by_cases hst : (!env.teamIDIsSubTeam subteamID) = true
            · rw [if_pos hst] at h
              cases h
            rw [if_neg hst] at h
            cases hname : env.teamNameFromString subteam.Name with
            | none => simp only [hname] at h; cases h
            | some subteamName =>
              simp only [hname] at h
              cases hlast : subteamName.LastPart with
              | none => simp only [hlast] at h; cases h
              | some lastPart =>
                simp only [hlast] at h
                cases happ : ps.GetName.Append env lastPart with
                | error err =>
                  simp only [happ, Except.error.injEq, Err.wrap.injEq] at h
                  exact absurd h.1 (by decide)
                | ok expected =>
                  simp only [happ] at h
                  by_cases heq : (!expected.Eq subteamName) = true
                  · rw [if_pos heq] at h
                    cases h
                  rw [if_neg heq] at h
                  simp only [TeamSigChainState.DeepCopy] at h
                  cases hinf : ps.informSubteam subteamID subteamName oRes.outerLink.Seqno with
                  | ok ns => simp only [hinf] at h; cases h
                  | error err =>
                    simp only [hinf, Except.error.injEq, Err.wrap.injEq, true_and] at h
                    subst h
                    exact ⟨ps, subteamID, subteamName, rfl, hparts _ _ hlast, hinf⟩

/-- C27: for a name with at least one part, as is every name the `team.new_subteam` case hands
to it, `informSubteam(id, name, seqno)` returns an error, and so no new state, if the last
recorded point of `id` has a seqno at or above `seqno`, or if for some other subteam the name of
its last point below `seqno` equals `name`; otherwise it returns the state in which exactly the
point `(name, seqno)` is appended to the log of `id` and the log of every other subteam is as
before. -/
theorem inform_subteam_cases (s : TeamSigChainState) (id : TeamID) (name : TeamName)
    (seqno : Seqno) (hname : name.Parts ≠ []) :
    (lastPointNotBelow s id seqno = true ∨ collidesWithLastBelow s id name seqno = true →
      ∃ e, s.informSubteam id name seqno = .error e) ∧
    (¬ (lastPointNotBelow s id seqno = true ∨ collidesWithLastBelow s id name seqno = true) →
      ∃ s', s.informSubteam id name seqno = .ok s' ∧
        s' = { s with SubteamLog :=
                s.SubteamLog.set id (s.subteamLogOf id ++ [{ Name := name, Seqno := seqno }]) } ∧
        s'.subteamLogOf id = s.subteamLogOf id ++ [{ Name := name, Seqno := seqno }] ∧
        ∀ id' : TeamID, id' ≠ id →
          s'.SubteamLog.get? id' = s.SubteamLog.get? id' ∧
          s'.subteamLogOf id' = s.subteamLogOf id') := by
  rw [collidesWithLastBelow_iff s id name seqno hname]
  refine ⟨?_, ?_⟩
  · intro h
    unfold TeamSigChainState.informSubteam
    cases hlast : s.getLastSubteamPoint id with
    | none =>
      rcases h with h | h
      · unfold lastPointNotBelow at h
        rw [hlast] at h
        simp at h
      · simp only [checkSubteamCollision_some h]
        exact ⟨_, rfl⟩
    | some lastPoint =>
      simp only []
      by_cases h1 : lastPoint.Seqno = seqno
      · rw [if_pos h1]
        exact ⟨_, rfl⟩
      rw [if_neg h1]
      by_cases h2 : seqno < lastPoint.Seqno
      · rw [if_pos h2]
        exact ⟨_, rfl⟩
      rw [if_neg h2]
      rcases h with h | h
      · unfold lastPointNotBelow at h
        rw [hlast] at h
        simp only [Option.any_some, decide_eq_true_eq] at h
        exfalso
        simp only [Seqno] at *
        omega
      · simp only [checkSubteamCollision_some h]
        exact ⟨_, rfl⟩
  · intro h
    have hA : ¬ lastPointNotBelow s id seqno = true := fun e => h (Or.inl e)
    have hB : ¬ collidesWithOther s id name seqno := fun e => h (Or.inr e)
    have hc := checkSubteamCollision_of_not hB
    refine ⟨_, ?_, rfl, ?_, ?_⟩
    · unfold TeamSigChainState.informSubteam
      cases hlast : s.getLastSubteamPoint id with
      | none => simp only [hc]
      | some lastPoint =>
        unfold lastPointNotBelow at hA
        rw [hlast] at hA
        simp only [Option.any_some, decide_eq_true_eq] at hA
        have h1 : ¬ lastPoint.Seqno = seqno := by
          simp only [Seqno] at *
          omega
        have h2 : ¬ seqno < lastPoint.Seqno := by
          simp only [Seqno] at *
          omega
        simp only [if_neg h1, if_neg h2, hc]
    · rw [subteamLogOf_set, if_pos rfl]
    · intro id' hne
      refine ⟨GoMap.get?_set_ne _ _ _ _ hne, ?_⟩
      rw [subteamLogOf_set, if_neg hne]

/-- Witness for C27: in the state with subteams `s-x` (since seqno 2) and `s-y` (since seqno 3),
a new point for `s-x` at seqno 2 is refused, the name of `s-y` is refused for `s-x` at seqno 4,
and a fresh name is appended at seqno 4. -/
theorem inform_subteam_cases_witness :
    (∃ e, Demo.subteamsState.informSubteam "s-x" { Parts := ["acme", "dev"] } 2 = .error e) ∧
    (∃ e, Demo.subteamsState.informSubteam "s-x" { Parts := ["acme", "ops"] } 4 = .error e) ∧
    (∃ s', Demo.subteamsState.informSubteam "s-x" { Parts := ["acme", "dev"] } 4 = .ok s' ∧
      s'.subteamLogOf "s-x"
        = Demo.subteamsState.subteamLogOf "s-x" ++
          [{ Name := { Parts := ["acme", "dev"] }, Seqno := 4 }]) :=
  ⟨(inform_subteam_cases Demo.subteamsState "s-x" { Parts := ["acme", "dev"] } 2
      (by decide)).1 (Or.inl (by decide)),
    (inform_subteam_cases Demo.subteamsState "s-x" { Parts := ["acme", "ops"] } 4
      (by decide)).1 (Or.inr (by decide)),
    match (inform_subteam_cases Demo.subteamsState "s-x" { Parts := ["acme", "dev"] } 4
      (by decide)).2 (by decide) with
    | ⟨s', hs, _, hlog, _⟩ => ⟨s', hs, hlog⟩⟩

end Teams

namespace Teams

open TeamSigChainPlayer

/-! ## The result of the member sanity check -/

theorem allAssignments_fst (members : SCTeamMembers) :
    (allAssignments members).map Prod.fst = members.allListed := by
  unfold allAssignments SCTeamMembers.allListed
  simp [List.map_append, Function.comp_def]

theorem allAssignments_filter (members : SCTeamMembers) (r : TeamRole) :
    ((allAssignments members).filter (fun a => decide (a.2 = r))).map Prod.fst
      = (members.listOf r).getD [] := by
  unfold allAssignments
  cases r <;>
    simp [SCTeamMembers.listOf, List.filter_append, List.filter_map, Function.comp_def]

theorem presentRoles_get? (members : SCTeamMembers) (r : TeamRole) :
    (presentRoles members).get? r = (members.listOf r).map (fun _ => []) := by
  obtain ⟨o, a, w, rd, n⟩ := members
  cases o <;> cases a <;> cases w <;> cases rd <;> cases n <;> cases r <;> rfl

theorem sanityCheckLoop_get? (all : List (UserVersion × TeamRole)) :
    ∀ (seen : GoMap UserVersion Bool) (res res' : GoMap TeamRole (List UserVersion)),
      sanityCheckLoop all seen res = .ok res' →
      ∀ r : TeamRole, res'.get? r =
        if all.filter (fun a => decide (a.2 = r)) = [] then res.get? r
        else some ((res.get? r).getD []
          ++ (all.filter (fun a => decide (a.2 = r))).map Prod.fst) := by
  induction all with
  | nil =>
    intro seen res res' h r
    simp only [sanityCheckLoop, Except.ok.injEq] at h
    subst h
    simp
  | cons a rest ih =>
    intro seen res res' h r
    obtain ⟨uv, role⟩ := a
    simp only [sanityCheckLoop] at h
    by_cases hseen : (seen.get? uv).getD false = true
    · rw [if_pos hseen] at h
      cases h
    rw [if_neg hseen] at h
    rw [ih _ _ _ h r, GoMap.get?_set]
    by_cases hrole : r = role
    · subst hrole
      by_cases hrest : rest.filter (fun a => decide (a.2 = r)) = []
      · simp [hrest]
      · simp [hrest]
    · have hrole' : ¬ role = r := fun e => hrole e.symm
      have hf : List.filter (fun a : UserVersion × TeamRole => decide (a.2 = r))
          ((uv, role) :: rest) = List.filter (fun a => decide (a.2 = r)) rest := by
        rw [List.filter_cons]
        simp [hrole']
      rw [hf, if_neg hrole]

theorem sanityCheckLoop_of_nodup (all : List (UserVersion × TeamRole)) :
    ∀ (seen : GoMap UserVersion Bool) (res : GoMap TeamRole (List UserVersion)),
      (all.map Prod.fst).Nodup →
      (∀ u ∈ all.map Prod.fst, (seen.get? u).getD false = false) →
      ∃ res', sanityCheckLoop all seen res = .ok res' := by
  induction all with
  | nil =>
    intro seen res _ _
    exact ⟨res, rfl⟩
  | cons a rest ih =>
    intro seen res hnd hs
    obtain ⟨uv, role⟩ := a
    simp only [List.map_cons, List.nodup_cons] at hnd
    have hseen : ¬ (seen.get? uv).getD false = true := by
      rw [hs uv (by simp)]
      simp
    simp only [sanityCheckLoop]
    rw [if_neg hseen]
    apply ih _ _ hnd.2
    intro u hu
    have hne : u ≠ uv := fun e => hnd.1 (e ▸ hu)
    rw [GoMap.get?_set_ne _ _ _ _ hne]
    exact hs u (List.mem_cons_of_mem _ hu)

theorem sanityCheckMembers_get? {t : TeamSigChainPlayer} {members : SCTeamMembers}
    {requireOwners allowRemovals : Bool} {roleUpdates : GoMap TeamRole (List UserVersion)}
    (h : t.sanityCheckMembers members requireOwners allowRemovals = .ok roleUpdates)
    (r : TeamRole) : roleUpdates.get? r = members.listOf r := by
  unfold sanityCheckMembers at h
  by_cases h1 : (requireOwners && members.Owners.isNone) = true
  · rw [if_pos h1] at h
    cases h
  rw [if_neg h1] at h
  by_cases h2 : (requireOwners && decide ((members.Owners.getD []).length < 1)) = true
  · rw [if_pos h2] at h
    cases h
  rw [if_neg h2] at h
  by_cases h3 : (!allowRemovals &&
      (members.None.isSome && decide ((members.None.getD []).length ≠ 0))) = true
  · rw [if_pos h3] at h
    cases h
  rw [if_neg h3] at h
  have hget := sanityCheckLoop_get? _ _ _ _ h r
  have hf := allAssignments_filter members r
  rw [hget, presentRoles_getD, presentRoles_get?, hf]
  cases hl : members.listOf r with
  | none =>
    rw [hl] at hf
    have : (allAssignments members).filter (fun a => decide (a.2 = r)) = [] :=
      List.map_eq_nil_iff.mp hf
    rw [if_pos this]
    rfl
  | some l =>
    rw [hl] at hf
    cases l with
    | nil =>
      have : (allAssignments members).filter (fun a => decide (a.2 = r)) = [] :=
        List.map_eq_nil_iff.mp hf
      rw [if_pos this]
      rfl
    | cons a l =>
      have : ¬ (allAssignments members).filter (fun a => decide (a.2 = r)) = [] := by
        intro e
        rw [e] at hf
        simp at hf
      rw [if_neg this]
      simp

theorem ownersMissing_iff (members : SCTeamMembers) (requireOwners : Bool) :
    ((requireOwners && members.Owners.isNone) = true ∨
      (requireOwners && decide ((members.Owners.getD []).length < 1)) = true) ↔
    (requireOwners = true ∧ (members.Owners = none ∨ members.Owners = some [])) := by
  cases requireOwners with
  | false => simp
  | true =>
    cases members.Owners with
    | none => simp
    | some l =>
      cases l with
      | nil => simp
      | cons a l => simp

theorem removalsPresent_iff (members : SCTeamMembers) (allowRemovals : Bool) :
    (!allowRemovals && (members.None.isSome && decide ((members.None.getD []).length ≠ 0)))
      = true ↔
    (allowRemovals = false ∧ ∃ l, members.None = some l ∧ l ≠ []) := by
  cases allowRemovals with
  | true => simp
  | false =>
    cases members.None with
    | none => simp
    | some l =>
      cases l with
      | nil => simp
      | cons a l => simp

/-- C28: `sanityCheckMembers(members, requireOwners, allowRemovals)` returns an error iff
`requireOwners` holds and the owners list is absent or empty, or `allowRemovals` does not hold
and the none list is present and not empty, or some user version occurs more than once in the
concatenation of the owners, admins, writers, readers and none lists.  On success the result
map holds under every role exactly the list the input has for the role, in input order: the
keys are the roles whose list is present, an empty list giving a key without users. -/
theorem sanity_check_members_cases (t : TeamSigChainPlayer) (members : SCTeamMembers)
    (requireOwners allowRemovals : Bool) :
    ((∃ e, t.sanityCheckMembers members requireOwners allowRemovals = .error e) ↔
      ((requireOwners = true ∧ (members.Owners = none ∨ members.Owners = some [])) ∨
        (allowRemovals = false ∧ ∃ l, members.None = some l ∧ l ≠ []) ∨
        ¬ members.allListed.Nodup)) ∧
    (∀ res, t.sanityCheckMembers members requireOwners allowRemovals = .ok res →
      (∀ r : TeamRole, res.get? r = members.listOf r) ∧
      (∀ r : TeamRole, r ∈ res.keys ↔ (members.listOf r).isSome = true)) := by
  constructor
  · rw [← ownersMissing_iff, ← removalsPresent_iff, ← allAssignments_fst]
    unfold sanityCheckMembers
    by_cases h1 : (requireOwners && members.Owners.isNone) = true
    · rw [if_pos h1]
      exact ⟨fun _ => Or.inl (Or.inl h1), fun _ => ⟨_, rfl⟩⟩
    rw [if_neg h1]
    by_cases h2 : (requireOwners && decide ((members.Owners.getD []).length < 1)) = true
    · rw [if_pos h2]
      exact ⟨fun _ => Or.inl (Or.inr h2), fun _ => ⟨_, rfl⟩⟩
    rw [if_neg h2]
    by_cases h3 : (!allowRemovals &&
        (members.None.isSome && decide ((members.None.getD []).length ≠ 0))) = true
    · rw [if_pos h3]
      exact ⟨fun _ => Or.inr (Or.inl h3), fun _ => ⟨_, rfl⟩⟩
    rw [if_neg h3]
    cases hloop : sanityCheckLoop (allAssignments members) GoMap.empty (presentRoles members) with
    | error e =>
      refine ⟨fun _ => Or.inr (Or.inr ?_), fun _ => ⟨_, rfl⟩⟩
      intro hnd
      obtain ⟨res', hres⟩ := sanityCheckLoop_of_nodup (allAssignments members) GoMap.empty
        (presentRoles members) hnd (fun u _ => rfl)
      rw [hloop] at hres
      cases hres
    | ok res =>
      constructor
      · rintro ⟨e, he⟩
        cases he
      · intro hor
        exfalso
        rcases hor with (hor | hor) | hor | hor
        · exact h1 hor
        · exact h2 hor
        · exact h3 hor
        · exact hor (sanityCheckLoop_ok _ _ _ _ hloop).1
  · intro res hres
    have hget := fun r => sanityCheckMembers_get? hres r
    refine ⟨hget, ?_⟩
    intro r
    rw [GoMap.mem_keys_iff, hget r]

/-- Witness for C28: the members section of the demo membership link (admins `[b]`, writers empty,
readers `[c]`) is refused when owners are required, a section that lists `a` as owner and as
reader is refused, and without the requirement the first section passes and gives the key
`WRITER` without users and no key `OWNER`. -/
theorem sanity_check_members_cases_witness :
    (∃ e, Demo.fresh.sanityCheckMembers
      { Demo.noMembers with Admins := some [Demo.B], Writers := some [], Readers := some [Demo.C] }
      true false = .error e) ∧
    (∃ e, Demo.fresh.sanityCheckMembers
      { Demo.noMembers with Owners := some [Demo.A], Readers := some [Demo.A] }
      true false = .error e) ∧
    Demo.fresh.sanityCheckMembers
      { Demo.noMembers with Admins := some [Demo.B], Writers := some [], Readers := some [Demo.C] }
      false true
      = .ok ((((GoMap.empty : GoMap TeamRole (List UserVersion)).set TeamRole.ADMIN
          [Demo.B]).set TeamRole.WRITER []).set TeamRole.READER [Demo.C]) ∧
    ((((GoMap.empty : GoMap TeamRole (List UserVersion)).set TeamRole.ADMIN
      [Demo.B]).set TeamRole.WRITER []).set TeamRole.READER [Demo.C]).get? TeamRole.WRITER
      = some [] ∧
    ((((GoMap.empty : GoMap TeamRole (List UserVersion)).set TeamRole.ADMIN
      [Demo.B]).set TeamRole.WRITER []).set TeamRole.READER [Demo.C]).get? TeamRole.OWNER
      = none :=
  ⟨(sanity_check_members_cases Demo.fresh
      { Demo.noMembers with Admins := some [Demo.B], Writers := some [], Readers := some [Demo.C] }
      true false).1.2 (Or.inl ⟨rfl, Or.inl rfl⟩),
    (sanity_check_members_cases Demo.fresh
      { Demo.noMembers with Owners := some [Demo.A], Readers := some [Demo.A] }
      true false).1.2 (Or.inr (Or.inr (by decide))),
    by decide,
    ((sanity_check_members_cases Demo.fresh
      { Demo.noMembers with Admins := some [Demo.B], Writers := some [], Readers := some [Demo.C] }
      false true).2 _ (by decide)).1 TeamRole.WRITER,
    ((sanity_check_members_cases Demo.fresh
      { Demo.noMembers with Admins := some [Demo.B], Writers := some [], Readers := some [Demo.C] }
      false true).2 _ (by decide)).1 TeamRole.OWNER⟩

end Teams

namespace Teams

open TeamSigChainPlayer

/-! ## Order of the membership updates -/

theorem get?_inform (s : TeamSigChainState) (u u' : UserVersion) (role : TeamRole)
    (seqno : Seqno) :
    (s.inform u role seqno).UserLog.get? u' =
      if u' = u ∧ s.getUserRole u ≠ role then
        some (s.userLogOf u ++ [{ Role := role, Seqno := seqno }])
      else s.UserLog.get? u' := by
  unfold TeamSigChainState.inform
  by_cases hr : s.getUserRole u = role
  · simp [hr]
  · simp only [hr, if_false, ne_eq, not_false_eq_true, and_true]
    rw [GoMap.get?_set]

theorem informAll_cons (s : TeamSigChainState) (a : UserVersion × TeamRole)
    (rest : List (UserVersion × TeamRole)) (seqno : Seqno) :
    informAll s (a :: rest) seqno = informAll (s.inform a.1 a.2 seqno) rest seqno :=
  rfl

theorem informAll_eq (l : List (UserVersion × TeamRole)) (seqno : Seqno) :
    ∀ s : TeamSigChainState,
      informAll s l seqno = { s with UserLog := (informAll s l seqno).UserLog } := by
  induction l with
  | nil => intro s; rfl
  | cons a rest ih =>
    intro s
    rw [informAll_cons, ih (s.inform a.1 a.2 seqno)]
    generalize (informAll (s.inform a.1 a.2 seqno) rest seqno).UserLog = ul
    rw [inform_eq]

theorem informAll_get?_not_mem (l : List (UserVersion × TeamRole)) (seqno : Seqno)
    (u : UserVersion) :
    ∀ s : TeamSigChainState, u ∉ l.map Prod.fst →
      (informAll s l seqno).UserLog.get? u = s.UserLog.get? u := by
  induction l with
  | nil => intro s _; rfl
  | cons a rest ih =>
    intro s hu
    simp only [List.map_cons, List.mem_cons, not_or] at hu
    rw [informAll_cons, ih _ hu.2, get?_inform, if_neg (fun hc => hu.1 hc.1)]

theorem informAll_get?_mem (l : List (UserVersion × TeamRole)) (seqno : Seqno) (u : UserVersion)
    (r : TeamRole) :
    ∀ s : TeamSigChainState, (l.map Prod.fst).Nodup → (u, r) ∈ l →
      (informAll s l seqno).UserLog.get? u =
        if s.getUserRole u = r then s.UserLog.get? u
        else some (s.userLogOf u ++ [{ Role := r, Seqno := seqno }]) := by
  induction l with
  | nil => intro s _ h; simp at h
  | cons a rest ih =>
    intro s hnd hmem
    obtain ⟨u0, r0⟩ := a
    simp only [List.map_cons, List.nodup_cons] at hnd
    rw [informAll_cons]
    rcases List.mem_cons.1 hmem with e | hrest
    · obtain ⟨e1, e2⟩ := Prod.mk.inj e
      subst e1
      subst e2
      rw [informAll_get?_not_mem rest seqno u _ hnd.1, get?_inform]
      by_cases hr : s.getUserRole u = r
      · simp [hr]
      · simp [hr]
    · have hne : u ≠ u0 := by
        intro e
        apply hnd.1
        rw [← e]
        exact List.mem_map.2 ⟨(u, r), hrest, rfl⟩
      rw [ih _ hnd.2 hrest]
      have hlog : (s.inform u0 r0 seqno).userLogOf u = s.userLogOf u := by
        rw [userLogOf_inform, if_neg (fun hc => hne hc.1)]
      have hget : (s.inform u0 r0 seqno).UserLog.get? u = s.UserLog.get? u := by
        rw [get?_inform, if_neg (fun hc => hne hc.1)]
      rw [getUserRole_of_log hlog, hlog, hget]

theorem informAll_perm {l l' : List (UserVersion × TeamRole)} (hp : l.Perm l')
    (hnd : (l'.map Prod.fst).Nodup) (s : TeamSigChainState) (seqno : Seqno) :
    (informAll s l seqno).SameAs (informAll s l' seqno) := by
  have hnd' : (l.map Prod.fst).Nodup := ((hp.map Prod.fst).nodup_iff).2 hnd
  constructor
  · intro u
    by_cases hu : u ∈ l.map Prod.fst
    · obtain ⟨a, ha, hau⟩ := List.mem_map.1 hu
      obtain ⟨u', r⟩ := a
      simp only at hau
      subst hau
      rw [informAll_get?_mem l seqno u' r s hnd' ha,
        informAll_get?_mem l' seqno u' r s hnd (hp.mem_iff.1 ha)]
    · have hu' : u ∉ l'.map Prod.fst := fun h => hu ((hp.map Prod.fst).mem_iff.2 h)
      rw [informAll_get?_not_mem l seqno u s hu, informAll_get?_not_mem l' seqno u s hu']
  · rw [informAll_eq l seqno s]
    exact (informAll_eq l' seqno s).symm

theorem updateMembershipVisiting_eq_informAll (visited : List (TeamRole × List UserVersion))
    (seqno : Seqno) :
    ∀ s : TeamSigChainState,
      updateMembershipVisiting s visited seqno
        = informAll s (visited.flatMap (fun e => e.2.map (fun uv => (uv, e.1)))) seqno := by
  induction visited with
  | nil => intro s; rfl
  | cons e rest ih =>
    intro s
    unfold updateMembershipVisiting informAll at ih ⊢
    simp only [List.foldl_cons, List.flatMap_cons, List.foldl_append]
    rw [ih]
    congr 1
    rw [List.foldl_map]

/-- C29: for every state, seqno and role-update map in which no user version occurs twice,
`updateMembership` yields the same state (the same user log as a Go map, every other field
equal) whatever order the calls of `inform` are made in, and so whatever order the roles of the
map are visited in. -/
theorem update_membership_order_independent (t : TeamSigChainPlayer) (s : TeamSigChainState)
    (roleUpdates : GoMap TeamRole (List UserVersion)) (seqno : Seqno)
    (hnd : ((flatUpdates roleUpdates).map Prod.fst).Nodup) :
    (∀ calls : List (UserVersion × TeamRole), calls.Perm (flatUpdates roleUpdates) →
      (informAll s calls seqno).SameAs (t.updateMembership s roleUpdates seqno)) ∧
    (∀ visited : List (TeamRole × List UserVersion), visited.Perm roleUpdates.entries →
      (updateMembershipVisiting s visited seqno).SameAs
        (t.updateMembership s roleUpdates seqno)) ∧
    t.updateMembership s roleUpdates seqno
      = updateMembershipVisiting s roleUpdates.entries seqno := by
  refine ⟨?_, ?_, rfl⟩
  · intro calls hp
    rw [updateMembership_eq_informAll]
    exact informAll_perm hp hnd s seqno
  · intro visited hp
    rw [updateMembership_eq_informAll, updateMembershipVisiting_eq_informAll]
    exact informAll_perm (hp.flatMap_right _) hnd s seqno

/-- Witness for C29: the role updates of the demo membership link (admin `b`, reader `c`),
applied to the state after the root link with the reader informed first. -/
theorem update_membership_order_independent_witness :
    (informAll Demo.rootState [(Demo.C, TeamRole.READER), (Demo.B, TeamRole.ADMIN)] 2).SameAs
      (Demo.fresh.updateMembership Demo.rootState Demo.membersUpdates 2) ∧
    (informAll Demo.rootState
      [(Demo.C, TeamRole.READER), (Demo.B, TeamRole.ADMIN)] 2).UserLog.entries
      ≠ (Demo.fresh.updateMembership Demo.rootState Demo.membersUpdates 2).UserLog.entries :=
  ⟨(update_membership_order_independent Demo.fresh Demo.rootState Demo.membersUpdates 2
      (by decide)).1 [(Demo.C, TeamRole.READER), (Demo.B, TeamRole.ADMIN)]
      (List.Perm.swap _ _ _),
    by decide⟩

end Teams

namespace Teams

open TeamSigChainPlayer

/-! ## The state after a root link -/

/-- C22: for every accepted `team.root` link the resulting state has `LastSeqno = 1`, no
`ParentID`, an empty `SubteamLog`, an empty `StubbedTypes` (`HasAnyStubbedLinks` is false),
`PerTeamKeys` with exactly one key, at generation 1 and with seqno 1, and a `UserLog` whose users
are exactly the user versions listed under owners, admins, writers and readers (the none list
is absent or empty), each with the single entry (its listed role, 1); provided `AssertSomeFields`
only passes when the decoded outer link has the seqno of the link. -/
theorem root_link_effect (env : Env) (hasf : AssertSomeFieldsChecksSeqno env)
    (t : TeamSigChainPlayer) (prevState : Option TeamSigChainState) (link : SCChainLink)
    (av : Bool) (s : TeamSigChainState) (payload : SCChainLinkPayload)
    (hne : link.Payload ≠ "") (hpl : env.unmarshalPayload link.Payload = some payload)
    (htype : payload.Body.Type_ = "team.root")
    (h : addChainLinkCommon env t prevState link av = .ok s) :
    ∃ team members ptk,
      payload.Body.Team = some team ∧ team.Members = some members ∧
      team.PerTeamKey = some ptk ∧
      s.LastSeqno = 1 ∧ s.ParentID = none ∧ s.SubteamLog = GoMap.empty ∧
      s.StubbedTypes = GoMap.empty ∧ s.HasAnyStubbedLinks = false ∧
      s.PerTeamKeys = (GoMap.empty : GoMap PerTeamKeyGeneration PerTeamKey).set 1
        { Gen := 1, Seqno := 1, SigKID := ptk.SigKID, EncKID := ptk.EncKID } ∧
      s.PerTeamKeys.len = 1 ∧
      members.None.getD [] = [] ∧
      (∀ (u : UserVersion) (r : TeamRole), u ∈ (members.listOf r).getD [] →
        s.UserLog.get? u = some [{ Role := r, Seqno := 1 }]) ∧
      (∀ u : UserVersion, (∀ r, u ∉ (members.listOf r).getD []) → s.UserLog.get? u = none) := by
  obtain ⟨oRes, iRes, team, teamID, hout, hsigner, hteam, _, hs, hsw⟩ := accepted_inner h hne hpl
  rcases hsw with ⟨_, hr⟩ | ⟨hty, _⟩ | ⟨hty, _⟩ | ⟨hty, _⟩ | ⟨hty, _⟩ | ⟨hty, _⟩
  · obtain ⟨hprev, _, _, _, name, members, ptk, teamName, ru, k, _, hmem, hptk, _, _, _, _, hsan,
      hkey, hns, _⟩ := addInnerLinkRoot_ok hr
    subst hprev
    obtain ⟨hseq, _, _, hchk, _⟩ := checkOuterLink_ok hout
    have ho : oRes.outerLink.Seqno = 1 := (hasf _ _ _ hchk).trans hseq
    have hlink : link.Seqno = 1 := hseq
    obtain ⟨_, _, _, hk⟩ := checkPerTeamKey_ok hkey
    obtain ⟨hnd, hru, _, hnone⟩ := sanityCheckMembers_ok hsan
    have hnone' := hnone rfl
    obtain ⟨hfnd, hfmem⟩ := flatUpdates_nodup hnd hru
    rw [updateMembership_eq] at hns
    have hul : s.UserLog = (informAll (initialState env t teamID teamName oRes none k)
        (flatUpdates ru) oRes.outerLink.Seqno).UserLog := by
      rw [hs, hns, updateMembership_eq_informAll]
    refine ⟨team, members, ptk, hteam, hmem, hptk, ?_, ?_, ?_, ?_, ?_, ?_, ?_, hnone', ?_, ?_⟩
    · rw [hs]
      exact ho
    · rw [hs, hns]
      rfl
    · rw [hs, hns]
      rfl
    · rw [hs, hns]
      rfl
    · rw [hs, hns]
      rfl
    · rw [hs, hns, hk, hlink]
      rfl
    · rw [hs, hns]
      rfl
    · intro u r hu
      have hmemf : (u, r) ∈ flatUpdates ru := (hfmem u r).2 ((mem_allAssignments members u r).2 hu)
      have hrole : ¬ (initialState env t teamID teamName oRes none k).getUserRole u = r := by
        intro e
        have e' : TeamRole.NONE = r := e
        subst e'
        have : u ∈ members.None.getD [] := hu
        rw [hnone'] at this
        simp at this
      rw [hul, informAll_get?_mem _ _ u r _ hfnd hmemf, if_neg hrole, ho]
      rfl
    · intro u hu
      have hnot : u ∉ (flatUpdates ru).map Prod.fst := by
        intro hmemu
        obtain ⟨a, ha, hau⟩ := List.mem_map.1 hmemu
        obtain ⟨u', r⟩ := a
        simp only at hau
        subst hau
        exact hu r ((mem_allAssignments members u' r).1 ((hfmem u' r).1 ha))
      rw [hul, informAll_get?_not_mem _ _ u _ hnot]
      rfl
  all_goals (rw [htype] at hty; exact absurd hty (by decide))

/-- Witness for C22: the root link of `acme`, whose only listed user is the owner `a`. -/
theorem root_link_effect_witness :
    ∃ team members ptk,
      Demo.rootPayload.Body.Team = some team ∧ team.Members = some members ∧
      team.PerTeamKey = some ptk ∧
      Demo.rootState.LastSeqno = 1 ∧ Demo.rootState.ParentID = none ∧
      Demo.rootState.SubteamLog = GoMap.empty ∧
      Demo.rootState.StubbedTypes = GoMap.empty ∧ Demo.rootState.HasAnyStubbedLinks = false ∧
      Demo.rootState.PerTeamKeys = (GoMap.empty : GoMap PerTeamKeyGeneration PerTeamKey).set 1
        { Gen := 1, Seqno := 1, SigKID := ptk.SigKID, EncKID := ptk.EncKID } ∧
      Demo.rootState.PerTeamKeys.len = 1 ∧
      members.None.getD [] = [] ∧
      (∀ (u : UserVersion) (r : TeamRole), u ∈ (members.listOf r).getD [] →
        Demo.rootState.UserLog.get? u = some [{ Role := r, Seqno := 1 }]) ∧
      (∀ u : UserVersion, (∀ r, u ∉ (members.listOf r).getD []) →
        Demo.rootState.UserLog.get? u = none) :=
  root_link_effect Demo.env Demo.env_assertSomeFields Demo.fresh none Demo.rootLink false
    Demo.rootState Demo.rootPayload (by decide) (by decide) (by decide) (by decide)

end Teams

namespace Teams

open TeamSigChainPlayer

/-! ## Instances -/

/-- Witness for C21: the root link of `acme` on the fresh player, with either entry point. -/
theorem verified_same_as_unverified_witness :
    AddChainLinksVerified Demo.env Demo.fresh [Demo.rootLink]
      = AddChainLinks Demo.env Demo.fresh [Demo.rootLink] ∧
    (AddChainLinksVerified Demo.env Demo.fresh [Demo.rootLink]).1.storedState
      = some Demo.rootState :=
  ⟨(verified_same_as_unverified Demo.env Demo.fresh [Demo.rootLink]).1, by decide⟩

/-- Witness for C25: the batch of two subteam links on the player that holds the root link, with
a context cancelled after the first link and with one never cancelled. -/
theorem context_is_not_consulted_witness :
    AddChainLinksCtx Demo.env Demo.cancelledAfterFirst Demo.afterRoot Demo.subteamsBatch
      = AddChainLinksCtx Demo.env { cancelledBefore := fun _ => false } Demo.afterRoot
          Demo.subteamsBatch :=
  (context_is_not_consulted Demo.env Demo.cancelledAfterFirst { cancelledBefore := fun _ => false }
    Demo.afterRoot Demo.subteamsBatch).1

/-- Witness for C26: informing the state after the root link that `b` is an admin at seqno 2,
once and twice; informing it that `a` is an owner changes nothing. -/
theorem inform_idempotent_witness :
    ((Demo.rootState.inform Demo.B TeamRole.ADMIN 2).inform Demo.B TeamRole.ADMIN 2
      = Demo.rootState.inform Demo.B TeamRole.ADMIN 2) ∧
    (Demo.rootState.inform Demo.B TeamRole.ADMIN 2).userLogOf Demo.B
      = [{ Role := TeamRole.ADMIN, Seqno := 2 }] ∧
    Demo.rootState.inform Demo.A TeamRole.OWNER 2 = Demo.rootState :=
  ⟨(inform_idempotent Demo.rootState Demo.B TeamRole.ADMIN 2).1,
    (inform_idempotent Demo.rootState Demo.B TeamRole.ADMIN 2).2.2.1 (by decide),
    (inform_idempotent Demo.rootState Demo.A TeamRole.OWNER 2).2.1 (by decide)⟩

end Teams

namespace Teams

open TeamSigChainPlayer

/-! ## The latest per-team key -/

theorem getLatestPerTeamKey_of_keysDense {s : TeamSigChainState}
    (h : KeysDense s.PerTeamKeys) :
    ∃ k, s.GetLatestPerTeamKey = .ok k ∧ k.Gen = s.GetLatestGeneration ∧
      s.GetLatestGeneration = (s.PerTeamKeys.len : Int) := by
  obtain ⟨h1, h2, h3⟩ := h
  have hsome : (s.PerTeamKeys.get? (s.PerTeamKeys.len : Int)).isSome = true :=
    (h2 _).2 ⟨by simp only [PerTeamKeyGeneration] at *; omega, le_refl _⟩
  cases hk : s.PerTeamKeys.get? (s.PerTeamKeys.len : Int) with
  | none =>
    rw [hk] at hsome
    cases hsome
  | some k =>
    refine ⟨k, ?_, h3 _ _ hk, rfl⟩
    unfold TeamSigChainState.GetLatestPerTeamKey
    simp only [hk]

/-- C35: in every state a fresh player holds after accepted calls, `GetLatestPerTeamKey` returns
no error, and the key it returns has `Gen` equal to `GetLatestGeneration()`, which is the
number of entries of `PerTeamKeys`. -/
theorem latest_per_team_key_never_fails (env : Env) (reader : UserVersion)
    (calls : List (Bool × List SCChainLink)) (p : TeamSigChainPlayer) (s : TeamSigChainState)
    (hrun : runCalls env (NewTeamSigChainPlayer reader) calls = some p)
    (hs : p.storedState = some s) :
    ∃ k, s.GetLatestPerTeamKey = .ok k ∧ k.Gen = s.GetLatestGeneration ∧
      s.GetLatestGeneration = (s.PerTeamKeys.len : Int) :=
  getLatestPerTeamKey_of_keysDense (reachable_keysDense (fresh_reachable hrun hs))

/-- Witness for C35: after the root link and a batch of two subteam links, the latest key is the
key of generation 1. -/
theorem latest_per_team_key_never_fails_witness :
    ∃ k, Demo.subteamsState.GetLatestPerTeamKey = .ok k ∧
      k.Gen = Demo.subteamsState.GetLatestGeneration ∧
      Demo.subteamsState.GetLatestGeneration = (Demo.subteamsState.PerTeamKeys.len : Int) :=
  latest_per_team_key_never_fails Demo.env Demo.A Demo.twoCalls Demo.afterTwoCalls
    Demo.subteamsState (by decide) (by decide)

/-! ## The team a link names -/

/-- C36: a link with a payload is rejected if the payload has no team section, if `team.id` is
empty or does not parse, or if the parsed `team.id` differs from the `Id` of the prior state,
whatever the link type, the seqno and the prev. -/
theorem link_must_name_its_team (env : Env) (t : TeamSigChainPlayer)
    (prevState : Option TeamSigChainState) (link : SCChainLink) (av : Bool)
    (payload : SCChainLinkPayload)
    (hne : link.Payload ≠ "") (hpl : env.unmarshalPayload link.Payload = some payload)
    (hbad : payload.Body.Team = none ∨
      ∃ team, payload.Body.Team = some team ∧
        (team.ID.length = 0 ∨ env.teamIDFromString team.ID = none ∨
          ∃ ps teamID, prevState = some ps ∧ env.teamIDFromString team.ID = some teamID ∧
            ps.Id ≠ teamID)) :
    ∃ err, addChainLinkCommon env t prevState link av = .error err := by
  cases h : addChainLinkCommon env t prevState link av with
  | error err => exact ⟨err, rfl⟩
  | ok s =>
    exfalso
    obtain ⟨oRes, hout, hcase⟩ := addChainLinkCommon_ok h
    obtain ⟨_, _, _, _, _, hinner, _⟩ := checkOuterLink_ok hout
    rw [if_neg hne, hpl] at hinner
    rcases hcase with ⟨hnone, _⟩ | ⟨_, iRes, hi, _⟩
    · rw [hinner] at hnone
      cases hnone
    obtain ⟨payload', team, teamID, hpl', _, _, hteam, hlen, hparse, hsame, _⟩ :=
      addInnerLink_ok hi
    rw [hinner] at hpl'
    cases hpl'
    rcases hbad with hb | ⟨team', hteam', hb⟩
    · rw [hteam] at hb
      cases hb
    · rw [hteam] at hteam'
      cases hteam'
      rcases hb with hb | hb | ⟨ps, teamID', hps, hparse', hneq⟩
      · exact hlen hb
      · rw [hparse] at hb
        cases hb
      · rw [hparse] at hparse'
        cases hparse'
        exact hneq (hsame ps hps)

/-- Witness for C36: on the state after the root link of `acme`, a key rotation of the team
`r-other` with the right seqno and prev is rejected. -/
theorem link_must_name_its_team_witness :
    ∃ err, addChainLinkCommon Demo.env Demo.fresh (some Demo.rootState)
      (Demo.link 2 "o2k" "foreign" "a") false = .error err :=
  link_must_name_its_team Demo.env Demo.fresh (some Demo.rootState)
    (Demo.link 2 "o2k" "foreign" "a") false Demo.foreignPayload (by decide) (by decide)
    (Or.inr ⟨_, rfl, Or.inr (Or.inr ⟨Demo.rootState, "r-other", rfl, by decide, by decide⟩)⟩)

end Teams

namespace Teams

open TeamSigChainPlayer

/-! ## Links that pass the checks -/

theorem addInnerLink_of_checks {env : Env} {t : TeamSigChainPlayer}
    {prevState : Option TeamSigChainState} {link : SCChainLink} {av : Bool}
    {oRes : checkOuterLinkResult} {payload : SCChainLinkPayload} {team : SCTeamSection}
    {teamID : TeamID} (h : PassesCommonChecks env t prevState link av oRes payload team teamID) :
    addInnerLink env t prevState link oRes av
      = addInnerLinkSwitch env t prevState link oRes team teamID payload.Body.Type_ := by
  obtain ⟨_, hinner, hmatch, htag, hteam, hlen, hparse, hsame⟩ := h
  unfold addInnerLink
  simp only [hinner, hmatch, htag, hteam, hparse, hsame]
  rw [if_neg (fun e => e rfl), if_neg hlen]
  rfl

theorem addChainLinkCommon_of_checks {env : Env} {t : TeamSigChainPlayer}
    {prevState : Option TeamSigChainState} {link : SCChainLink} {av : Bool}
    {oRes : checkOuterLinkResult} {payload : SCChainLinkPayload} {team : SCTeamSection}
    {teamID : TeamID} {iRes : checkInnerLinkResult}
    (h : PassesCommonChecks env t prevState link av oRes payload team teamID)
    (hsw : addInnerLinkSwitch env t prevState link oRes team teamID payload.Body.Type_
      = .ok iRes) :
    addChainLinkCommon env t prevState link av
      = .ok { iRes.newState with
          LastSeqno := oRes.outerLink.Seqno
          LastLinkID := env.outerLinkID oRes.outerLink } := by
  have hin := addInnerLink_of_checks h
  rw [hsw] at hin
  obtain ⟨hout, hinner, _⟩ := h
  unfold addChainLinkCommon
  simp only [hout, hinner, hin]

theorem addInnerLinkNewSubteam_accepts {env : Env} {t : TeamSigChainPlayer}
    {ps : TeamSigChainState} {link : SCChainLink} {oRes : checkOuterLinkResult}
    {team : SCTeamSection} {subteam : SCSubteam} {subteamID : TeamID}
    {subteamName expected : TeamName} {lastPart : String} {s' : TeamSigChainState}
    (hstruct : structuralCheck (some ps) team "team.new_subteam" = none)
    (hsubteam : team.Subteam = some subteam)
    (hid : env.teamIDFromString subteam.ID = some subteamID)
    (hsub : env.teamIDIsSubTeam subteamID = true)
    (hname : env.teamNameFromString subteam.Name = some subteamName)
    (hlast : subteamName.LastPart = some lastPart)
    (happ : ps.GetName.Append env lastPart = .ok expected)
    (heq : expected.Eq subteamName = true)
    (hinf : ps.informSubteam subteamID subteamName oRes.outerLink.Seqno = .ok s') :
    addInnerLinkNewSubteam env t (some ps) link oRes team
      = .ok { oRes := oRes, newState := s' } := by
  have hpick : PickFirstError [hasPrevState (some ps) true, hasName team false,
      hasMembers team false, hasParent team false, hasSubteam team true,
      hasPerTeamKey team false] = none := hstruct
  unfold addInnerLinkNewSubteam
  simp only [hpick, hsubteam, hid, hsub, hname, hlast, happ, heq,
    TeamSigChainState.DeepCopy, hinf]
  rfl

end Teams

namespace Teams

open TeamSigChainPlayer

/-! ## Naming a recorded subteam again -/

theorem informSubteam_of_free {s : TeamSigChainState} {id : TeamID} {name : TeamName}
    {seqno : Seqno} (hlast : lastPointNotBelow s id seqno = false)
    (hfree : ¬ collidesWithOther s id name seqno) :
    s.informSubteam id name seqno
      = .ok { s with
          SubteamLog :=
            s.SubteamLog.set id (s.subteamLogOf id ++ [{ Name := name, Seqno := seqno }]) } := by
  have hc := checkSubteamCollision_of_not hfree
  unfold TeamSigChainState.informSubteam
  cases hl : s.getLastSubteamPoint id with
  | none => simp only [hc]
  | some lastPoint =>
    unfold lastPointNotBelow at hlast
    rw [hl] at hlast
    simp only [Option.any_some, decide_eq_false_iff_not] at hlast
    have h1 : ¬ lastPoint.Seqno = seqno := by
      simp only [Seqno] at *
      omega
    have h2 : ¬ seqno < lastPoint.Seqno := by
      simp only [Seqno] at *
      omega
    simp only [if_neg h1, if_neg h2, hc]

theorem lastPointNotBelow_of_le {s : TeamSigChainState} {id : TeamID} {seqno : Seqno}
    (h : ∀ point ∈ s.subteamLogOf id, point.Seqno < seqno) :
    lastPointNotBelow s id seqno = false := by
  unfold lastPointNotBelow TeamSigChainState.getLastSubteamPoint
  cases hl : (s.subteamLogOf id).getLast? with
  | none => rfl
  | some lastPoint =>
    have hmem : lastPoint ∈ s.subteamLogOf id := List.mem_of_getLast?_eq_some hl
    have := h lastPoint hmem
    simp only [Option.any_some, decide_eq_false_iff_not]
    simp only [Seqno] at *
    omega

/-- C33: for every reachable prior state whose `SubteamLog` already has points for the subteam
`X`, a `team.new_subteam` link at the next seqno that passes the checks before the switch, names
`X` with a valid child name of the team and collides with no other subteam is accepted;
`SubteamLog[X]` then has one more point, the new name at the seqno of the link, and
`GetSubteamName(X)` returns the new name.  `AssertSomeFields` is taken to check the seqno. -/
theorem new_subteam_renames_recorded (env : Env) (hasf : AssertSomeFieldsChecksSeqno env)
    (t : TeamSigChainPlayer) (ps : TeamSigChainState) (link : SCChainLink) (av : Bool)
    (oRes : checkOuterLinkResult) (payload : SCChainLinkPayload) (team : SCTeamSection)
    (teamID : TeamID) (subteam : SCSubteam) (subteamID : TeamID)
    (subteamName expected : TeamName) (lastPart : String)
    (hreach : Reachable env ps)
    (hrecorded : ps.subteamLogOf subteamID ≠ [])
    (hchecks : PassesCommonChecks env t (some ps) link av oRes payload team teamID)
    (htype : payload.Body.Type_ = "team.new_subteam")
    (hstruct : structuralCheck (some ps) team "team.new_subteam" = none)
    (hsubteam : team.Subteam = some subteam)
    (hid : env.teamIDFromString subteam.ID = some subteamID)
    (hsub : env.teamIDIsSubTeam subteamID = true)
    (hname : env.teamNameFromString subteam.Name = some subteamName)
    (hlast : subteamName.LastPart = some lastPart)
    (happ : ps.GetName.Append env lastPart = .ok expected)
    (heq : expected.Eq subteamName = true)
    (hfree : collidesWithLastBelow ps subteamID subteamName link.Seqno = false) :
    ∃ s, addChainLinkCommon env t (some ps) link av = .ok s ∧
      link.Seqno = ps.GetLatestSeqno + 1 ∧
      s.subteamLogOf subteamID
        = ps.subteamLogOf subteamID ++ [{ Name := subteamName, Seqno := link.Seqno }] ∧
      (s.subteamLogOf subteamID).length = (ps.subteamLogOf subteamID).length + 1 ∧
      2 ≤ (s.subteamLogOf subteamID).length ∧
      s.GetSubteamName subteamID = .ok subteamName := by
  obtain ⟨hseq, _, _, hchk, _⟩ := checkOuterLink_ok hchecks.1
  have ho : oRes.outerLink.Seqno = link.Seqno := hasf _ _ _ hchk
  have hnext : link.Seqno = ps.LastSeqno + 1 := hseq
  have hord := (reachable_subteamLog hasf hreach).1 subteamID
  have hbelow : ∀ point ∈ ps.subteamLogOf subteamID, point.Seqno < link.Seqno := by
    intro point hp
    have := hord.2 point hp
    simp only [Seqno] at *
    omega
  have hparts : subteamName.Parts ≠ [] := by
    intro e
    unfold TeamName.LastPart at hlast
    rw [e] at hlast
    cases hlast
  have hfree' : ¬ collidesWithOther ps subteamID subteamName link.Seqno := by
    intro hc
    have := (collidesWithLastBelow_iff ps subteamID subteamName link.Seqno hparts).2 hc
    rw [hfree] at this
    cases this
  have hinf := informSubteam_of_free (lastPointNotBelow_of_le hbelow) hfree'
  rw [← ho] at hinf
  have hhandler : addInnerLinkNewSubteam env t (some ps) link oRes team = .ok _ :=
    addInnerLinkNewSubteam_accepts hstruct hsubteam hid hsub hname hlast happ heq hinf
  have hsw : addInnerLinkSwitch env t (some ps) link oRes team teamID payload.Body.Type_
      = addInnerLinkNewSubteam env t (some ps) link oRes team := by
    rw [htype]
    rfl
  rw [hhandler] at hsw
  have hlog : ∀ s : TeamSigChainState,
      s.subteamLogOf subteamID
        = ps.subteamLogOf subteamID ++ [{ Name := subteamName, Seqno := link.Seqno }] →
      (s.subteamLogOf subteamID).length = (ps.subteamLogOf subteamID).length + 1 ∧
      2 ≤ (s.subteamLogOf subteamID).length ∧
      s.GetSubteamName subteamID = .ok subteamName := by
    intro s hs
    have hlen : 1 ≤ (ps.subteamLogOf subteamID).length := by
      cases hl : ps.subteamLogOf subteamID with
      | nil => exact absurd hl hrecorded
      | cons a l => simp
    refine ⟨by rw [hs]; simp, by rw [hs]; simp; omega, ?_⟩
    unfold TeamSigChainState.GetSubteamName TeamSigChainState.getLastSubteamPoint
    rw [hs, List.getLast?_concat]
  refine ⟨_, addChainLinkCommon_of_checks hchecks hsw, hnext, ?_⟩
  have hs : TeamSigChainState.subteamLogOf
      { ({ ps with
            SubteamLog := ps.SubteamLog.set subteamID
              (ps.subteamLogOf subteamID ++
                [{ Name := subteamName, Seqno := oRes.outerLink.Seqno }]) } :
          TeamSigChainState) with
        LastSeqno := oRes.outerLink.Seqno
        LastLinkID := env.outerLinkID oRes.outerLink } subteamID
      = ps.subteamLogOf subteamID ++ [{ Name := subteamName, Seqno := link.Seqno }] := by
    rw [← ho]
    unfold TeamSigChainState.subteamLogOf
    simp only [GoMap.get?_set_self, Option.getD_some]
  exact ⟨hs, hlog _ hs⟩

/-- Witness for C33: on the state in which subteam `s-x` is `acme.eng` since seqno 2, the
`team.new_subteam` link of seqno 3 that names `s-x` as `acme.dev` is accepted. -/
theorem new_subteam_renames_recorded_witness :
    ∃ s, addChainLinkCommon Demo.env Demo.fresh (some Demo.subXState)
        (Demo.link 3 "o3s" "subXdev" "a") false = .ok s ∧
      (Demo.link 3 "o3s" "subXdev" "a").Seqno = Demo.subXState.GetLatestSeqno + 1 ∧
      s.subteamLogOf "s-x"
        = Demo.subXState.subteamLogOf "s-x" ++
          [{ Name := { Parts := ["acme", "dev"] },
             Seqno := (Demo.link 3 "o3s" "subXdev" "a").Seqno }] ∧
      (s.subteamLogOf "s-x").length = (Demo.subXState.subteamLogOf "s-x").length + 1 ∧
      2 ≤ (s.subteamLogOf "s-x").length ∧
      s.GetSubteamName "s-x" = .ok { Parts := ["acme", "dev"] } :=
  new_subteam_renames_recorded Demo.env Demo.env_assertSomeFields Demo.fresh Demo.subXState
    (Demo.link 3 "o3s" "subXdev" "a") false
    { outerLink := Demo.outer 3 [2] 34, signingUser := Demo.A,
      innerLink := some Demo.subXdevPayload }
    Demo.subXdevPayload { Demo.section0 with Subteam := some { ID := "s-x", Name := "acme.dev" } }
    "r-acme" { ID := "s-x", Name := "acme.dev" } "s-x" { Parts := ["acme", "dev"] }
    { Parts := ["acme", "dev"] } "dev"
    (@fresh_reachable Demo.env Demo.A
      [(false, [Demo.rootLink]), (false, [Demo.link 2 "o2s" "subX" "a"])]
      (AddChainLinks Demo.env Demo.afterRoot [Demo.link 2 "o2s" "subX" "a"]).1 Demo.subXState
      (by decide) (by decide))
    (by decide)
    ⟨rfl, rfl, by decide, by decide, rfl, by decide, by decide, by decide⟩
    (by decide) (by decide) rfl (by decide) (by decide) (by decide) (by decide) (by decide)
    (by decide) (by decide)

end Teams

namespace Teams

open TeamSigChainPlayer

/-! ## Membership changes signed by an admin -/

theorem sanityCheckMembers_of_nodup (t : TeamSigChainPlayer) (members : SCTeamMembers)
    (h : members.allListed.Nodup) :
    ∃ roleUpdates, t.sanityCheckMembers members false true = .ok roleUpdates := by
  rw [← allAssignments_fst] at h
  obtain ⟨res, hres⟩ := sanityCheckLoop_of_nodup (allAssignments members) GoMap.empty
    (presentRoles members) h (fun u _ => rfl)
  exact ⟨res, hres⟩

theorem addInnerLinkChangeMembership_accepts {env : Env} {t : TeamSigChainPlayer}
    {ps : TeamSigChainState} {link : SCChainLink} {oRes : checkOuterLinkResult}
    {team : SCTeamSection} {members : SCTeamMembers}
    {roleUpdates : GoMap TeamRole (List UserVersion)}
    (hstruct : structuralCheck (some ps) team "team.change_membership" = none)
    (hmembers : team.Members = some members)
    (hrole : ps.getUserRole oRes.signingUser = TeamRole.ADMIN ∨
      ps.getUserRole oRes.signingUser = TeamRole.OWNER)
    (hsan : t.sanityCheckMembers members false true = .ok roleUpdates)
    (hkey : team.PerTeamKey = none ∨
      ∃ ptk lastKey newKey, team.PerTeamKey = some ptk ∧
        ps.GetLatestPerTeamKey = .ok lastKey ∧
        checkPerTeamKey env t link ptk (lastKey.Gen + 1) = .ok newKey) :
    ∃ iRes, addInnerLinkChangeMembership env t (some ps) link oRes team = .ok iRes ∧
      iRes.newState.UserLog = (t.updateMembership ps roleUpdates oRes.outerLink.Seqno).UserLog := by
  have hpick : PickFirstError [hasPrevState (some ps) true, hasName team false,
      hasMembers team true, hasParent team false, hasSubteam team false] = none := hstruct
  have hnot : ¬ (ps.getUserRole oRes.signingUser ≠ TeamRole.ADMIN ∧
      ps.getUserRole oRes.signingUser ≠ TeamRole.OWNER) := by
    rintro ⟨h1, h2⟩
    rcases hrole with h | h
    · exact h1 h
    · exact h2 h
  unfold addInnerLinkChangeMembership
  simp only [hpick, hmembers, TeamSigChainState.GetUserRole, hsan, TeamSigChainState.DeepCopy]
  rw [if_neg hnot]
  rcases hkey with hk | ⟨ptk, lastKey, newKey, hk, hlast, hchk⟩
  · simp only [hk]
    exact ⟨_, rfl, rfl⟩
  · simp only [hk, hlast, hchk]
    exact ⟨_, rfl, rfl⟩

/-- C32: for every prior state in which the role of the signer is ADMIN, a
`team.change_membership` link that passes the checks before the switch, has the structure of
its type, lists no user version twice and carries no per-team key or a valid one is accepted,
and every listed user then has the role of its list: a user listed under owners is OWNER, and
a current OWNER listed under admins, writers, readers or none has that role instead.  No check
compares the role of the signer with the roles it grants or revokes. -/
theorem admin_can_change_owners (env : Env) (t : TeamSigChainPlayer) (ps : TeamSigChainState)
    (link : SCChainLink) (av : Bool) (oRes : checkOuterLinkResult)
    (payload : SCChainLinkPayload) (team : SCTeamSection) (teamID : TeamID)
    (members : SCTeamMembers)
    (hadmin : ps.getUserRole (NewUserVersion link.UID 1) = TeamRole.ADMIN)
    (hchecks : PassesCommonChecks env t (some ps) link av oRes payload team teamID)
    (htype : payload.Body.Type_ = "team.change_membership")
    (hstruct : structuralCheck (some ps) team "team.change_membership" = none)
    (hmembers : team.Members = some members)
    (hnodup : members.allListed.Nodup)
    (hkey : team.PerTeamKey = none ∨
      ∃ ptk lastKey newKey, team.PerTeamKey = some ptk ∧
        ps.GetLatestPerTeamKey = .ok lastKey ∧
        checkPerTeamKey env t link ptk (lastKey.Gen + 1) = .ok newKey) :
    ∃ s, addChainLinkCommon env t (some ps) link av = .ok s ∧
      (∀ (u : UserVersion) (r : TeamRole), u ∈ (members.listOf r).getD [] →
        s.getUserRole u = r) ∧
      (∀ u : UserVersion, u ∈ members.Owners.getD [] → s.getUserRole u = TeamRole.OWNER) ∧
      (∀ (u : UserVersion) (r : TeamRole), ps.getUserRole u = TeamRole.OWNER →
        r ≠ TeamRole.OWNER → u ∈ (members.listOf r).getD [] →
        s.getUserRole u = r ∧ s.getUserRole u ≠ TeamRole.OWNER) := by
  obtain ⟨_, _, _, _, hsigner, _⟩ := checkOuterLink_ok hchecks.1
  obtain ⟨ru, hsan⟩ := sanityCheckMembers_of_nodup t members hnodup
  rw [← hsigner] at hadmin
  obtain ⟨iRes, hhandler, hlog⟩ :=
    @addInnerLinkChangeMembership_accepts env t ps link oRes team members ru hstruct hmembers
      (Or.inl hadmin) hsan hkey
  have hsw : addInnerLinkSwitch env t (some ps) link oRes team teamID payload.Body.Type_
      = addInnerLinkChangeMembership env t (some ps) link oRes team := by
    rw [htype]
    rfl
  rw [hhandler] at hsw
  have hroles : ∀ (u : UserVersion) (r : TeamRole), u ∈ (members.listOf r).getD [] →
      TeamSigChainState.getUserRole
        { iRes.newState with
          LastSeqno := oRes.outerLink.Seqno
          LastLinkID := env.outerLinkID oRes.outerLink } u = r := by
    intro u r hu
    have h1 := ((updateMembership_userLog hsan ps oRes.outerLink.Seqno u).1 r hu).2
    rw [← h1]
    apply getUserRole_of_log
    unfold TeamSigChainState.userLogOf
    simp only [hlog]
  refine ⟨_, addChainLinkCommon_of_checks hchecks hsw, hroles, ?_, ?_⟩
  · intro u hu
    exact hroles u TeamRole.OWNER hu
  · intro u r _ hr hu
    have := hroles u r hu
    exact ⟨this, by rw [this]; exact hr⟩

/-- Witness for C32: on the state with owner `a`, admin `b` and reader `c`, the admin `b` signs a
membership change that makes `c` an owner and `a` a reader; it is accepted. -/
theorem admin_can_change_owners_witness :
    Demo.membersState.getUserRole Demo.B = TeamRole.ADMIN ∧
    Demo.membersState.getUserRole Demo.A = TeamRole.OWNER ∧
    ∃ s, addChainLinkCommon Demo.env Demo.fresh (some Demo.membersState)
        (Demo.link 3 "o3m" "adminMembers" "b") false = .ok s ∧
      (∀ (u : UserVersion) (r : TeamRole),
        u ∈ (SCTeamMembers.listOf { Demo.noMembers with
          Owners := some [Demo.C], Readers := some [Demo.A] } r).getD [] →
        s.getUserRole u = r) ∧
      (∀ u : UserVersion, u ∈ (some [Demo.C]).getD [] → s.getUserRole u = TeamRole.OWNER) ∧
      (∀ (u : UserVersion) (r : TeamRole), Demo.membersState.getUserRole u = TeamRole.OWNER →
        r ≠ TeamRole.OWNER →
        u ∈ (SCTeamMembers.listOf { Demo.noMembers with
          Owners := some [Demo.C], Readers := some [Demo.A] } r).getD [] →
        s.getUserRole u = r ∧ s.getUserRole u ≠ TeamRole.OWNER) :=
  ⟨by decide, by decide,
    admin_can_change_owners Demo.env Demo.fresh Demo.membersState
      (Demo.link 3 "o3m" "adminMembers" "b") false
      { outerLink := Demo.outer 3 [2] 35, signingUser := Demo.B,
        innerLink := some Demo.adminMembersPayload }
      Demo.adminMembersPayload
      { Demo.section0 with
        Members := some { Demo.noMembers with Owners := some [Demo.C], Readers := some [Demo.A] } }
      "r-acme" { Demo.noMembers with Owners := some [Demo.C], Readers := some [Demo.A] }
      (by decide)
      ⟨rfl, rfl, by decide, by decide, rfl, by decide, by decide, by decide⟩
      (by decide) (by decide) rfl (by decide) (Or.inl rfl)⟩

end Teams

namespace Teams

open TeamSigChainPlayer

/-! ## Empty role lists -/

theorem GoMap.setEntries_of_mem {K V : Type} [DecidableEq K] (l : List (K × V)) (k : K) (v : V)
    (hn : (l.map Prod.fst).Nodup) (hk : k ∈ l.map Prod.fst) :
    GoMap.setEntries l k v = l.map (fun e => if e.1 = k then (k, v) else e) := by
  induction l with
  | nil => simp at hk
  | cons a rest ih =>
    obtain ⟨k', v'⟩ := a
    simp only [List.map_cons, List.nodup_cons] at hn
    by_cases hkk : k' = k
    · subst hkk
      have hid : rest.map (fun e => if e.1 = k' then (k', v) else e) = rest := by
        conv_rhs => rw [← List.map_id rest]
        apply List.map_congr_left
        intro e he
        have hne : ¬ e.1 = k' := fun h => hn.1 (h ▸ List.mem_map.2 ⟨e, he, rfl⟩)
        simp [hne]
      simp [GoMap.setEntries, hid]
    · have hk' : k ∈ rest.map Prod.fst := by
        simp only [List.map_cons, List.mem_cons] at hk
        rcases hk with h | h
        · exact absurd h.symm hkk
        · exact h
      simp [GoMap.setEntries, hkk, ih hn.2 hk']

theorem sanityCheckLoop_entries (all : List (UserVersion × TeamRole)) :
    ∀ (seen : GoMap UserVersion Bool) (res res' : GoMap TeamRole (List UserVersion)),
      sanityCheckLoop all seen res = .ok res' →
      (∀ a ∈ all, a.2 ∈ res.keys) →
      res'.entries = res.entries.map (fun e =>
        (e.1, e.2 ++ (all.filter (fun a => decide (a.2 = e.1))).map Prod.fst)) := by
  induction all with
  | nil =>
    intro seen res res' h _
    simp only [sanityCheckLoop, Except.ok.injEq] at h
    subst h
    simp
  | cons a rest ih =>
    intro seen res res' h hkeys
    obtain ⟨uv, role⟩ := a
    simp only [sanityCheckLoop] at h
    by_cases hseen : (seen.get? uv).getD false = true
    · rw [if_pos hseen] at h
      cases h
    rw [if_neg hseen] at h
    have hrole : role ∈ res.keys := hkeys (uv, role) (by simp)
    have hset : (res.set role ((res.get? role).getD [] ++ [uv])).entries
        = res.entries.map (fun e =>
            if e.1 = role then (role, (res.get? role).getD [] ++ [uv]) else e) :=
      GoMap.setEntries_of_mem res.entries role _ res.nodup hrole
    have hkeys' : ∀ a ∈ rest, a.2 ∈ (res.set role ((res.get? role).getD [] ++ [uv])).keys := by
      intro a ha
      have := hkeys a (List.mem_cons_of_mem _ ha)
      rw [GoMap.mem_keys_iff] at this ⊢
      rw [GoMap.get?_set]
      by_cases e : a.2 = role
      · simp [e]
      · simpa [e] using this
    rw [ih _ _ _ h hkeys', hset, List.map_map]
    apply List.map_congr_left
    intro e he
    have hget : res.get? e.1 = some e.2 := (GoMap.mem_entries_iff res e.1 e.2).1 he
    by_cases hr : e.1 = role
    · subst hr
      simp [hget, List.filter_cons]
    · have hr' : ¬ role = e.1 := fun h => hr h.symm
      simp [hr, hr', List.filter_cons]

theorem presentRoles_flatMap (members : SCTeamMembers) :
    (presentRoles members).entries.flatMap
        (fun e => ((members.listOf e.1).getD []).map (fun uv => (uv, e.1)))
      = allAssignments members := by
  obtain ⟨o, a, w, rd, n⟩ := members
  cases o <;> cases a <;> cases w <;> cases rd <;> cases n <;>
    simp [presentRoles, allAssignments, SCTeamMembers.listOf, GoMap.set, GoMap.setEntries,
      GoMap.empty]

theorem sanityCheckMembers_loop (t : TeamSigChainPlayer) (members : SCTeamMembers) :
    t.sanityCheckMembers members false true
      = sanityCheckLoop (allAssignments members) GoMap.empty (presentRoles members) :=
  rfl

theorem flatUpdates_sanityCheckMembers {t : TeamSigChainPlayer} {members : SCTeamMembers}
    {roleUpdates : GoMap TeamRole (List UserVersion)}
    (h : t.sanityCheckMembers members false true = .ok roleUpdates) :
    flatUpdates roleUpdates = allAssignments members := by
  rw [sanityCheckMembers_loop] at h
  have hkeys : ∀ a ∈ allAssignments members, a.2 ∈ (presentRoles members).keys := by
    intro a ha
    obtain ⟨u, r⟩ := a
    have hu := (mem_allAssignments members u r).1 ha
    rw [GoMap.mem_keys_iff, presentRoles_get?]
    cases hl : members.listOf r with
    | none =>
      rw [hl] at hu
      simp at hu
    | some l => rfl
  have hent := sanityCheckLoop_entries _ _ _ _ h hkeys
  rw [← presentRoles_flatMap]
  unfold flatUpdates
  rw [hent, List.flatMap_map]
  apply List.flatMap_congr
  intro e he
  have hget : (presentRoles members).get? e.1 = some e.2 :=
    (GoMap.mem_entries_iff _ e.1 e.2).1 he
  have hnil : e.2 = [] := by
    have := presentRoles_getD members e.1
    rw [hget] at this
    exact this
  simp only [hnil, List.nil_append, allAssignments_filter]

theorem allAssignments_withoutList (members : SCTeamMembers) (r : TeamRole)
    (h : members.listOf r = some []) :
    allAssignments (members.withoutList r) = allAssignments members := by
  cases r <;>
    simp only [SCTeamMembers.listOf] at h <;>
    simp [SCTeamMembers.withoutList, allAssignments, h]

theorem sanityCheckLoop_error (all : List (UserVersion × TeamRole)) :
    ∀ (seen : GoMap UserVersion Bool) (res res2 : GoMap TeamRole (List UserVersion)) (e : Err),
      sanityCheckLoop all seen res = .error e → sanityCheckLoop all seen res2 = .error e := by
  induction all with
  | nil =>
    intro seen res res2 e h
    simp only [sanityCheckLoop] at h
    cases h
  | cons a rest ih =>
    intro seen res res2 e h
    obtain ⟨uv, role⟩ := a
    simp only [sanityCheckLoop] at h ⊢
    by_cases hseen : (seen.get? uv).getD false = true
    · rw [if_pos hseen] at h ⊢
      exact h
    · rw [if_neg hseen] at h ⊢
      exact ih _ _ _ _ h

theorem updateMembership_withoutList (t : TeamSigChainPlayer) (members : SCTeamMembers)
    (r : TeamRole) (h : members.listOf r = some []) :
    (∀ e, t.sanityCheckMembers members false true = .error e →
      t.sanityCheckMembers (members.withoutList r) false true = .error e) ∧
    (∀ roleUpdates, t.sanityCheckMembers members false true = .ok roleUpdates →
      ∃ roleUpdates', t.sanityCheckMembers (members.withoutList r) false true
          = .ok roleUpdates' ∧
        ∀ (s : TeamSigChainState) (seqno : Seqno),
          t.updateMembership s roleUpdates' seqno = t.updateMembership s roleUpdates seqno) := by
  have hall := allAssignments_withoutList members r h
  constructor
  · intro e he
    rw [sanityCheckMembers_loop] at he ⊢
    rw [hall]
    exact sanityCheckLoop_error _ _ _ _ _ he
  · intro ru hru
    have hnd := (sanityCheckMembers_ok hru).1
    obtain ⟨ru', hru'⟩ := sanityCheckLoop_of_nodup (allAssignments members) GoMap.empty
      (presentRoles (members.withoutList r)) hnd (fun u _ => rfl)
    rw [← hall] at hru'
    refine ⟨ru', hru', ?_⟩
    intro s seqno
    have hru'' : t.sanityCheckMembers (members.withoutList r) false true = .ok ru' := hru'
    rw [updateMembership_eq_informAll, updateMembership_eq_informAll,
      flatUpdates_sanityCheckMembers hru'', flatUpdates_sanityCheckMembers hru, hall]

end Teams

namespace Teams

open TeamSigChainPlayer

/-- C34: in a `team.change_membership` link, a members section in which the list of a role is
present but empty gives the same result, error or accepted state, as the same section with that
list absent, for every prior state, link and outer result; so the acceptance decision and the
`UserLog` are the same.  A user that holds the role and is listed nowhere in the section keeps
the role and its log. -/
theorem empty_role_list_clears_nothing (env : Env) (t : TeamSigChainPlayer)
    (prevState : Option TeamSigChainState) (link : SCChainLink) (oRes : checkOuterLinkResult)
    (team : SCTeamSection) (members : SCTeamMembers) (r : TeamRole)
    (hmembers : team.Members = some members) (hempty : members.listOf r = some []) :
    addInnerLinkChangeMembership env t prevState link oRes
        { team with Members := some (members.withoutList r) }
      = addInnerLinkChangeMembership env t prevState link oRes team ∧
    (∀ (ps : TeamSigChainState) (iRes : checkInnerLinkResult) (u : UserVersion),
      prevState = some ps →
      addInnerLinkChangeMembership env t prevState link oRes team = .ok iRes →
      ps.getUserRole u = r → (∀ r', u ∉ (members.listOf r').getD []) →
      iRes.newState.getUserRole u = r ∧ iRes.newState.userLogOf u = ps.userLogOf u) := by
  obtain ⟨herr, hok⟩ := updateMembership_withoutList t members r hempty
  constructor
  · unfold addInnerLinkChangeMembership
    simp only [hasName, hasMembers, hasParent, hasSubteam, hmembers, Option.isSome_some]
    generalize PickFirstError _ = pf
    cases pf with
    | some e => rfl
    | none =>
      cases prevState with
      | none => rfl
      | some ps =>
        simp only [TeamSigChainState.GetUserRole]
        by_cases hrole : ps.getUserRole oRes.signingUser ≠ TeamRole.ADMIN ∧
            ps.getUserRole oRes.signingUser ≠ TeamRole.OWNER
        · rw [if_pos hrole, if_pos hrole]
        · rw [if_neg hrole, if_neg hrole]
          cases hsan : t.sanityCheckMembers members false true with
          | error e =>
            rw [herr e hsan]
          | ok ru =>
            obtain ⟨ru', hru', hupd⟩ := hok ru hsan
            rw [hru']
            simp only [hupd]
  · intro ps iRes u hps hacc hu hnot
    subst hps
    obtain ⟨_, _, _, ps', members', ru, hps', hmem', _, hsan, hstate⟩ :=
      addInnerLinkChangeMembership_ok hacc
    have hpseq : ps = ps' := Option.some.inj hps'
    subst hpseq
    rw [hmembers] at hmem'
    cases hmem'
    have hkeep := (updateMembership_userLog hsan ps oRes.outerLink.Seqno u).2 hnot
    have hlog : iRes.newState.userLogOf u = ps.userLogOf u := by
      rcases hstate with ⟨_, hs⟩ | ⟨_, _, _, _, _, _, hs⟩
      · rw [hs]
        exact hkeep
      · rw [hs]
        exact hkeep
    exact ⟨(getUserRole_of_log hlog).trans hu, hlog⟩

/-- Witness for C34: the members section of the demo membership link has an empty writers list;
with the list absent the link gives the same result, the state with admin `b` and reader `c`. -/
theorem empty_role_list_clears_nothing_witness :
    addInnerLinkChangeMembership Demo.env Demo.fresh (some Demo.rootState)
        (Demo.link 2 "o2" "members" "a") Demo.membersOuterResult
        { Demo.section0 with
          Members := some (Demo.changedMembers.withoutList TeamRole.WRITER) }
      = addInnerLinkChangeMembership Demo.env Demo.fresh (some Demo.rootState)
        (Demo.link 2 "o2" "members" "a") Demo.membersOuterResult
        { Demo.section0 with Members := some Demo.changedMembers } ∧
    (addInnerLinkChangeMembership Demo.env Demo.fresh (some Demo.rootState)
        (Demo.link 2 "o2" "members" "a") Demo.membersOuterResult
        { Demo.section0 with Members := some Demo.changedMembers }).toOption.map
        (fun iRes => iRes.newState.UserLog)
      = some Demo.membersState.UserLog ∧
    (Demo.changedMembers.withoutList TeamRole.WRITER).Writers = none :=
  ⟨(empty_role_list_clears_nothing Demo.env Demo.fresh (some Demo.rootState)
      (Demo.link 2 "o2" "members" "a") Demo.membersOuterResult
      { Demo.section0 with Members := some Demo.changedMembers }
      Demo.changedMembers TeamRole.WRITER rfl rfl).1,
    by decide, rfl⟩

end Teams

namespace Teams

open TeamSigChainPlayer

/-! ## The signer of a new subteam -/

theorem checkOuterLink_uid (env : Env) (t : TeamSigChainPlayer)
    (prevState : Option TeamSigChainState) (link : SCChainLink) (av : Bool) (uid : UID) :
    checkOuterLink env t prevState { link with UID := uid } av
      = (checkOuterLink env t prevState link av).map
          (fun o => { o with signingUser := NewUserVersion uid 1 }) := by
  unfold checkOuterLink
  simp only []
  repeat' (first | rfl | split)

theorem addInnerLinkNewSubteam_signer (env : Env) (t : TeamSigChainPlayer)
    (prevState : Option TeamSigChainState) (link link' : SCChainLink)
    (outerLink : OuterLinkV2) (signer signer' : UserVersion)
    (innerLink : Option SCChainLinkPayload) (team : SCTeamSection) :
    addInnerLinkNewSubteam env t prevState link'
        { outerLink := outerLink, signingUser := signer', innerLink := innerLink } team
      = (addInnerLinkNewSubteam env t prevState link
          { outerLink := outerLink, signingUser := signer, innerLink := innerLink } team).map
          (fun i => { i with oRes := { i.oRes with signingUser := signer' } }) := by
  unfold addInnerLinkNewSubteam
  simp only []
  repeat' (first | rfl | split)

theorem addInnerLinkSwitch_newSubteam (env : Env) (t : TeamSigChainPlayer)
    (prevState : Option TeamSigChainState) (link : SCChainLink) (oRes : checkOuterLinkResult)
    (team : SCTeamSection) (teamID : TeamID) :
    addInnerLinkSwitch env t prevState link oRes team teamID "team.new_subteam"
      = addInnerLinkNewSubteam env t prevState link oRes team :=
  rfl

theorem addInnerLink_signer (env : Env) (t : TeamSigChainPlayer)
    (prevState : Option TeamSigChainState) (link : SCChainLink) (uid : UID)
    (outerLink : OuterLinkV2) (signer signer' : UserVersion) (payload : SCChainLinkPayload)
    (av : Bool) (htype : payload.Body.Type_ = "team.new_subteam") :
    addInnerLink env t prevState { link with UID := uid }
        { outerLink := outerLink, signingUser := signer', innerLink := some payload } av
      = (addInnerLink env t prevState link
          { outerLink := outerLink, signingUser := signer, innerLink := some payload } av).map
          (fun i => { i with oRes := { i.oRes with signingUser := signer' } }) := by
  unfold addInnerLink
  simp only []
  repeat' (first | rfl | split)
  rw [htype, addInnerLinkSwitch_newSubteam, addInnerLinkSwitch_newSubteam]
  exact addInnerLinkNewSubteam_signer env t prevState link _ outerLink signer signer' _ _

/-- C31: a `team.new_subteam` link gives the same result, error or resulting state, whoever
signs it: with the UID of the link replaced by any other, the link is accepted iff it was, and
the resulting state is the same.  So the link is accepted equally when the role of the signer in
the prior state is NONE as when it is OWNER. -/
theorem new_subteam_needs_no_role (env : Env) (t : TeamSigChainPlayer)
    (prevState : Option TeamSigChainState) (link : SCChainLink) (av : Bool)
    (payload : SCChainLinkPayload) (uid : UID)
    (hne : link.Payload ≠ "") (hpl : env.unmarshalPayload link.Payload = some payload)
    (htype : payload.Body.Type_ = "team.new_subteam") :
    addChainLinkCommon env t prevState { link with UID := uid } av
      = addChainLinkCommon env t prevState link av := by
  unfold addChainLinkCommon
  rw [checkOuterLink_uid]
  cases hout : checkOuterLink env t prevState link av with
  | error e => rfl
  | ok oRes =>
    obtain ⟨_, _, _, _, _, hinner, _⟩ := checkOuterLink_ok hout
    rw [if_neg hne, hpl] at hinner
    obtain ⟨outerLink, signer, innerLink⟩ := oRes
    simp only at hinner
    subst hinner
    simp only [Except.map]
    rw [addInnerLink_signer env t prevState link uid outerLink signer (NewUserVersion uid 1)
      payload av htype]
    cases addInnerLink env t prevState link
        { outerLink := outerLink, signingUser := signer, innerLink := some payload } av with
    | error e => rfl
    | ok iRes => rfl

/-- Witness for C31: on the state after the root link of `acme`, in which `a` is the owner and
`c` has no role, the link that creates the subteam `s-x` gives the same state signed by `c` as
signed by `a`. -/
theorem new_subteam_needs_no_role_witness :
    Demo.rootState.getUserRole (NewUserVersion "a" 1) = TeamRole.OWNER ∧
    Demo.rootState.getUserRole (NewUserVersion "c" 1) = TeamRole.NONE ∧
    addChainLinkCommon Demo.env Demo.fresh (some Demo.rootState)
        { Demo.link 2 "o2s" "subX" "a" with UID := "c" } false
      = addChainLinkCommon Demo.env Demo.fresh (some Demo.rootState)
        (Demo.link 2 "o2s" "subX" "a") false ∧
    addChainLinkCommon Demo.env Demo.fresh (some Demo.rootState)
        (Demo.link 2 "o2s" "subX" "c") false = .ok Demo.subXState :=
  ⟨by decide, by decide,
    new_subteam_needs_no_role Demo.env Demo.fresh (some Demo.rootState)
      (Demo.link 2 "o2s" "subX" "a") false Demo.subXPayload "c" (by decide) (by decide)
      (by decide),
    by decide⟩

end Teams
